import Mathlib

/-!
Update runner of `internal/app/update.go`

A shallow embedding of `Updater.Run`, `Updater.getCurrentVersion` and
`Updater.setCurrentVersion`.

* Go `error` values are represented by their message (`err.Error()`); `nil` is `none`.
  `errors.WithStack` keeps the message, `errors.Wrapf` puts a formatted text and `": "` in
  front of it.
* The database is the single `systemparams` row of `VersionParam`, together with the
  failures the connection answers a statement with.
* An update routine is a state transformer on the part of the kernel it works on; the
  update routines do not touch the `update_version` row themselves.
* The version row stays in the database from one call of `Run` to the next; what the
  connection answers (a `SELECT` or an `INSERT` that fails) is given anew for every call.
* Logging is left out: it has no influence on control flow.
-/

namespace app

/-- VersionParam is the key of the version row in `systemparams`. -/
def VersionParam : String := "update_version"

/-- ErrNoRows is the text of `sql.ErrNoRows`, the error `database/sql` answers a single-row
query with when the result set is empty. -/
def ErrNoRows : String := "sql: no rows in result set"

/-- A failure of a query other than the empty result set (connection lost, missing table,
scan error, cancelled context, ...). `database/sql` keeps the text of `sql.ErrNoRows` for
the empty result set, so the message of a fault is a different one. -/
structure Fault where
  msg : String
  other : msg ≠ ErrNoRows

/-- The database as far as the updater talks to it: the value of the `update_version` row
of `systemparams` (`none`: there is no such row), the fault that a `SELECT` runs into and
the error that an `INSERT ... ON DUPLICATE KEY UPDATE` runs into (`none`: the statement
goes through). -/
structure DB where
  row : Option Int
  getFault : Option Fault
  execFault : Option String

/-- GetContext for the query
`SELECT value FROM systemparams WHERE param = ? LIMIT 1`: the value of the row, the error
`sql.ErrNoRows` when there is no row, or the fault of the connection. -/
def DB.GetContext (db : DB) : Except String Int :=
  match db.getFault with
  | some f => .error f.msg
  | none =>
    match db.row with
    | some value => .ok value
    | none => .error ErrNoRows

/-- ExecContext for the statement
`INSERT INTO systemparams (param, value) VALUES (?, ?) ON DUPLICATE KEY UPDATE value = ?`:
an upsert of the row, or the error of the connection, which leaves the row as it is. -/
def DB.ExecContext (db : DB) (value : Int) : Option String × DB :=
  match db.execFault with
  | some err => (some err, db)
  | none => (none, { db with row := some value })

/-- Kernel: the database handle and the rest of the application state the update routines
work on. -/
structure Kernel (σ : Type) where
  DB : DB
  State : σ

/-- updateFn contains update logic: it returns its error (`none` for `nil`) and the state it
leaves behind. -/
abbrev updateFn (σ : Type) := σ → Option String × σ

/-- Updater with all its update routines. -/
structure Updater (σ : Type) where
  k : Kernel σ
  updates : List (updateFn σ)

/-- Wrapf is `errors.Wrapf(err, "failed to apply update version %d", version)`. -/
def Wrapf (err : String) (version : Nat) : String :=
  "failed to apply update version " ++ toString version ++ ": " ++ err

/-- WithStack is `errors.WithStack`: `nil` stays `nil`, the message is kept. -/
def WithStack (err : Option String) : Option String := err

/-- getCurrentVersion of `update.go`. -/
def getCurrentVersion (db : DB) : Except String Int :=
  match db.GetContext with
  | .error err =>
    if err = "sql: no rows in result set" then .ok (-1)
    else .error err
  | .ok current => .ok current

/-- setCurrentVersion of `update.go`. -/
def setCurrentVersion (db : DB) (current : Int) : Option String × DB :=
  let (err, db1) := db.ExecContext current
  (WithStack err, db1)

/-- The local variables of `Run` after its loop, the state the routines left and the
routines that were invoked, each with what it returned, in the order of invocation. -/
structure Loop (σ : Type) where
  current : Int
  resultingError : Option String
  State : σ
  invoked : List (Nat × Option String)

/-- The loop `for version, update := range u.updates` of `Run`, entered at index `version`
with the rest `updates` of the list still to visit. -/
def rangeUpdates {σ : Type} : List (updateFn σ) → Nat → Int → σ → Loop σ
  | [], _, current, s =>
    { current := current, resultingError := none, State := s, invoked := [] }
  | update :: rest, version, current, s =>
    if (version : Int) ≤ current then
      rangeUpdates rest (version + 1) current s
    else
      match update s with
      | (some err, s1) =>
        { current := current, resultingError := some (Wrapf err version), State := s1,
          invoked := [(version, some err)] }
      | (none, s1) =>
        let l := rangeUpdates rest (version + 1) (version : Int) s1
        { l with invoked := (version, none) :: l.invoked }

/-- What a call of `Run` leaves: the returned error, the kernel after the call, the routines
invoked (ordinal and returned error, in order) and the values handed to
`setCurrentVersion`. -/
structure Outcome (σ : Type) where
  err : Option String
  k : Kernel σ
  invoked : List (Nat × Option String)
  writes : List Int

/-- Run applies all pending updates. -/
def Run {σ : Type} (u : Updater σ) : Outcome σ :=
  match getCurrentVersion u.k.DB with
  | .error err => { err := WithStack (some err), k := u.k, invoked := [], writes := [] }
  | .ok current =>
    let initial := current
    let l := rangeUpdates u.updates 0 current u.k.State
    if initial = l.current ∧ l.resultingError = none then
      { err := none, k := { DB := u.k.DB, State := l.State }, invoked := l.invoked,
        writes := [] }
    else
      match setCurrentVersion u.k.DB l.current with
      | (some err, db1) =>
        { err := WithStack (some err), k := { DB := db1, State := l.State },
          invoked := l.invoked, writes := [l.current] }
      | (none, db1) =>
        { err := l.resultingError, k := { DB := db1, State := l.State },
          invoked := l.invoked, writes := [l.current] }

/-- What a later call of `Run` meets: the state the application is in (whatever happened to
it since the call before), the fault that the `SELECT` of this call runs into and the error
that the `INSERT` of this call runs into (`none`: the statement goes through). -/
structure Call (σ : Type) where
  State : σ
  getFault : Option Fault
  execFault : Option String

/-- The updater as the next call of `Run` finds it: the same routines, the version row as the
call before left it, and the application state and the answers of the connection that belong
to this call. -/
def Updater.next {σ : Type} (u : Updater σ) (c : Call σ) : Updater σ :=
  { u with
    k := { DB := { row := (Run u).k.DB.row, getFault := c.getFault, execFault := c.execFault },
           State := c.State } }

/-- Successive calls of `Run` of one updater on one database: the first call is the one of
`u`, and `calls` lists what each following call meets. -/
def runs {σ : Type} (u : Updater σ) : List (Call σ) → List (Outcome σ)
  | [] => [Run u]
  | c :: rest => Run u :: runs (u.next c) rest

/-- A call at which the connection answers every statement, the application being in the
state `s`. -/
def answered {σ : Type} (s : σ) : Call σ := { State := s, getFault := none, execFault := none }

/-- A call at which the connection answers the `SELECT` and refuses the `INSERT`. -/
def refusing {σ : Type} (s : σ) : Call σ :=
  { State := s, getFault := none,
    execFault := some "Error 1290: The MySQL server is running with the --read-only option" }

/-- A call at which the connection is gone: the `SELECT` fails. -/
def disconnected {σ : Type} (s : σ) : Call σ :=
  { State := s,
    getFault := some ⟨"dial tcp 127.0.0.1:3306: connect: connection refused", by decide⟩,
    execFault := some "dial tcp 127.0.0.1:3306: connect: connection refused" }

/-- The ordinal the store holds: the value of the row, no row counting as `-1`. -/
def persisted (db : DB) : Int :=
  match db.row with
  | some value => value
  | none => -1

/-- The end of a call of `Run` that hands `cur` to `setCurrentVersion` and, if the write goes
through, returns `res`: either the row now holds `cur`, or the error of the write is
returned and the database is as before. -/
def Written {σ : Type} (u : Updater σ) (cur : Int) (res : Option String) : Prop :=
  (Run u).writes = [cur] ∧
    ((u.k.DB.execFault = none ∧ (Run u).err = res ∧
        (Run u).k.DB = { u.k.DB with row := some cur }) ∨
     (∃ w, u.k.DB.execFault = some w ∧ (Run u).err = some w ∧ (Run u).k.DB = u.k.DB))

/-- Routine `A` of the scenario `[A, B, C]`: it succeeds. -/
def routineA : updateFn Bool := fun s => (none, s)

/-- Routine `B` of the scenario: it fails with "disk full" unless the state says that the
disk has room. -/
def routineB : updateFn Bool := fun diskFree =>
  if diskFree then (none, diskFree) else (some "disk full", diskFree)

/-- Routine `C` of the scenario: it succeeds. -/
def routineC : updateFn Bool := fun s => (none, s)

/-- A database without a version row that answers every statement. -/
def emptyDB : DB := { row := none, getFault := none, execFault := none }

/-- The scenario `[A, B, C]` on a database without a version row, the disk being full. -/
def scenario : Updater Bool :=
  { k := { DB := emptyDB, State := false }, updates := [routineA, routineB, routineC] }

/-- The scenario after the disk got room: `B` succeeds. -/
def scenarioFixed : Updater Bool :=
  { k := { DB := emptyDB, State := true }, updates := [routineA, routineB, routineC] }

/-- A database without a version row that answers queries and refuses every write. -/
def readOnlyDB : DB :=
  { row := none, getFault := none,
    execFault := some "Error 1290: The MySQL server is running with the --read-only option" }

/-- The routines `[A, B, C]`, all of which succeed, on the database that refuses writes. -/
def scenarioReadOnly : Updater Bool :=
  { k := { DB := readOnlyDB, State := true }, updates := [routineA, routineB, routineC] }

/-- The routines `[A, B, C]`, the disk being full, on the database that refuses writes: `B`
fails and so does the write of the progress made by `A`. -/
def scenarioBothFail : Updater Bool :=
  { k := { DB := readOnlyDB, State := false }, updates := [routineA, routineB, routineC] }

/-- The routine `B` alone, failing, on a database without a version row. -/
def scenarioFirstFails : Updater Bool :=
  { k := { DB := emptyDB, State := false }, updates := [routineB] }

/-- The routines `[A, B, C]` on a database whose version row holds `2`. -/
def scenarioApplied : Updater Bool :=
  { k := { DB := { row := some 2, getFault := none, execFault := none }, State := false },
    updates := [routineA, routineB, routineC] }

/-- The updater on the same database with the version row replaced by `row`. -/
def Updater.withRow {σ : Type} (u : Updater σ) (row : Option Int) : Updater σ :=
  { u with k := { u.k with DB := { u.k.DB with row := row } } }

/-- A database whose connection is gone: every statement fails. -/
def brokenDB : DB :=
  { row := some 0,
    getFault := some ⟨"dial tcp 127.0.0.1:3306: connect: connection refused", by decide⟩,
    execFault := some "dial tcp 127.0.0.1:3306: connect: connection refused" }

/-- The routines `[A, B, C]` on the database whose connection is gone. -/
def scenarioBroken : Updater Bool :=
  { k := { DB := brokenDB, State := true }, updates := [routineA, routineB, routineC] }

end app

/-!
Daemon supervisor of `internal/daemon/daemon.go`

`Manager.Start` as a function of what it meets at each tick of its ticker: whether the shared
context is cancelled, and what the run function of the daemon does when it is invoked. A
finite list of ticks is a prefix of an execution; `Start` reports how far it got.

* Durations are nanoseconds (`time.Duration`).
* The ticker is the one of `github.com/cenkalti/backoff/v3`: it delivers its first tick at
  once and, each time a tick has been delivered, asks its backoff for the delay until the
  next one. The random draw of `NextBackOff` is left out: the model keeps the interval the
  delay is drawn from (the delay lies within 50% of it).
* The float arithmetic of `incrementCurrentInterval` is exact for the values that occur
  (integers below `2^53` times `1.25`), so it is written with natural numbers.
* The channel of the ticker is closed only by `ticker.Stop()`: the backoff never stops
  (`MaxElapsedTime` is `0`) and its context is never cancelled, so the loop is left only by
  the `return` of the cancellation branch or by a panic.
* Logging is left out.
-/

namespace daemon

/-- One millisecond, in nanoseconds. -/
def Millisecond : Nat := 1000000

/-- One second, in nanoseconds. -/
def Second : Nat := 1000 * Millisecond

/-- ExponentialBackOff of `backoff/v3`, as far as the ticker uses it: `Multiplier` is the
fraction `MultiplierNum / MultiplierDen`; `MaxElapsedTime` is `0` here, so the backoff never
stops. -/
structure ExponentialBackOff where
  InitialInterval : Nat
  MultiplierNum : Nat
  MultiplierDen : Nat
  MaxInterval : Nat
  currentInterval : Nat

/-- Reset of `ExponentialBackOff`: the interval goes back to `InitialInterval`. -/
def ExponentialBackOff.Reset (b : ExponentialBackOff) : ExponentialBackOff :=
  { b with currentInterval := b.InitialInterval }

/-- incrementCurrentInterval of `ExponentialBackOff`:
`if float64(currentInterval) >= float64(MaxInterval)/Multiplier` the interval becomes
`MaxInterval`, otherwise `time.Duration(float64(currentInterval) * Multiplier)`. -/
def ExponentialBackOff.incrementCurrentInterval (b : ExponentialBackOff) :
    ExponentialBackOff :=
  if b.currentInterval * b.MultiplierNum ≥ b.MaxInterval * b.MultiplierDen then
    { b with currentInterval := b.MaxInterval }
  else
    { b with currentInterval := b.currentInterval * b.MultiplierNum / b.MultiplierDen }

/-- NextBackOff of `ExponentialBackOff` with `MaxElapsedTime = 0`: the delay is drawn around
the current interval (which is what is returned here), and the interval is incremented. -/
def ExponentialBackOff.NextBackOff (b : ExponentialBackOff) : Nat × ExponentialBackOff :=
  (b.currentInterval, b.incrementCurrentInterval)

/-- newExponentialBackOff makes sure that the timeout for restarting crashed daemons gets
exponentially longer: 500ms, multiplier 1.25, at most 30s. -/
def newExponentialBackOff : ExponentialBackOff :=
  ExponentialBackOff.Reset
    { InitialInterval := 500 * Millisecond, MultiplierNum := 5, MultiplierDen := 4,
      MaxInterval := 30 * Second, currentInterval := 0 }

/-- What one invocation of the run function of the daemon does: it returns nil, it returns
an error, or it panics. -/
inductive RunResult
  | ok
  | error (msg : String)
  | panic (v : String)
  deriving DecidableEq

/-- Whether the run function returned an error. -/
def RunResult.isError : RunResult → Bool
  | .error _ => true
  | _ => false

/-- What the supervisor meets at one tick: whether `m.ctx.Done()` is closed when the `select`
is evaluated, what `d.Run` does if it is invoked, and the counter of the internal wait group
`wg` that this invocation leaves. -/
structure Tick where
  done : Bool
  result : RunResult
  wg : Nat

/-- The actions of `Start` that the claims are about. `run tries waited result`: `d.Run` is
invoked as the `tries`-th try, the tick before it having come after a delay drawn from the
interval `waited` (`none`: the first tick, which comes at once), and does `result`. -/
inductive Action
  | add
  | run (tries : Nat) (waited : Option Nat) (result : RunResult)
  | wait
  | stop
  | done
  deriving DecidableEq

/-- How far `Start` got: it returned, it was left by a panic, it is in the loop waiting for
the next tick, or it is blocked in `wg.Wait()`. -/
inductive Exit
  | returned
  | panicked (v : String)
  | waiting
  | blocked
  deriving DecidableEq

/-- What the goroutine started by `go m.recoverPanic(d, logger)` does: it ends, or it sleeps
`delay` and calls `m.Start(d)`. -/
inductive Spawned
  | exited
  | restarts (delay : Nat)
  deriving DecidableEq

/-- The built-in `recover`: the value of the panic when it is called directly by a deferred
function of a panicking goroutine, and nil in every other case. -/
def recover (panicking : Option String) (calledByDeferred : Bool) : Option String :=
  if calledByDeferred then panicking else none

/-- recoverPanic recovers a crashed daemon and restarts it; `recovered` is what its call of
`recover()` returns. -/
def recoverPanic (recovered : Option String) : Spawned :=
  match recovered with
  | some _ => .restarts (5 * Second)
  | none => .exited

/-- The local state of `Start`: the counter of the internal wait group `wg`, the counter
`try`, the backoff of the ticker and the interval the delay before the tick at hand was drawn
from. -/
structure State where
  wg : Nat
  tries : Nat
  b : ExponentialBackOff
  waited : Option Nat

/-- The loop `for range ticker.C` of `Start`: the exit, the state then and the actions in
order. -/
def loop : List Tick → State → Exit × State × List Action
  | [], st => (.waiting, st, [])
  | t :: rest, st =>
    let st1 : State := { st with b := st.b.NextBackOff.2, waited := some st.b.NextBackOff.1 }
    if t.done then
      if st.wg = 0 then (.returned, st1, [.wait, .stop])
      else (.blocked, st1, [])
    else
      match t.result with
      | .panic v => (.panicked v, { st1 with tries := st.tries + 1 },
          [.run (st.tries + 1) st.waited (.panic v)])
      | .error msg =>
        let r := loop rest { st1 with tries := st.tries + 1, wg := t.wg }
        (r.1, r.2.1, .run (st.tries + 1) st.waited (.error msg) :: r.2.2)
      | .ok =>
        let r := loop rest { st1 with tries := 0, wg := t.wg }
        (r.1, r.2.1, .run (st.tries + 1) st.waited .ok :: r.2.2)

/-- What a call of `Start` leaves: the exit, the counter of the wait group `m.wg` of the
manager (as far as this call changed it), the local state, the actions in order, and what the
goroutine of `recoverPanic` did. -/
structure Outcome where
  exit : Exit
  outer : Int
  st : State
  log : List Action
  spawned : Spawned

/-- Start starts a daemon: `script` is what it meets at the ticks, `outer` the counter of
`m.wg` before the call. The goroutine of line 50 is a new one, which is not panicking, and
calls `recoverPanic` as an ordinary function. The deferred `m.wg.Done()` runs when `Start`
returns and when a panic leaves it. -/
def Start (script : List Tick) (outer : Int) : Outcome :=
  let spawned := recoverPanic (recover none false)
  let r := loop script
    { wg := 0, tries := 0, b := newExponentialBackOff.Reset, waited := none }
  match r.1 with
  | .returned =>
    { exit := r.1, outer := outer + 1 - 1, st := r.2.1, log := .add :: r.2.2 ++ [.done],
      spawned := spawned }
  | .panicked _ =>
    { exit := r.1, outer := outer + 1 - 1, st := r.2.1, log := .add :: r.2.2 ++ [.done],
      spawned := spawned }
  | _ =>
    { exit := r.1, outer := outer + 1, st := r.2.1, log := .add :: r.2.2,
      spawned := spawned }

/-- The invocations of `d.Run` in a list of actions: the number of the try, the interval the
delay before it was drawn from, and the result. -/
def runsOf : List Action → List (Nat × Option Nat × RunResult)
  | [] => []
  | .run tries waited result :: rest => (tries, waited, result) :: runsOf rest
  | _ :: rest => runsOf rest

/-- The number of consecutive error returns at the end of a list of results. -/
def trailingErrors (results : List RunResult) : Nat :=
  (results.reverse.takeWhile RunResult.isError).length

/-- The interval of the backoff after `k` increments from the initial interval. -/
def intervalAfter (k : Nat) : Nat :=
  (Nat.iterate ExponentialBackOff.incrementCurrentInterval k
    newExponentialBackOff).currentInterval

/-- A tick at which the context is not cancelled and the daemon returns an error. -/
def errorTick (msg : String) : Tick := { done := false, result := .error msg, wg := 0 }

/-- A tick at which the context is not cancelled and the daemon returns nil. -/
def okTick : Tick := { done := false, result := .ok, wg := 0 }

/-- A tick at which the context is not cancelled and the daemon panics. -/
def panicTick (v : String) : Tick := { done := false, result := .panic v, wg := 0 }

/-- A tick at which the context is found cancelled. -/
def doneTick : Tick := { done := true, result := .ok, wg := 0 }

end daemon

/-!
Strings and numbers of the Go standard library

Go strings are sequences of bytes; the functions below look only at ASCII bytes (digits,
signs, `.` and `:`), which never occur inside the encoding of another character, so strings
are taken as sequences of characters.
-/

namespace strings

/-- Index of the first occurrence of `sep` in `s` (`none` for `-1`). -/
def Index (sep : List Char) : List Char → Option Nat
  | [] => if sep.isPrefixOf [] then some 0 else none
  | c :: cs => if sep.isPrefixOf (c :: cs) then some 0 else (Index sep cs).map (fun m => m + 1)

/-- The loop of `genSplit` of package `strings` for a separator that is not empty: cut at the
first occurrence of `sep` and go on behind it; `n` bounds the number of cuts. -/
def genSplit (sep : List Char) : Nat → List Char → List (List Char)
  | 0, s => [s]
  | n + 1, s =>
    match Index sep s with
    | none => [s]
    | some m => s.take m :: genSplit sep n (s.drop (m + sep.length))

/-- Split slices `s` into all substrings separated by `sep` (which is not empty); there are at
most as many cuts as `s` has characters. -/
def Split (s sep : String) : List String :=
  (genSplit sep.data s.data.length s.data).map String.mk

end strings

namespace strconv

/-- The value of a run of decimal digits after `n`, as the loop `n = n*10 + int(ch)` computes
it; `none` when a byte is not a digit (`ch -= '0'; ch > 9`). -/
def digits : List Char → Nat → Option Nat
  | [], n => some n
  | ch :: rest, n =>
    if 48 ≤ ch.toNat ∧ ch.toNat - 48 ≤ 9 then digits rest (n * 10 + (ch.toNat - 48))
    else none

/-- Atoi is `ParseInt(s, 10, 0)` on a 64-bit platform: an optional sign, then at least one
decimal digit and nothing else; `none` stands for the error (`ErrSyntax`, or `ErrRange` when
the value does not fit `int64`). -/
def Atoi (s : String) : Option Int :=
  match s.data with
  | [] => none
  | c :: cs =>
    let ds := if c = '-' ∨ c = '+' then cs else c :: cs
    if ds = [] then none
    else
      match digits ds 0 with
      | none => none
      | some n =>
        if c = '-' then (if n > 2 ^ 63 then none else some (-(n : Int)))
        else (if n ≥ 2 ^ 63 then none else some (n : Int))

end strconv

/-!
Package `pkg/validation`
-/

namespace validation

/-- ValidateIP validates a IPv4 input string. -/
def ValidateIP (input : String) : Bool :=
  let parts := strings.Split input "."
  if parts.length ≠ 4 then false
  else
    parts.all fun part =>
      match strconv.Atoi part with
      | none => false
      | some i => if i < 0 ∨ i > 255 then false else true

/-- Error represents a single validation error; `Data` is the map of its meta data, as the
list of its entries. -/
structure Error where
  Key : String
  Message : String
  Translated : String
  Data : List (String × String)
  deriving DecidableEq

/-- ErrorBag contains error messages for a certain field: `errors` is the map of field names
to their errors, as the list of its entries (every field name once). -/
structure ErrorBag where
  errors : List (String × List Error)
  subject : String
  deriving DecidableEq

/-- NewErrorBag returns a new empty error bag. -/
def NewErrorBag (subject : String) : ErrorBag := { errors := [], subject := subject }

/-- The assignment `errors[key] = append(errors[key], vErr)` on the map. -/
def appendError : List (String × List Error) → String → Error → List (String × List Error)
  | [], key, vErr => [(key, [vErr])]
  | (k, errs) :: rest, key, vErr =>
    if k = key then (k, errs ++ [vErr]) :: rest else (k, errs) :: appendError rest key vErr

/-- AddData adds a new error to the ErrorBag including meta data. -/
def ErrorBag.AddData (e : ErrorBag) (key message : String) (data : List (String × String)) :
    ErrorBag :=
  let vErr : Error :=
    { Key := key, Message := "validation." ++ message, Translated := "", Data := data }
  { e with errors := appendError e.errors key vErr }

/-- Add adds a new error to the ErrorBag. -/
def ErrorBag.Add (e : ErrorBag) (key message : String) : ErrorBag := e.AddData key message []

/-- Get gets all errors for a given key. -/
def ErrorBag.Get (e : ErrorBag) (key : String) : List Error :=
  match e.errors.find? (fun entry => entry.1 = key) with
  | some entry => entry.2
  | none => []

/-- Failed can be used to check if the validation failed (errors are present). -/
def ErrorBag.Failed (e : ErrorBag) : Bool := e.errors.length > 0

/-- ErrFailed is returned for failed validation attempts. -/
def ErrFailed : String := "validation failed"

end validation

/-!
Entities, session and the `restricted` directive
-/

namespace entity

/-- User is the central user identity used for authentication; the times are `null.Time`
values. -/
structure User where
  ID : Int
  Name : String
  Password : String
  IsSuperuser : Bool
  CreatedAt : Option Nat
  UpdatedAt : Option Nat
  deriving DecidableEq

/-- Role belongs to a user, has many permissions. -/
structure Role where
  ID : Int
  Name : String
  deriving DecidableEq

end entity

namespace session

/-- UserFromContext tries to fetch the currently logged in user from the request context:
`ctx` is the user the value under `CtxKey` points to, `none` when there is no such value or
it is not a `*entity.User` (the middleware stores pointers to users it has found, never a
nil pointer). -/
def UserFromContext (ctx : Option entity.User) : Except String entity.User :=
  match ctx with
  | some user => .ok user
  | none => .error "invalid auth user received from context"

end session

namespace gqldirectives

/-- Error codes that are used in the frontend. -/
def ErrMissingAuth : String := "MISSING_AUTH"

/-- Error code for a missing permission. -/
def ErrMissingPermission : String := "MISSING_PERMISSION"

/-- What a call of the directive does: it calls `next` and returns what `next` returned, or
it returns an error of its own without calling `next`. -/
inductive Outcome (ρ : Type)
  | called (res : Except String ρ)
  | refused (err : String)

/-- The loop over `permissions` of `Restricted` for a user who is not a superuser: the error
it returns, `none` when it comes to its end. `can` is `a.Can`. -/
def checkPermissions (can : Int → String → String → Bool) (u : entity.User) :
    List String → Option String
  | [] => none
  | p :: rest =>
    match strings.Split p "::" with
    | [code, level] =>
      if can u.ID code level then checkPermissions can u rest
      else some ("auth check: " ++ ErrMissingPermission ++ ": " ++ p)
    | _ =>
      some ("auth check: invalid permission code, format \"permission.code::level\" expected: "
        ++ p)

/-- Restricted checks if the currently authenticated user has a certain permission. -/
def Restricted {ρ : Type} (can : Int → String → String → Bool) (ctx : Option entity.User)
    (next : Option entity.User → Except String ρ) (permissions : List String) : Outcome ρ :=
  match session.UserFromContext ctx with
  | .error err => .refused ("auth check: " ++ ErrMissingAuth ++ ": " ++ err)
  | .ok u =>
    if u.IsSuperuser then .called (next ctx)
    else
      match checkPermissions can u permissions with
      | some err => .refused err
      | none => .called (next ctx)

end gqldirectives

/-!
User update (`gqlresolvers/user.go`, `pkg/user`) and role deletion (`pkg/role`)

The database of the user store is the list of the rows of `users`, together with the errors
its collaborators answer with (`none`: the call goes through). A transaction that is rolled
back or whose commit fails leaves the rows as they were.
-/

namespace db

/-- ErrNotExists is returned when a query is executed on a non-existing entity. -/
def ErrNotExists : String := "cannot update a non-existing entity"

/-- RollbackError rolls back a transaction and returns the provided error; `rollbackErr` is
what `tx.Rollback()` returns. -/
def RollbackError (rollbackErr : Option String) (originalErr : Option String) :
    Option String :=
  match rollbackErr with
  | some err => some ("failed to rollback transaction: " ++ err)
  | none => originalErr

end db

namespace gqlmodels

/-- Modelled from the spec: the type `gqlmodels.UserInput` is generated code that is not among
the sources; its fields are the ones that `user.go` and `validation.go` read. `ID` is a
`*int` and `Roles` a slice (`none`: nil). -/
structure UserInput where
  ID : Option Int
  Name : String
  Password : String
  PasswordRepeat : String
  IsSuperuser : Bool
  Roles : Option (List Int)

end gqlmodels

namespace user

/-- ErrNotFound is returned when a requested user could not be found. -/
def ErrNotFound : String := "user not found"

/-- ValidateUpdateRequest validates an update request of this entity (`len` counts bytes). -/
def ValidateUpdateRequest (input : gqlmodels.UserInput) : validation.ErrorBag :=
  let errs := validation.NewErrorBag "user"
  let errs :=
    match input.ID with
    | none => errs.Add "id" "required"
    | some id => if id < 1 then errs.Add "id" "required" else errs
  let errs := if input.Name = "" then errs.Add "name" "required" else errs
  if input.Password ≠ "" then
    let errs :=
      if input.Password.utf8ByteSize < 4 then
        errs.AddData "password" "min_length" [("size", "4")]
      else errs
    let errs :=
      if input.PasswordRepeat = "" then errs.Add "password_repeat" "required" else errs
    if input.Password ≠ input.PasswordRepeat then errs.Add "password_repeat" "no_match"
    else errs
  else errs

/-- Store handles the direct database access for this entity: the rows of `users`, the time
of the clock, and the errors of `GetContext` (other than `sql.ErrNoRows`), `Begin`,
`ExecContext`, the auditor, `Commit` and `Rollback`. -/
structure Store where
  users : List entity.User
  now : Nat
  findErr : Option String
  beginErr : Option String
  execErr : Option String
  auditErr : Option String
  commitErr : Option String
  rollbackErr : Option String

/-- Find finds the entity by id; `checkNotFound` turns `sql.ErrNoRows` into `ErrNotFound`. -/
def Store.Find (s : Store) (id : Int) : Except String entity.User :=
  match s.findErr with
  | some err => .error err
  | none =>
    match s.users.find? (fun u => u.ID = id) with
    | some u => .ok u
    | none => .error ErrNotFound

/-- The statement
`UPDATE users SET name = ?, password = ?, is_superuser = ?, updated_at = ? WHERE id = ?`
on the rows. -/
def updateRow (rows : List entity.User) (user : entity.User) : List entity.User :=
  rows.map fun row =>
    if row.ID = user.ID then
      { row with Name := user.Name, Password := user.Password,
                 IsSuperuser := user.IsSuperuser, UpdatedAt := user.UpdatedAt }
    else row

/-- Update saves an updated entity to the database: the returned user, the returned error
and the store afterwards. -/
def Store.Update (s : Store) (user : entity.User) : (entity.User × Option String) × Store :=
  if user.ID < 1 then ((user, some db.ErrNotExists), s)
  else
    match s.Find user.ID with
    | .error err => ((user, some err), s)
    | .ok current =>
      let user1 := if user.Password = "" then { user with Password := current.Password } else user
      let user2 := { user1 with CreatedAt := current.CreatedAt, UpdatedAt := some s.now }
      match s.beginErr with
      | some err => ((user2, some err), s)
      | none =>
        match s.execErr with
        | some err => ((user2, db.RollbackError s.rollbackErr (some err)), s)
        | none =>
          match s.auditErr with
          | some err => ((user2, db.RollbackError s.rollbackErr (some err)), s)
          | none =>
            match s.commitErr with
            | some err => ((user2, some err), s)
            | none => ((user2, none), { s with users := updateRow s.users user2 })

/-- hashPassword hashes and sets the password of the user; `bcrypt` is
`bcrypt.GenerateFromPassword` with the default cost. -/
def hashPassword (bcrypt : String → Except String String) (u : entity.User) :
    Except String entity.User :=
  match bcrypt u.Password with
  | .error err => .error ("failed to hash user password: " ++ err)
  | .ok hashed => .ok { u with Password := hashed }

/-- Update of the service updates a user account. The password is hashed automatically. The
returned user is `none` for nil. -/
def Service.Update (bcrypt : String → Except String String) (s : Store) (u : entity.User) :
    (Option entity.User × Option String) × Store :=
  if u.Password ≠ "" then
    match hashPassword bcrypt u with
    | .error err => ((none, some err), s)
    | .ok hashed => (((s.Update hashed).1.1, (s.Update hashed).1.2), (s.Update hashed).2)
  else (((s.Update u).1.1, (s.Update u).1.2), (s.Update u).2)

end user

namespace gqlresolvers

/-- handleIntPtr returns 0 for a nil pointer value, otherwise returns the original input. -/
def handleIntPtr (id : Option Int) : Int :=
  match id with
  | none => 0
  | some v => v

/-- toUserEntity of `user.go`; the times are the zero value. -/
def toUserEntity (input : gqlmodels.UserInput) : entity.User :=
  { ID := handleIntPtr input.ID, Name := input.Name, Password := input.Password,
    IsSuperuser := input.IsSuperuser, CreatedAt := none, UpdatedAt := none }

/-- What a call of `UpdateUser` leaves: the returned user (`none`: nil) and error, the
entities it handed to `Services.User.Update`, and the store afterwards. -/
structure UpdateResult where
  result : Option entity.User
  err : Option String
  updates : List entity.User
  store : user.Store

/-- UpdateUser of the mutation resolver. `ctx` is the user of the request context;
`SyncRoles` of the user service is taken as a parameter. -/
def UpdateUser (bcrypt : String → Except String String)
    (SyncRoles : user.Store → entity.User → List Int → (entity.User × Option String) × user.Store)
    (s : user.Store) (ctx : Option entity.User) (input : gqlmodels.UserInput) :
    UpdateResult :=
  match session.UserFromContext ctx with
  | .error err => { result := none, err := some err, updates := [], store := s }
  | .ok authUser =>
    if !authUser.IsSuperuser && input.IsSuperuser then
      { result := none, err := some "non superuser accounts cannot edit superuser accounts",
        updates := [], store := s }
    else if (user.ValidateUpdateRequest input).Failed then
      { result := none, err := some validation.ErrFailed, updates := [], store := s }
    else
      let r := user.Service.Update bcrypt s (toUserEntity input)
      match r.1.2 with
      | some err =>
        { result := none, err := some err, updates := [toUserEntity input], store := r.2 }
      | none =>
        match input.Roles, r.1.1 with
        | some roles, some u =>
          let r2 := SyncRoles r.2 u roles
          match r2.1.2 with
          | some err =>
            { result := none, err := some err, updates := [toUserEntity input], store := r2.2 }
          | none =>
            { result := some r2.1.1, err := none, updates := [toUserEntity input],
              store := r2.2 }
        | _, u => { result := u, err := none, updates := [toUserEntity input], store := r.2 }

/-- The administrator of the example: account 1, a superuser. -/
def admin : entity.User :=
  { ID := 1, Name := "admin", Password := "bcrypt(secret)", IsSuperuser := true,
    CreatedAt := some 100, UpdatedAt := some 100 }

/-- An account that is not a superuser. -/
def mallory : entity.User :=
  { ID := 2, Name := "mallory", Password := "bcrypt(12345)", IsSuperuser := false,
    CreatedAt := some 200, UpdatedAt := some 200 }

/-- A store with the two accounts in which every call goes through. -/
def exampleStore : user.Store :=
  { users := [admin, mallory], now := 300, findErr := none, beginErr := none,
    execErr := none, auditErr := none, commitErr := none, rollbackErr := none }

/-- A stand-in for `bcrypt.GenerateFromPassword`. -/
def exampleBcrypt (password : String) : Except String String :=
  .ok ("bcrypt(" ++ password ++ ")")

/-- A `SyncRoles` that goes through. -/
def exampleSyncRoles (s : user.Store) (u : entity.User) (_ : List Int) :
    (entity.User × Option String) × user.Store :=
  ((u, none), s)

/-- The update mallory sends for account 1: a new password, the superuser flag not set. -/
def takeover : gqlmodels.UserInput :=
  { ID := some 1, Name := "admin", Password := "hunter22", PasswordRepeat := "hunter22",
    IsSuperuser := false, Roles := none }

end gqlresolvers

namespace role

/-- The collaborators of `Delete`: `util.UniqueInts` (not among the sources), what
`GetByID` returns (the roles in the order in which the map is iterated), and the errors of
`Begin`, of the two `ToSql` calls, of the two `ExecContext` calls, of `Rollback` and of
`Commit`. -/
structure Env where
  UniqueInts : List Int → List Int
  getByID : List Int → Except String (List entity.Role)
  beginErr : Option String
  toSqlRolesErr : Option String
  execRolesErr : Option String
  toSqlRoleUserErr : Option String
  execRoleUserErr : Option String
  rollbackErr : Option String
  commitErr : Option String

/-- The calls of `Delete` to the database and to the auth manager. -/
inductive Op
  | getByID (ids : List Int)
  | begin
  | exec (table : String) (ids : List Int)
  | rollback
  | commit
  | authDeleteRole (id : Int)
  deriving DecidableEq

/-- Delete removes multiple entities from the database: the returned roles, the returned
error and the calls made, in order. -/
def Delete (env : Env) (ids : List Int) : (List entity.Role × Option String) × List Op :=
  if ids.length < 1 then (([], none), [])
  else if ids.any (fun id => id = 1) then (([], some "cannot delete admin role"), [])
  else
    match env.getByID ids with
    | .error err => (([], some err), [.getByID ids])
    | .ok returned =>
      match env.beginErr with
      | some err => (([], some err), [.getByID ids, .begin])
      | none =>
        match env.toSqlRolesErr with
        | some err =>
          (([], db.RollbackError env.rollbackErr (some err)), [.getByID ids, .begin, .rollback])
        | none =>
          match env.execRolesErr with
          | some err =>
            (([], db.RollbackError env.rollbackErr (some err)),
              [.getByID ids, .begin, .exec "roles" (env.UniqueInts ids), .rollback])
          | none =>
            match env.toSqlRoleUserErr with
            | some err =>
              (([], db.RollbackError env.rollbackErr (some err)),
                [.getByID ids, .begin, .exec "roles" (env.UniqueInts ids), .rollback])
            | none =>
              match env.execRoleUserErr with
              | some err =>
                (([], db.RollbackError env.rollbackErr (some err)),
                  [.getByID ids, .begin, .exec "roles" (env.UniqueInts ids),
                    .exec "role_user" (env.UniqueInts ids), .rollback])
              | none =>
                ((returned, env.commitErr),
                  [.getByID ids, .begin, .exec "roles" (env.UniqueInts ids),
                    .exec "role_user" (env.UniqueInts ids)]
                  ++ ids.map Op.authDeleteRole ++ [.commit])

/-- Collaborators that all go through, with two roles in the database. -/
def exampleEnv : Env :=
  { UniqueInts := List.dedup,
    getByID := fun ids =>
      .ok (([{ ID := 1, Name := "admin" }, { ID := 2, Name := "editor" }] :
        List entity.Role).filter (fun r => ids.contains r.ID)),
    beginErr := none, toSqlRolesErr := none, execRolesErr := none, toSqlRoleUserErr := none,
    execRoleUserErr := none, rollbackErr := none, commitErr := none }

end role

/-!
Go maps

A Go map is taken as the list of its entries, every key once; a `range` over it visits the
entries in the order of the list (Go leaves the order open).
-/

namespace gomap

/-- The value `m[key]`, `none` when the key is absent (`ok` false). -/
def index {α : Type} : List (String × α) → String → Option α
  | [], _ => none
  | (k, v) :: rest, key => if k = key then some v else index rest key

/-- The assignment `m[key] = v`. -/
def assign {α : Type} : List (String × α) → String → α → List (String × α)
  | [], key, v => [(key, v)]
  | (k, w) :: rest, key, v =>
    if k = key then (k, v) :: rest else (k, w) :: assign rest key v

end gomap

/-!
Permissions of a role (`pkg/role/store.go`), role mutations (`gqlresolvers/role.go`)
-/

namespace entity

/-- PermissionLevel is a string type; these are its constants. -/
def PermissionLevelNone : String := "none"

/-- The level `read`. -/
def PermissionLevelRead : String := "read"

/-- The level `write`. -/
def PermissionLevelWrite : String := "write"

/-- The level `manage`. -/
def PermissionLevelManage : String := "manage"

/-- Permission is a permission of a role: a code and a level (any string: `PermissionLevel`
is `string`). -/
structure Permission where
  ID : Int
  Code : String
  Level : String
  deriving DecidableEq

end entity

namespace user

/-- ValidateCreateRequest validates a create request of this entity (`len` counts bytes). -/
def ValidateCreateRequest (input : gqlmodels.UserInput) : validation.ErrorBag :=
  let errs := validation.NewErrorBag "user"
  let errs := if input.Name = "" then errs.Add "name" "required" else errs
  let errs :=
    if input.Password = "" then errs.Add "password" "required"
    else if input.Password.utf8ByteSize < 4 then
      errs.AddData "password" "min" [("size", "4")]
    else errs
  let errs :=
    if input.PasswordRepeat = "" then errs.Add "password_repeat" "required" else errs
  if input.Password ≠ input.PasswordRepeat then errs.Add "password_repeat" "no_match"
  else errs

end user

namespace db

/-- Connection, as far as `WithTx` uses it: what `Begin`, `Commit` and `Rollback` of the
transaction return (`none`: nil). -/
structure Connection where
  beginErr : Option String
  commitErr : Option String
  rollbackErr : Option String

/-- The calls of `WithTx`, in order. -/
inductive TxOp
  | Begin
  | fn
  | Rollback
  | Commit
  deriving DecidableEq

/-- WithTx runs a closure inside a transaction; `fn` is what the closure returns. The result
is the returned error and the calls made. -/
def Connection.WithTx (c : Connection) (fn : Option String) : Option String × List TxOp :=
  match c.beginErr with
  | some err => (some err, [.Begin])
  | none =>
    match fn with
    | some _ => (c.rollbackErr, [.Begin, .fn, .Rollback])
    | none => (c.commitErr, [.Begin, .fn, .Commit])

end db

namespace role

/-- The calls to the auth manager `s.auth`. -/
inductive AuthCall
  | DeleteRole (id : Int)
  | AddRolePermission (id : Int) (code level : String)
  | AddRoleForUser (userID roleID : Int)
  | RemoveRoleForUser (userID roleID : Int)
  deriving DecidableEq

/-- The type permissionsMap contains all permissions with a map of their active levels. -/
abbrev permissionsMap : Type := List (String × List (String × Bool))

/-- The assignment `perms[code][level] = true`; `SyncPermissions` has created `perms[code]`
before. -/
def setLevel (perms : permissionsMap) (code level : String) : permissionsMap :=
  gomap.assign perms code (gomap.assign ((gomap.index perms code).getD []) level true)

/-- ensureLevelPermissions make sure that all lower levels for a permission are included as
well. -/
def ensureLevelPermissions (perms : permissionsMap) (permission : entity.Permission) :
    permissionsMap :=
  let levels :=
    [entity.PermissionLevelRead, entity.PermissionLevelWrite, entity.PermissionLevelManage]
  let levels :=
    if permission.Level = entity.PermissionLevelWrite then levels.take 2
    else if permission.Level = entity.PermissionLevelRead then levels.take 1
    else levels
  levels.foldl (fun perms level => setLevel perms permission.Code level) perms

/-- The body of the first loop of `SyncPermissions` for one permission. -/
def collect (perms : permissionsMap) (permission : entity.Permission) : permissionsMap :=
  if permission.Level = entity.PermissionLevelNone then perms
  else
    let perms :=
      match gomap.index perms permission.Code with
      | some _ => perms
      | none => gomap.assign perms permission.Code []
    ensureLevelPermissions perms permission

/-- The second loop of `SyncPermissions`: the calls of `AddRolePermission`. -/
def addRolePermissions (id : Int) : permissionsMap → List AuthCall
  | [] => []
  | (code, levels) :: rest =>
    levels.map (fun level => AuthCall.AddRolePermission id code level.1)
      ++ addRolePermissions id rest

/-- SyncPermissions sets the permissions for a role: the returned role and error, and the
calls to the auth manager in order. -/
def SyncPermissions (u : entity.Role) (permissions : List entity.Permission) :
    (entity.Role × Option String) × List AuthCall :=
  let perms := permissions.foldl collect []
  ((u, none), .DeleteRole u.ID :: addRolePermissions u.ID perms)

end role

namespace gqlmodels

/-- Modelled from the spec: the type `gqlmodels.PermissionInput` is generated code that is not
among the sources; its fields are the ones that `mapPermissions` reads. -/
structure PermissionInput where
  Code : String
  Level : String

/-- Modelled from the spec: the type `gqlmodels.RoleInput` is generated code that is not among
the sources; its fields are the ones that `role.go` and `validation.go` read. `ID` is a
`*int`, `Permissions` and `Users` are slices (`none`: nil). -/
structure RoleInput where
  ID : Option Int
  Name : String
  Permissions : Option (List PermissionInput)
  Users : Option (List Int)

end gqlmodels

namespace role

/-- ValidateCreateRequest validates a create request of this entity. -/
def ValidateCreateRequest (input : gqlmodels.RoleInput) : validation.ErrorBag :=
  let errs := validation.NewErrorBag "role"
  if input.Name = "" then errs.Add "name" "required" else errs

/-- ValidateUpdateRequest validates an update request of this entity. -/
def ValidateUpdateRequest (input : gqlmodels.RoleInput) : validation.ErrorBag :=
  ValidateCreateRequest input

/-- The error `sql.ErrTxDone` of a second `Rollback` on a transaction. -/
def ErrTxDone : String := "sql: transaction has already been committed or rolled back"

/-- Store handles the direct database access for this entity: the rows of `roles`, the rows
of `role_user` (user id, role id), the id the database gives to the next inserted role, and
the errors of `Exec` (in `Create` and `Update`), `LastInsertId`, `Begin`, `SelectContext`,
the `DELETE` on `role_user`, the insert of a user id (`ToSql` or `ExecContext`), `Commit` and
`Rollback`. A transaction that is rolled back or whose commit fails leaves the rows as they
were. -/
structure Store where
  roles : List entity.Role
  roleUser : List (Int × Int)
  lastInsertId : Int
  execErr : Option String
  lastInsertIdErr : Option String
  beginErr : Option String
  selectErr : Option String
  deleteErr : Option String
  insertErr : Int → Option String
  commitErr : Option String
  rollbackErr : Option String

/-- Create creates a new entity: the returned role, the returned error and the store
afterwards. -/
def Store.Create (s : Store) (role : entity.Role) : (entity.Role × Option String) × Store :=
  match s.execErr with
  | some err => ((role, some err), s)
  | none =>
    let inserted := { s with roles := s.roles ++ [{ role with ID := s.lastInsertId }] }
    match s.lastInsertIdErr with
    | some err => ((role, some err), inserted)
    | none => (({ role with ID := s.lastInsertId }, none), inserted)

/-- Update saves an updated entity to the database
(`UPDATE roles SET name = ?, updated_at = ? WHERE id = ?`). -/
def Store.Update (s : Store) (role : entity.Role) : (entity.Role × Option String) × Store :=
  if role.ID < 1 then ((role, some db.ErrNotExists), s)
  else
    match s.execErr with
    | some err => ((role, some err), s)
    | none =>
      ((role, none),
        { s with roles := s.roles.map fun row =>
            if row.ID = role.ID then { row with Name := role.Name } else row })

/-- The function getCurrentUsers returns all currently attached user ids; on an error of the
query it has rolled the transaction back (`db.RollbackError`). -/
def Store.getCurrentUsers (s : Store) (source : entity.Role) : List Int × Option String :=
  match s.selectErr with
  | some err => ([], db.RollbackError s.rollbackErr (some err))
  | none => ((s.roleUser.filter (fun row => row.2 = source.ID)).map Prod.fst, none)

/-- The loop over `userIDs` of `SyncUsers`: the error it returns with (`none` when it comes
to its end), the rows inserted and the calls of `AddRoleForUser`. -/
def Store.insertUsers (s : Store) (roleID : Int) :
    List Int → Option String × List (Int × Int) × List AuthCall
  | [] => (none, [], [])
  | userID :: rest =>
    match s.insertErr userID with
    | some err => (some err, [], [])
    | none =>
      ((insertUsers s roleID rest).1, (userID, roleID) :: (insertUsers s roleID rest).2.1,
        .AddRoleForUser userID roleID :: (insertUsers s roleID rest).2.2)

/-- SyncUsers sets the provided user IDs for a role: the returned role and error, the store
afterwards and the calls to the auth manager. After a failed `getCurrentUsers` the
transaction is rolled back a second time, which `database/sql` answers with `ErrTxDone`. -/
def Store.SyncUsers (s : Store) (source : entity.Role) (userIDs : List Int) :
    (entity.Role × Option String) × Store × List AuthCall :=
  match s.beginErr with
  | some err => ((source, some err), s, [])
  | none =>
    match (s.getCurrentUsers source).2 with
    | some err => ((source, db.RollbackError (some ErrTxDone) (some err)), s, [])
    | none =>
      let removed :=
        (s.getCurrentUsers source).1.map fun userID => AuthCall.RemoveRoleForUser userID source.ID
      match s.deleteErr with
      | some err => ((source, db.RollbackError s.rollbackErr (some err)), s, removed)
      | none =>
        let r := s.insertUsers source.ID userIDs
        match r.1 with
        | some err => ((source, db.RollbackError s.rollbackErr (some err)), s, removed ++ r.2.2)
        | none =>
          match s.commitErr with
          | some err => ((source, some err), s, removed ++ r.2.2)
          | none =>
            ((source, none),
              { s with roleUser := s.roleUser.filter (fun row => row.2 ≠ source.ID) ++ r.2.1 },
              removed ++ r.2.2)

end role

namespace gqlresolvers

/-- The calls of the role mutations to `Services.Role` (the type `role.Service` is not among
the sources; like the other services it embeds the store, so that these are the methods of
`role.Store`). -/
inductive RoleCall
  | Create (role : entity.Role)
  | Update (role : entity.Role)
  | SyncPermissions (role : entity.Role) (permissions : List entity.Permission)
  | SyncUsers (role : entity.Role) (userIDs : List Int)
  deriving DecidableEq

/-- What a role mutation leaves: the returned role (`none`: nil) and error, the calls to the
role service and to the auth manager in order, and the store afterwards. -/
structure RoleResult where
  result : Option entity.Role
  err : Option String
  calls : List RoleCall
  auth : List role.AuthCall
  store : role.Store

/-- toRoleEntity of `role.go`. -/
def toRoleEntity (input : gqlmodels.RoleInput) : entity.Role :=
  { ID := handleIntPtr input.ID, Name := input.Name }

/-- mapPermissions turns the permission inputs into permissions. -/
def mapPermissions (input : List gqlmodels.PermissionInput) : List entity.Permission :=
  input.map fun p => { ID := 0, Code := p.Code, Level := p.Level }

/-- The step `if input.Permissions != nil { u, err = SyncPermissions(...) }` of both role
mutations, after a call that returned `u`. -/
def syncPermissions (input : gqlmodels.RoleInput) (u : entity.Role) (calls : List RoleCall)
    (s : role.Store) : RoleResult :=
  match input.Permissions with
  | some permissions =>
    { result := some (role.SyncPermissions u (mapPermissions permissions)).1.1,
      err := (role.SyncPermissions u (mapPermissions permissions)).1.2,
      calls := calls ++ [.SyncPermissions u (mapPermissions permissions)],
      auth := (role.SyncPermissions u (mapPermissions permissions)).2,
      store := s }
  | none => { result := some u, err := none, calls := calls, auth := [], store := s }

/-- The step `u, err = r.Services.Role.SyncUsers(ctx, u, input.Users)`; a nil slice is an
empty list of user ids. -/
def syncUsers (input : gqlmodels.RoleInput) (u : entity.Role) (r : RoleResult) : RoleResult :=
  { result := some (r.store.SyncUsers u (input.Users.getD [])).1.1,
    err := (r.store.SyncUsers u (input.Users.getD [])).1.2,
    calls := r.calls ++ [.SyncUsers u (input.Users.getD [])],
    auth := r.auth ++ (r.store.SyncUsers u (input.Users.getD [])).2.2,
    store := (r.store.SyncUsers u (input.Users.getD [])).2.1 }

/-- CreateRole of the mutation resolver. -/
def CreateRole (s : role.Store) (input : gqlmodels.RoleInput) : RoleResult :=
  if (role.ValidateCreateRequest input).Failed then
    { result := none, err := some validation.ErrFailed, calls := [], auth := [], store := s }
  else
    let created := s.Create (toRoleEntity input)
    match created.1.2 with
    | some err =>
      { result := none, err := some err, calls := [.Create (toRoleEntity input)], auth := [],
        store := created.2 }
    | none =>
      let r := syncPermissions input created.1.1 [.Create (toRoleEntity input)] created.2
      match r.err, r.result with
      | some err, _ => { r with result := none, err := some err }
      | none, none => r
      | none, some u =>
        if input.Users.isSome then syncUsers input u r
        else r

/-- UpdateRole of the mutation resolver. The second step is guarded by
`input.Permissions != nil` (line 94) and returns nil for the role when it fails. -/
def UpdateRole (s : role.Store) (input : gqlmodels.RoleInput) : RoleResult :=
  if (role.ValidateUpdateRequest input).Failed then
    { result := none, err := some validation.ErrFailed, calls := [], auth := [], store := s }
  else
    let updated := s.Update (toRoleEntity input)
    match updated.1.2 with
    | some err =>
      { result := none, err := some err, calls := [.Update (toRoleEntity input)], auth := [],
        store := updated.2 }
    | none =>
      let r := syncPermissions input updated.1.1 [.Update (toRoleEntity input)] updated.2
      match r.err, r.result with
      | some err, _ => { r with result := none, err := some err }
      | none, none => r
      | none, some u =>
        if input.Permissions.isSome then
          match (syncUsers input u r).err with
          | some err => { syncUsers input u r with result := none, err := some err }
          | none => syncUsers input u r
        else r

/-- A role store with the roles admin and editor, two users attached to editor and one to
admin, in which every call goes through. -/
def exampleRoles : role.Store :=
  { roles := [{ ID := 1, Name := "admin" }, { ID := 2, Name := "editor" }],
    roleUser := [(5, 2), (6, 2), (5, 1)], lastInsertId := 3, execErr := none,
    lastInsertIdErr := none, beginErr := none, selectErr := none, deleteErr := none,
    insertErr := fun _ => none, commitErr := none, rollbackErr := none }

/-- An update of the editor role that sets a permission and says nothing about users. -/
def permissionsOnly : gqlmodels.RoleInput :=
  { ID := some 2, Name := "editor", Permissions := some [{ Code := "quote", Level := "read" }],
    Users := none }

/-- An update of the editor role that sets its users and says nothing about permissions. -/
def usersOnly : gqlmodels.RoleInput :=
  { ID := some 2, Name := "editor", Permissions := none, Users := some [7] }

end gqlresolvers
/-!
Package `pkg/i18n`, translated validation errors, and the buffered log writer

The data of a locale comes from YAML files: nested maps with string keys, strings, and values
that are neither (numbers, booleans, lists, null).
-/

namespace strings

/-- HasPrefix tests whether the string `s` begins with `pre`. -/
def HasPrefix (s pre : String) : Bool := pre.data.isPrefixOf s.data

/-- The loop of `Replace` for an `old` that is not empty: the first `n` occurrences of `old`
that do not overlap are replaced by `new`. -/
def replace (old new : List Char) : Nat → List Char → List Char
  | 0, s => s
  | n + 1, s =>
    match Index old s with
    | none => s
    | some m => s.take m ++ new ++ replace old new n (s.drop (m + old.length))

/-- Replace returns a copy of `s` with the first `n` non-overlapping instances of `old`
(which is not empty) replaced by `new`; if `n < 0`, there is no limit on the number of
replacements (there are at most as many as `s` has characters). -/
def Replace (s old new : String) (n : Int) : String :=
  if old = new ∨ n = 0 then s
  else String.mk (replace old.data new.data (if n < 0 then s.data.length else n.toNat) s.data)

/-- ReplaceAll is `Replace` without a limit. -/
def ReplaceAll (s old new : String) : String := Replace s old new (-1)

end strings

namespace i18n

/-- ReferencePrefix is used by vue-i18n to reference another locale key. -/
def ReferencePrefix : String := "@:"

/-- A value of the data of a locale (an `interface{}`): nil, a string, a map with string
keys, or another value that is not a map and not a struct (a number, a boolean, a list),
given by the text that the verb `%s` prints for it. -/
inductive Value
  | null
  | str (s : String)
  | map (entries : List (String × Value))
  | other (printed : String)

/-- Locale contains all translation information for a single locale. -/
structure Locale where
  Lang : String
  Data : List (String × Value)

/-- The order of the keys of a map when it is printed: the order of the bytes, which is the
order of the characters. -/
def less : List Char → List Char → Bool
  | [], [] => false
  | [], _ :: _ => true
  | _ :: _, [] => false
  | a :: as, b :: bs =>
    if a.toNat < b.toNat then true else if b.toNat < a.toNat then false else less as bs

/-- Insertion of a printed entry into a list of entries in the order of their keys. -/
def insertEntry (e : String × String) : List (String × String) → List (String × String)
  | [] => [e]
  | x :: rest => if less e.1.data x.1.data then e :: x :: rest else x :: insertEntry e rest

mutual

/-- The text `fmt.Sprintf("%s", obj)`: a string as it is, a map as `map[k:v k:v]` with its
entries in the order of the keys. -/
def Sprintf : Value → String
  | .null => "<nil>"
  | .str s => s
  | .other printed => printed
  | .map entries =>
    "map[" ++ " ".intercalate (((printEntries entries).foldr insertEntry []).map
      fun e => e.1 ++ ":" ++ e.2) ++ "]"

/-- The entries of a map with their values printed. -/
def printEntries : List (String × Value) → List (String × String)
  | [] => []
  | (k, v) :: rest => (k, Sprintf v) :: printEntries rest

end

/-- The function getProperty gets a value via one step of the dot notation: the entry of a
map (nil when there is none), and the error of `reflections.GetField` for a value that is
not a map. `Get` never passes nil. -/
def getProperty (obj : Value) (prop : String) : Except String Value :=
  match obj with
  | .map entries =>
    match gomap.index entries prop with
    | none => .ok .null
    | some v => .ok v
  | _ => .error "Cannot use GetField on a non-struct interface"

/-- The loop of `Get` over the parts of the key: the value at the end of the path, `none`
when `Get` returns the key (an error of `getProperty`, or nil). -/
def walk : Value → List String → Option Value
  | obj, [] => some obj
  | obj, k :: rest =>
    match getProperty obj k with
    | .error _ => none
    | .ok .null => none
    | .ok next => walk next rest

/-- Get returns a nested translation string. `fuel` bounds the depth of the recursion
through references; `none` stands for a call that has not returned within it. -/
def Locale.Get (l : Locale) : Nat → String → Option String
  | 0, _ => none
  | fuel + 1, key =>
    match walk (.map l.Data) (strings.Split key ".") with
    | none => some key
    | some obj =>
      if strings.HasPrefix (Sprintf obj) ReferencePrefix then
        l.Get fuel (strings.Replace (Sprintf obj) ReferencePrefix "" 1)
      else some (Sprintf obj)

/-- GetVar returns a translated string with variables in it; `vars` is the map of the
variables as the list of its entries in the order in which the `range` visits them. -/
def Locale.GetVar (l : Locale) (fuel : Nat) (key : String) (vars : List (String × String)) :
    Option String :=
  (l.Get fuel key).map fun out =>
    vars.foldl (fun out kv => strings.ReplaceAll out ("\x7b" ++ kv.1 ++ "\x7d") kv.2) out

/-- The locale of the test of the package. -/
def testLocale : Locale :=
  { Lang := "de",
    Data := [
      ("key", .str "value"),
      ("nested", .map [("value", .str "nested_value")]),
      ("data", .map [("singular", .str "\x7bvar\x7d name"),
        ("min_length", .str "\x7bvar\x7d min length: \x7bsize\x7d")]),
      ("reference", .map [("me", .str "ref"), ("to_me", .str "@:reference.me")])] }

/-- A locale with a message whose only placeholder is `a`. -/
def nestedLocale : Locale :=
  { Lang := "en", Data := [("msg", .str "\x7ba\x7d")] }

end i18n

namespace validation

/-- The map `data` of `TranslatedErrors`: the translated field name under `field`, then the
entries of the data of the error merged in (`data[k] = v`). -/
def mergeData (translatedField : String) (data : List (String × String)) :
    List (String × String) :=
  data.foldl (fun merged kv => gomap.assign merged kv.1 kv.2) [("field", translatedField)]

/-- The body of the inner loop of `TranslatedErrors` for one error under `key`; `fuel` bounds
the depth of the recursion of each call of `Get`, and `none` stands for a call that has not
returned within it. `GetVar` ranges over the entries of `data` in the order of the list. -/
def translate (subject : String) (locale : i18n.Locale) (fuel : Nat) (key : String)
    (err : Error) : Option Error :=
  match locale.Get fuel (subject ++ ".fields." ++ key) with
  | none => none
  | some translatedField =>
    match locale.GetVar fuel err.Message (mergeData translatedField err.Data) with
    | none => none
    | some translated =>
      some { err with Translated := translated, Data := mergeData translatedField err.Data }

/-- The inner loop of `TranslatedErrors` over the errors under `key`. -/
def translateAll (subject : String) (locale : i18n.Locale) (fuel : Nat) (key : String) :
    List Error → Option (List Error)
  | [] => some []
  | err :: rest =>
    match translate subject locale fuel key err, translateAll subject locale fuel key rest with
    | some t, some ts => some (t :: ts)
    | _, _ => none

/-- The outer loop of `TranslatedErrors` over the entries of the map of errors. -/
def translateEntries (subject : String) (locale : i18n.Locale) (fuel : Nat) :
    List (String × List Error) → Option (List (String × List Error))
  | [] => some []
  | entry :: rest =>
    match translateAll subject locale fuel entry.1 entry.2,
      translateEntries subject locale fuel rest with
    | some ts, some tr => some ((entry.1, ts) :: tr)
    | _, _ => none

/-- TranslatedErrors returns all error messages in the specified locale; `none` when a call
of `Get` that it makes has not returned within `fuel`. -/
def ErrorBag.TranslatedErrors (e : ErrorBag) (locale : i18n.Locale) (fuel : Nat) :
    Option (List (String × List Error)) :=
  translateEntries e.subject locale fuel e.errors

/-- A locale in which the name of the field `name` of `user` refers to itself. -/
def cyclicLocale : i18n.Locale :=
  { Lang := "en",
    Data := [("user", .map [("fields", .map [("name", .str "@:user.fields.name")])])] }

/-- A bag of `user` with one error under `name`. -/
def cyclicBag : ErrorBag := (NewErrorBag "user").Add "name" "required"

/-- A bag of `subject` with one error under `username` whose data has an entry `field` of
its own. -/
def ownFieldBag : ErrorBag :=
  (NewErrorBag "subject").AddData "username" "required" [("field", "OWN")]

/-- The bag of the test of `TranslatedErrors`. -/
def testBag : ErrorBag :=
  ((NewErrorBag "subject").Add "username" "required").AddData "password" "min_length"
    [("size", "4")]

/-- The locale of the test of `TranslatedErrors`. -/
def testLocale : i18n.Locale :=
  { Lang := "de",
    Data := [
      ("validation", .map [("required", .str "\x7bfield\x7d wird benötigt"),
        ("min_length", .str "\x7bfield\x7d \x7bsize\x7d")]),
      ("subject", .map [("fields", .map [("username", .str "Benutzername"),
        ("password", .str "Passwort")])])] }

end validation

namespace log

/-- A `bufio.Writer` on a file: the bytes that have reached the file, whether the file has
been closed (writes to a closed file fail, writes to an open file succeed), the bytes in the
buffer, the size of the buffer, and whether the writer holds an error (`b.err != nil`). -/
structure Writer where
  file : List UInt8
  closed : Bool
  buf : List UInt8
  size : Nat
  err : Bool

/-- Available returns how many bytes are unused in the buffer. -/
def Writer.Available (b : Writer) : Nat := b.size - b.buf.length

/-- Flush writes any buffered data to the underlying file. -/
def Writer.Flush (b : Writer) : Writer :=
  if b.err then b
  else if b.buf.length = 0 then b
  else if b.closed then { b with err := true }
  else { b with file := b.file ++ b.buf, buf := [] }

/-- The write of `p` to the file itself. -/
def Writer.direct (b : Writer) (p : List UInt8) : Writer :=
  if b.closed then { b with err := true } else { b with file := b.file ++ p }

/-- Write writes the contents of `p` into the buffer: while `p` does not fit, a large write
on an empty buffer goes to the file directly, and otherwise the buffer is filled and flushed
(the loop runs at most twice). -/
def Writer.Write (b : Writer) (p : List UInt8) : Writer :=
  if p.length > b.Available ∧ b.err = false then
    if b.buf.length = 0 then b.direct p
    else
      let flushed := ({ b with buf := b.buf ++ p.take b.Available }).Flush
      let rest := p.drop b.Available
      if rest.length > flushed.Available ∧ flushed.err = false then flushed.direct rest
      else if flushed.err then flushed
      else { flushed with buf := flushed.buf ++ rest }
  else if b.err then b
  else { b with buf := b.buf ++ p }

/-- MaxLatencyWriter: the destination, the latency in nanoseconds, the timer (`none`: nil,
otherwise whether it is running) and the flag `flushPending`. The mutex makes `Write`,
`delayedFlush` and `Stop` atomic steps. -/
structure MaxLatencyWriter where
  dst : Writer
  latency : Int
  t : Option Bool
  flushPending : Bool

/-- NewMaxLatencyWriter of `buffered.go`. -/
def NewMaxLatencyWriter (dst : Writer) (latency : Int) : MaxLatencyWriter :=
  { dst := dst, latency := latency, t := none, flushPending := false }

/-- Write of the `MaxLatencyWriter`. -/
def MaxLatencyWriter.Write (m : MaxLatencyWriter) (p : List UInt8) : MaxLatencyWriter :=
  let m := { m with dst := m.dst.Write p }
  if m.latency < 0 then { m with dst := m.dst.Flush }
  else if m.flushPending then m
  else { m with t := some true, flushPending := true }

/-- The function delayedFlush, which the timer runs when it fires. -/
def MaxLatencyWriter.delayedFlush (m : MaxLatencyWriter) : MaxLatencyWriter :=
  let m := { m with t := m.t.map fun _ => false }
  if !m.flushPending then m
  else { m with dst := m.dst.Flush, flushPending := false }

/-- Stop of the `MaxLatencyWriter`. -/
def MaxLatencyWriter.Stop (m : MaxLatencyWriter) : MaxLatencyWriter :=
  { m with flushPending := false, t := m.t.map fun _ => false }

/-- The writer that `GetMaxLatencyWriter` returns on a log file with the content `file`: a
buffer of 1024 bytes and a latency of 5 seconds. -/
def GetMaxLatencyWriter (file : List UInt8) : MaxLatencyWriter :=
  NewMaxLatencyWriter { file := file, closed := false, buf := [], size := 1024, err := false }
    5000000000

/-- The cleanup function that `GetMaxLatencyWriter` returns: `w.Stop()`, then `f.Close()`. -/
def cleanup (w : MaxLatencyWriter) : MaxLatencyWriter :=
  { w.Stop with dst := { w.Stop.dst with closed := true } }

/-- What happens to the writer: a `Write`, the timer firing, the cleanup. -/
inductive Event
  | Write (p : List UInt8)
  | timer
  | cleanup

/-- The writer after a sequence of events. The timer fires only while it is running (a run
of `delayedFlush` that `Stop` has overtaken finds `flushPending` false and does nothing). -/
def run (w : MaxLatencyWriter) : List Event → MaxLatencyWriter
  | [] => w
  | .Write p :: rest => run (w.Write p) rest
  | .timer :: rest => if w.t = some true then run w.delayedFlush rest else run w rest
  | .cleanup :: rest => run (cleanup w) rest

end log

namespace gqldirectives

/-- A user who is not a superuser. -/
def reader : entity.User :=
  { ID := 7, Name := "reader", Password := "", IsSuperuser := false, CreatedAt := none,
    UpdatedAt := none }

/-- An auth manager in which user 7 may read quotes and nothing else. -/
def exampleCan (id : Int) (code level : String) : Bool :=
  decide (id = 7) && decide (code = "quote") && decide (level = "read")

/-- A next resolver that answers `resolved`. -/
def exampleNext (_ : Option entity.User) : Except String String := .ok "resolved"

end gqldirectives

namespace app

variable {σ : Type}

theorem rangeUpdates_spec (us : List (updateFn σ)) (v : Nat) (cur : Int) (s : σ) :
    ∃ k : Nat,
      (rangeUpdates us v cur s).current
          = (if k = 0 then cur else ((max v (cur + 1).toNat + k - 1 : Nat) : Int)) ∧
      (((rangeUpdates us v cur s).invoked
            = (List.range' (max v (cur + 1).toNat) k).map (fun i => (i, none)) ∧
          (rangeUpdates us v cur s).resultingError = none ∧
          max v (cur + 1).toNat + k = max (max v (cur + 1).toNat) (v + us.length)) ∨
       (∃ e : String,
          (rangeUpdates us v cur s).invoked
            = (List.range' (max v (cur + 1).toNat) k).map (fun i => (i, none))
                ++ [(max v (cur + 1).toNat + k, some e)] ∧
          (rangeUpdates us v cur s).resultingError
            = some (Wrapf e (max v (cur + 1).toNat + k)) ∧
          max v (cur + 1).toNat + k < v + us.length)) := by
  induction us generalizing v cur s with
  | nil =>
    refine ⟨0, by simp [rangeUpdates], Or.inl ⟨by simp [rangeUpdates], by simp [rangeUpdates], ?_⟩⟩
    simp
  | cons u rest ih =>
    by_cases hskip : (v : Int) ≤ cur
    · obtain ⟨k, hcur, hrest⟩ := ih (v + 1) cur s
      have hlo : max (v + 1) (cur + 1).toNat = max v (cur + 1).toNat := by omega
      rw [hlo] at hcur hrest
      refine ⟨k, ?_, ?_⟩
      · simpa [rangeUpdates, hskip] using hcur
      · simp only [rangeUpdates, hskip, if_true]
        have hlen : v + (u :: rest).length = v + 1 + rest.length := by
          simp; omega
        rw [hlen]
        exact hrest
    · have hlo : max v (cur + 1).toNat = v := by omega
      rw [hlo]
      rcases hu : u s with ⟨_ | e, s1⟩
      · obtain ⟨k, hcur, hrest⟩ := ih (v + 1) (v : Int) s1
        have hlo1 : max (v + 1) ((v : Int) + 1).toNat = v + 1 := by omega
        rw [hlo1] at hcur hrest
        refine ⟨k + 1, ?_, ?_⟩
        · simp only [rangeUpdates, hskip, if_false, hu]
          rw [hcur, if_neg (Nat.succ_ne_zero k)]
          split_ifs with hk
          · subst hk; simp
          · omega
        · simp only [rangeUpdates, hskip, if_false, hu]
          have hr : List.range' v (k + 1) = v :: List.range' (v + 1) k := by
            simp [List.range'_succ]
          rcases hrest with ⟨hinv, herr, hlen⟩ | ⟨e, hinv, herr, hlen⟩
          · refine Or.inl ⟨?_, herr, ?_⟩
            · rw [hinv, hr]; simp
            · simp only [List.length_cons]; omega
          · refine Or.inr ⟨e, ?_, ?_, ?_⟩
            · rw [hinv, hr]; simp; omega
            · rw [herr]; congr 2; omega
            · simp only [List.length_cons]; omega
      · refine ⟨0, ?_, Or.inr ⟨e, ?_, ?_, ?_⟩⟩
        · simp [rangeUpdates, hskip, hu]
        · simp [rangeUpdates, hskip, hu]
        · simp [rangeUpdates, hskip, hu]
        · simp

theorem getCurrentVersion_fault (db : DB) (f : Fault) (h : db.getFault = some f) :
    getCurrentVersion db = .error f.msg := by
  have hne : ¬ f.msg = "sql: no rows in result set" := f.other
  simp [getCurrentVersion, DB.GetContext, h, hne]

theorem getCurrentVersion_noFault (db : DB) (h : db.getFault = none) :
    getCurrentVersion db = .ok (persisted db) := by
  cases hrow : db.row <;> simp [getCurrentVersion, DB.GetContext, h, hrow, persisted, ErrNoRows]

theorem getCurrentVersion_ok (db : DB) (c : Int) (h : getCurrentVersion db = .ok c) :
    db.getFault = none ∧ c = persisted db := by
  cases hf : db.getFault with
  | some f => rw [getCurrentVersion_fault db f hf] at h; cases h
  | none =>
    rw [getCurrentVersion_noFault db hf] at h
    cases h
    exact ⟨rfl, rfl⟩

theorem Run_fault (u : Updater σ) (f : Fault) (h : u.k.DB.getFault = some f) :
    Run u = { err := some f.msg, k := u.k, invoked := [], writes := [] } := by
  simp [Run, getCurrentVersion_fault _ f h, WithStack]

theorem Run_stay (u : Updater σ) (c : Int) (h : getCurrentVersion u.k.DB = .ok c)
    (hstay : c = (rangeUpdates u.updates 0 c u.k.State).current ∧
      (rangeUpdates u.updates 0 c u.k.State).resultingError = none) :
    Run u = { err := none,
              k := { DB := u.k.DB, State := (rangeUpdates u.updates 0 c u.k.State).State },
              invoked := (rangeUpdates u.updates 0 c u.k.State).invoked, writes := [] } := by
  unfold Run
  rw [h]
  exact if_pos hstay

theorem Run_write (u : Updater σ) (c : Int) (h : getCurrentVersion u.k.DB = .ok c)
    (hgo : ¬ (c = (rangeUpdates u.updates 0 c u.k.State).current ∧
      (rangeUpdates u.updates 0 c u.k.State).resultingError = none)) :
    (Run u).invoked = (rangeUpdates u.updates 0 c u.k.State).invoked ∧
    Written u (rangeUpdates u.updates 0 c u.k.State).current
      (rangeUpdates u.updates 0 c u.k.State).resultingError := by
  have hR : Run u =
      match setCurrentVersion u.k.DB (rangeUpdates u.updates 0 c u.k.State).current with
      | (some err, db1) =>
        { err := WithStack (some err),
          k := { DB := db1, State := (rangeUpdates u.updates 0 c u.k.State).State },
          invoked := (rangeUpdates u.updates 0 c u.k.State).invoked,
          writes := [(rangeUpdates u.updates 0 c u.k.State).current] }
      | (none, db1) =>
        { err := (rangeUpdates u.updates 0 c u.k.State).resultingError,
          k := { DB := db1, State := (rangeUpdates u.updates 0 c u.k.State).State },
          invoked := (rangeUpdates u.updates 0 c u.k.State).invoked,
          writes := [(rangeUpdates u.updates 0 c u.k.State).current] } := by
    unfold Run
    rw [h]
    exact if_neg hgo
  unfold Written
  rw [hR]
  cases hx : u.k.DB.execFault with
  | none =>
    simp [setCurrentVersion, DB.ExecContext, hx, WithStack]
  | some w =>
    simp [setCurrentVersion, DB.ExecContext, hx, WithStack]

theorem Run_spec (u : Updater σ) (c : Int) (h : getCurrentVersion u.k.DB = .ok c) :
    ∃ k : Nat,
      ((Run u).invoked = (List.range' (c + 1).toNat k).map (fun i => (i, none)) ∧
        (c + 1).toNat + k = max (c + 1).toNat u.updates.length ∧
        ((k = 0 ∧ (Run u).err = none ∧ (Run u).writes = [] ∧ (Run u).k.DB = u.k.DB) ∨
         (k ≠ 0 ∧ Written u (((c + 1).toNat + k - 1 : Nat) : Int) none))) ∨
      (∃ e : String,
        (Run u).invoked = (List.range' (c + 1).toNat k).map (fun i => (i, none))
            ++ [((c + 1).toNat + k, some e)] ∧
        (c + 1).toNat + k < u.updates.length ∧
        Written u (if k = 0 then c else (((c + 1).toNat + k - 1 : Nat) : Int))
          (some (Wrapf e ((c + 1).toNat + k)))) := by
  obtain ⟨k, hcur, hrest⟩ := rangeUpdates_spec u.updates 0 c u.k.State
  have hlo : max 0 (c + 1).toNat = (c + 1).toNat := by omega
  rw [hlo] at hcur hrest
  rw [Nat.zero_add] at hrest
  refine ⟨k, ?_⟩
  rcases hrest with ⟨hinv, herr, hlen⟩ | ⟨e, hinv, herr, hlen⟩
  · left
    by_cases hk : k = 0
    · subst hk
      simp only [if_true] at hcur
      have hR := Run_stay u c h ⟨hcur.symm, herr⟩
      refine ⟨?_, hlen, Or.inl ⟨rfl, ?_, ?_, ?_⟩⟩
      · rw [hR]; exact hinv
      · rw [hR]
      · rw [hR]
      · rw [hR]
    · rw [if_neg hk] at hcur
      have hgo : ¬ (c = (rangeUpdates u.updates 0 c u.k.State).current ∧
          (rangeUpdates u.updates 0 c u.k.State).resultingError = none) := by
        rw [hcur]; intro hc; omega
      obtain ⟨hi, hw⟩ := Run_write u c h hgo
      rw [hcur, herr] at hw
      exact ⟨hi.trans hinv, hlen, Or.inr ⟨hk, hw⟩⟩
  · right
    have hgo : ¬ (c = (rangeUpdates u.updates 0 c u.k.State).current ∧
        (rangeUpdates u.updates 0 c u.k.State).resultingError = none) := by
      rw [herr]; simp
    obtain ⟨hi, hw⟩ := Run_write u c h hgo
    rw [hcur, herr] at hw
    exact ⟨e, hi.trans hinv, hlen, hw⟩

theorem Run_invoked_noFault (u : Updater σ) (p : Nat × Option String)
    (hp : p ∈ (Run u).invoked) : u.k.DB.getFault = none := by
  cases hf : u.k.DB.getFault with
  | none => rfl
  | some f => rw [Run_fault u f hf] at hp; cases hp

theorem Run_failure_spec (u : Updater σ) (j : Nat) (e : String)
    (hfail : (j, some e) ∈ (Run u).invoked) :
    ∃ cur : Int,
      u.k.DB.getFault = none ∧ j < u.updates.length ∧ (cur + 1).toNat = j ∧
      persisted u.k.DB ≤ cur ∧ (-1 ≤ persisted u.k.DB → cur = (j : Int) - 1) ∧
      Written u cur (some (Wrapf e j)) ∧
      (∀ p ∈ (Run u).invoked, p ≠ (j, some e) → p.1 < j ∧ p.2 = none) := by
  have hnf := Run_invoked_noFault u _ hfail
  have hread := getCurrentVersion_noFault u.k.DB hnf
  obtain ⟨k, ⟨hinv, -, -⟩ | ⟨e1, hinv, hlen, hw⟩⟩ := Run_spec u _ hread
  · rw [hinv] at hfail
    obtain ⟨i, -, hi⟩ := List.mem_map.1 hfail
    cases hi
  · have hlast : (j, some e) = ((persisted u.k.DB + 1).toNat + k, some e1) := by
      rw [hinv] at hfail
      rcases List.mem_append.1 hfail with hm | hm
      · obtain ⟨i, -, hi⟩ := List.mem_map.1 hm
        cases hi
      · simpa using hm
    have hj : j = (persisted u.k.DB + 1).toNat + k := congrArg Prod.fst hlast
    have he : e = e1 := Option.some.inj (congrArg Prod.snd hlast)
    subst he
    rw [← hj] at hw hlen hinv
    refine ⟨_, hnf, hlen, ?_, ?_, ?_, hw, ?_⟩
    · split_ifs <;> omega
    · split_ifs <;> omega
    · intro hrec; split_ifs <;> omega
    · intro p hp hne
      rw [hinv] at hp
      rcases List.mem_append.1 hp with hm | hm
      · obtain ⟨i, hi, rfl⟩ := List.mem_map.1 hm
        rw [List.mem_range'_1] at hi
        exact ⟨by show i < j; omega, rfl⟩
      · exact absurd (by simpa using hm) hne

theorem getCurrentVersion_written (db : DB) (cur : Int) (h : db.getFault = none) :
    getCurrentVersion { db with row := some cur } = .ok cur :=
  getCurrentVersion_noFault { db with row := some cur } h

theorem Run_nil_settled (u : Updater σ) (hnil : (Run u).err = none) :
    (Run u).k.DB.getFault = none ∧
    (Run u).k.DB.execFault = u.k.DB.execFault ∧
    u.updates.length ≤ (persisted (Run u).k.DB + 1).toNat := by
  cases hf : u.k.DB.getFault with
  | some f => rw [Run_fault u f hf] at hnil; cases hnil
  | none =>
    have hread := getCurrentVersion_noFault u.k.DB hf
    obtain ⟨k, ⟨-, hlen, hA⟩ | ⟨e, -, -, hw⟩⟩ := Run_spec u _ hread
    · rcases hA with ⟨hk, -, -, hdb⟩ | ⟨hk, -, hw⟩
      · rw [hdb]; exact ⟨hf, rfl, by omega⟩
      · rcases hw with ⟨-, -, hdb⟩ | ⟨w, -, herr, -⟩
        · rw [hdb]
          refine ⟨hf, rfl, ?_⟩
          show u.updates.length
            ≤ ((((persisted u.k.DB + 1).toNat + k - 1 : Nat) : Int) + 1).toNat
          omega
        · rw [herr] at hnil; cases hnil
    · rcases hw with ⟨-, ⟨-, herr, -⟩ | ⟨w, -, herr, -⟩⟩ <;>
        · rw [herr] at hnil; cases hnil

theorem Run_settled (u : Updater σ) (hf : u.k.DB.getFault = none)
    (hs : u.updates.length ≤ (persisted u.k.DB + 1).toNat) :
    (Run u).err = none ∧ (Run u).invoked = [] ∧ (Run u).writes = [] ∧
    (Run u).k.DB = u.k.DB := by
  have hread := getCurrentVersion_noFault u.k.DB hf
  obtain ⟨k, ⟨hinv, hlen, hA⟩ | ⟨e, -, hlen, -⟩⟩ := Run_spec u _ hread
  · have hk : k = 0 := by omega
    rcases hA with ⟨-, herr, hwr, hdb⟩ | ⟨hk1, -⟩
    · subst hk
      exact ⟨herr, by simpa using hinv, hwr, hdb⟩
    · exact absurd hk hk1
  · omega

theorem Run_applied_all (u : Updater σ)
    (hs : u.updates.length ≤ (persisted u.k.DB + 1).toNat) :
    (Run u).err = u.k.DB.getFault.map Fault.msg ∧ (Run u).invoked = [] ∧ (Run u).writes = [] ∧
    (Run u).k.DB = u.k.DB := by
  cases hf : u.k.DB.getFault with
  | some f =>
    rw [Run_fault u f hf]
    exact ⟨rfl, rfl, rfl, rfl⟩
  | none =>
    obtain ⟨h1, h2, h3, h4⟩ := Run_settled u hf hs
    exact ⟨h1, h2, h3, h4⟩

theorem persisted_next (u : Updater σ) (c : Call σ) :
    persisted (u.next c).k.DB = persisted (Run u).k.DB := rfl

theorem runs_settled (calls : List (Call σ)) (u : Updater σ)
    (hs : u.updates.length ≤ (persisted u.k.DB + 1).toNat) :
    ∀ r ∈ runs u calls, r.invoked = [] ∧ r.writes = [] := by
  induction calls generalizing u with
  | nil =>
    intro r hr
    obtain ⟨-, h2, h3, -⟩ := Run_applied_all u hs
    simp only [runs, List.mem_singleton] at hr
    subst hr
    exact ⟨h2, h3⟩
  | cons c rest ih =>
    intro r hr
    obtain ⟨-, h2, h3, hdb⟩ := Run_applied_all u hs
    simp only [runs, List.mem_cons] at hr
    rcases hr with rfl | hr
    · exact ⟨h2, h3⟩
    · refine ih (u.next c) ?_ r hr
      rw [persisted_next, hdb]
      exact hs

theorem runs_settled_err (calls : List (Call σ)) (u : Updater σ)
    (hs : u.updates.length ≤ (persisted u.k.DB + 1).toNat) (i : Nat) (c : Call σ)
    (r : Outcome σ) (hc : calls[i]? = some c) (hr : (runs u calls)[i + 1]? = some r) :
    r.err = c.getFault.map Fault.msg := by
  induction calls generalizing u i with
  | nil => simp at hc
  | cons c1 rest ih =>
    obtain ⟨-, -, -, hdb⟩ := Run_applied_all u hs
    have hs1 : (u.next c1).updates.length ≤ (persisted (u.next c1).k.DB + 1).toNat := by
      rw [persisted_next, hdb]
      exact hs
    simp only [runs, List.getElem?_cons_succ] at hr
    cases i with
    | zero =>
      simp only [List.getElem?_cons_zero, Option.some.injEq] at hc
      subst hc
      have hr0 : r = Run (u.next c1) := by
        cases rest with
        | nil => simpa [runs] using hr.symm
        | cons c2 rest2 => simpa [runs] using hr.symm
      rw [hr0]
      exact (Run_applied_all (u.next c1) hs1).1
    | succ i1 =>
      simp only [List.getElem?_cons_succ] at hc
      exact ih (u.next c1) hs1 i1 hc hr

theorem Run_persisted_le (u : Updater σ) : persisted u.k.DB ≤ persisted (Run u).k.DB := by
  cases hf : u.k.DB.getFault with
  | some f => rw [Run_fault u f hf]
  | none =>
    have hread := getCurrentVersion_noFault u.k.DB hf
    obtain ⟨k, ⟨-, -, hA⟩ | ⟨e, -, -, hw⟩⟩ := Run_spec u _ hread
    · rcases hA with ⟨-, -, -, hdb⟩ | ⟨hk, -, ⟨-, -, hdb⟩ | ⟨w, -, -, hdb⟩⟩
      · rw [hdb]
      · rw [hdb]
        show persisted u.k.DB ≤ (((persisted u.k.DB + 1).toNat + k - 1 : Nat) : Int)
        omega
      · rw [hdb]
    · rcases hw with ⟨-, ⟨-, -, hdb⟩ | ⟨w, -, -, hdb⟩⟩
      · rw [hdb]
        show persisted u.k.DB
          ≤ (if k = 0 then persisted u.k.DB
              else (((persisted u.k.DB + 1).toNat + k - 1 : Nat) : Int))
        split_ifs <;> omega
      · rw [hdb]

theorem Run_faults (u : Updater σ) :
    (Run u).k.DB.getFault = u.k.DB.getFault ∧ (Run u).k.DB.execFault = u.k.DB.execFault := by
  cases hf : u.k.DB.getFault with
  | some f => rw [Run_fault u f hf]; exact ⟨hf, rfl⟩
  | none =>
    have hread := getCurrentVersion_noFault u.k.DB hf
    obtain ⟨k, ⟨-, -, hA⟩ | ⟨e, -, -, hw⟩⟩ := Run_spec u _ hread
    · rcases hA with ⟨-, -, -, hdb⟩ | ⟨hk, -, ⟨-, -, hdb⟩ | ⟨w, -, -, hdb⟩⟩ <;>
        · rw [hdb]; exact ⟨hf, rfl⟩
    · rcases hw with ⟨-, ⟨-, -, hdb⟩ | ⟨w, -, -, hdb⟩⟩ <;>
        · rw [hdb]; exact ⟨hf, rfl⟩

/-- C2: if routine `j` is the routine that fails during a `Run` (every other invoked routine
has a smaller ordinal and succeeded) and the write to the store succeeds, then the ordinal
read from the store afterwards is `j-1`, the ordinal of the last applied routine, and `Run`
returns the error "failed to apply update version j: " followed by the message of the
routine. The version record is one the runner can have left: its ordinal is at least `-1`. -/
theorem Run_failure_persists_last_applied (u : Updater σ) (j : Nat) (e : String)
    (hfail : (j, some e) ∈ (Run u).invoked)
    (hwrite : u.k.DB.execFault = none)
    (hrec : -1 ≤ persisted u.k.DB) :
    getCurrentVersion (Run u).k.DB = .ok ((j : Int) - 1) ∧
    (Run u).err = some ("failed to apply update version " ++ toString j ++ ": " ++ e) ∧
    (∀ p ∈ (Run u).invoked, p ≠ (j, some e) → p.1 < j ∧ p.2 = none) := by
  obtain ⟨cur, hnf, -, -, -, hcur, ⟨-, hw⟩, hbefore⟩ := Run_failure_spec u j e hfail
  rcases hw with ⟨-, herr, hdb⟩ | ⟨w, hx, -, -⟩
  · refine ⟨?_, ?_, hbefore⟩
    · rw [hdb, ← hcur hrec]
      exact getCurrentVersion_written _ _ hnf
    · rw [herr]; rfl
  · rw [hwrite] at hx; cases hx

/-- Witness of C2 on the scenario `[A, B, C]`: `B` (ordinal 1) fails with "disk full", the
store then reads `0`. -/
theorem Run_failure_persists_last_applied_witness :
    ((1, some "disk full") ∈ (Run scenario).invoked ∧ scenario.k.DB.execFault = none ∧
      -1 ≤ persisted scenario.k.DB) ∧
    (getCurrentVersion (Run scenario).k.DB = .ok (((1 : Nat) : Int) - 1) ∧
      (Run scenario).err
        = some ("failed to apply update version " ++ toString 1 ++ ": " ++ "disk full") ∧
      (∀ p ∈ (Run scenario).invoked, p ≠ (1, some "disk full") → p.1 < 1 ∧ p.2 = none)) :=
  ⟨⟨by decide, rfl, by decide⟩,
    Run_failure_persists_last_applied scenario 1 "disk full" (by decide) rfl (by decide)⟩

/-- C3, as stated, fails: in the scenario `[A, B, C]` the first `Run` stops at the failing
routine `1`, its write of `0` succeeding; in the next `Run` the routines `1` and `2` are
invoked and succeed, but the connection refuses the write: `Run` returns the error of the
write and the store still holds `0`, not `2`. -/
theorem Run_resumes_counterexample :
    ((1, some "disk full") ∈ (Run scenario).invoked ∧ scenario.k.DB.execFault = none ∧
      (Run scenario).k.DB.row = some 0) ∧
    ((Run (scenario.next (refusing true))).invoked = [(1, none), (2, none)] ∧
      (∀ p ∈ (Run (scenario.next (refusing true))).invoked, p.2 = none)) ∧
    (Run (scenario.next (refusing true))).writes = [2] ∧
    (Run (scenario.next (refusing true))).err
      = some "Error 1290: The MySQL server is running with the --read-only option" ∧
    (Run (scenario.next (refusing true))).k.DB.row = some 0 := by
  decide

/-- C3, amended: resumption over two runs. If a `Run` stops at the failing routine `j`, its
write to the store succeeding, and at the next `Run` the connection answers the read and
accepts the write and every routine that is invoked succeeds, then the next `Run` invokes
exactly the routines `j, j+1, ..., n-1` in that order, persists `n-1` and returns nil. -/
theorem Run_resumes_at_failed_routine (u : Updater σ) (j : Nat) (e : String) (c : Call σ)
    (hfail : (j, some e) ∈ (Run u).invoked)
    (hwrite : u.k.DB.execFault = none)
    (hread2 : c.getFault = none)
    (hwrite2 : c.execFault = none)
    (hfixed : ∀ p ∈ (Run (u.next c)).invoked, p.2 = none) :
    (Run (u.next c)).invoked
      = (List.range' j (u.updates.length - j)).map (fun i => (i, none)) ∧
    (Run (u.next c)).writes = [(u.updates.length : Int) - 1] ∧
    getCurrentVersion (Run (u.next c)).k.DB = .ok ((u.updates.length : Int) - 1) ∧
    (Run (u.next c)).err = none := by
  obtain ⟨cur, hnf, hjn, hlo, -, -, ⟨-, hw⟩, -⟩ := Run_failure_spec u j e hfail
  rcases hw with ⟨-, -, hdb⟩ | ⟨w, hx, -, -⟩
  · have hdb2 : (u.next c).k.DB
        = { row := some cur, getFault := c.getFault, execFault := c.execFault } := by
      show ({ row := (Run u).k.DB.row, getFault := c.getFault, execFault := c.execFault } : DB)
        = _
      rw [hdb]
    have hx2 : (u.next c).k.DB.execFault = none := hwrite2
    have hnf2 : (u.next c).k.DB.getFault = none := hread2
    have hread : getCurrentVersion (u.next c).k.DB = .ok cur := by
      rw [getCurrentVersion_noFault _ hnf2, hdb2]
      rfl
    obtain ⟨k, ⟨hinv, hlen, hA⟩ | ⟨e1, hinv, -, -⟩⟩ := Run_spec (u.next c) cur hread
    · rw [hlo] at hlen hinv
      have hlen1 : j + k = max j u.updates.length := hlen
      have hk : k = u.updates.length - j := by omega
      rcases hA with ⟨hk0, -⟩ | ⟨-, hwr, hw2⟩
      · omega
      · rcases hw2 with ⟨-, herr, hdb3⟩ | ⟨w, hx3, -, -⟩
        · have hval : (((cur + 1).toNat + k - 1 : Nat) : Int) = (u.updates.length : Int) - 1 := by
            omega
          rw [hval] at hwr hdb3
          refine ⟨by rw [hinv, hk], hwr, ?_, herr⟩
          rw [hdb3]
          exact getCurrentVersion_written _ _ hnf2
        · rw [hx2] at hx3; cases hx3
    · have := hfixed ((cur + 1).toNat + k, some e1) (by rw [hinv]; simp)
      cases this
  · rw [hwrite] at hx; cases hx

/-- Witness of the amended C3 on the scenario `[A, B, C]`: `B` fails with a full disk; once the
disk has room the next call, which the connection answers, invokes `B` and `C` and persists
`2`. -/
theorem Run_resumes_at_failed_routine_witness :
    ((1, some "disk full") ∈ (Run scenario).invoked ∧ scenario.k.DB.execFault = none ∧
      (∀ p ∈ (Run (scenario.next (answered true))).invoked, p.2 = none)) ∧
    (Run (scenario.next (answered true))).invoked = [(1, none), (2, none)] ∧
    ((Run (scenario.next (answered true))).invoked
        = (List.range' 1 (scenario.updates.length - 1)).map (fun i => (i, none)) ∧
      (Run (scenario.next (answered true))).writes = [(scenario.updates.length : Int) - 1] ∧
      getCurrentVersion (Run (scenario.next (answered true))).k.DB
        = .ok ((scenario.updates.length : Int) - 1) ∧
      (Run (scenario.next (answered true))).err = none) :=
  ⟨⟨by decide, rfl, by decide⟩, by decide,
    Run_resumes_at_failed_routine scenario 1 "disk full" (answered true) (by decide) rfl rfl rfl
      (by decide)⟩

/-- C4, as stated, fails: the scenario with room on the disk returns nil; a following call at
which the connection is gone returns the error of the read (it invokes nothing and writes
nothing). -/
theorem Run_idempotent_counterexample :
    (Run scenarioFixed).err = none ∧
    (runs scenarioFixed [disconnected true])[1]?
      = some (Run (scenarioFixed.next (disconnected true))) ∧
    (Run (scenarioFixed.next (disconnected true))).err
      = some "dial tcp 127.0.0.1:3306: connect: connection refused" ∧
    (Run (scenarioFixed.next (disconnected true))).invoked = [] ∧
    (Run (scenarioFixed.next (disconnected true))).writes = [] :=
  ⟨by decide, rfl, by decide, by decide, by decide⟩

/-- C4, amended: idempotence. Once a `Run` has returned nil, every following `Run` of the same
routines on the same store invokes no routine and writes nothing to the store, whatever state
the application is in and whatever the connection answers at each of those calls; such a
call returns nil when its read of the store goes through, and the error of the read
otherwise. -/
theorem Run_idempotent_after_success (u : Updater σ) (calls : List (Call σ))
    (hnil : (Run u).err = none) :
    (∀ r ∈ (runs u calls).tail, r.invoked = [] ∧ r.writes = []) ∧
    (∀ (i : Nat) (c : Call σ) (r : Outcome σ), calls[i]? = some c →
      (runs u calls)[i + 1]? = some r → r.err = c.getFault.map Fault.msg) ∧
    ((∀ c ∈ calls, c.getFault = none) → ∀ r ∈ (runs u calls).tail, r.err = none) := by
  obtain ⟨-, -, hs⟩ := Run_nil_settled u hnil
  have herr : ∀ (i : Nat) (c : Call σ) (r : Outcome σ), calls[i]? = some c →
      (runs u calls)[i + 1]? = some r → r.err = c.getFault.map Fault.msg := by
    cases calls with
    | nil => intro i c r hc; simp at hc
    | cons c1 rest =>
      intro i c r hc hr
      simp only [runs, List.getElem?_cons_succ] at hr
      have hs1 : (u.next c1).updates.length ≤ (persisted (u.next c1).k.DB + 1).toNat := hs
      cases i with
      | zero =>
        simp only [List.getElem?_cons_zero, Option.some.injEq] at hc
        subst hc
        have hr0 : r = Run (u.next c1) := by
          cases rest with
          | nil => simpa [runs] using hr.symm
          | cons c2 rest2 => simpa [runs] using hr.symm
        rw [hr0]
        exact (Run_applied_all (u.next c1) hs1).1
      | succ i1 =>
        simp only [List.getElem?_cons_succ] at hc
        exact runs_settled_err rest (u.next c1) hs1 i1 c r hc hr
  refine ⟨?_, herr, ?_⟩
  · cases calls with
    | nil => intro r hr; simp [runs] at hr
    | cons c rest =>
      intro r hr
      simp only [runs, List.tail_cons] at hr
      exact runs_settled rest (u.next c) hs r hr
  · intro hall r hr
    obtain ⟨i, hi⟩ := List.getElem?_of_mem hr
    have hlen : (runs u calls).length = calls.length + 1 := by
      clear hr hi herr hall hs hnil
      induction calls generalizing u with
      | nil => rfl
      | cons c rest ih => simp [runs, ih]
    have hi1 : (runs u calls)[i + 1]? = some r := by
      rw [← hi, List.getElem?_tail]
    have hlt : i < calls.length := by
      have h1 := (List.getElem?_eq_some_iff.1 hi1).1
      omega
    have hc : calls[i]? = some calls[i] := List.getElem?_eq_getElem hlt
    rw [herr i _ r hc hi1, hall _ (List.getElem_mem hlt)]
    rfl

/-- Witness of the amended C4: the scenario with room on the disk succeeds at once; two
further calls, whether the disk is full again or not, do nothing; the one that the
connection answers returns nil, the one at which the connection is gone returns the error of
the read. -/
theorem Run_idempotent_after_success_witness :
    (Run scenarioFixed).err = none ∧
    (runs scenarioFixed [answered false, disconnected true]).length = 3 ∧
    (runs scenarioFixed [answered false, disconnected true]).map Outcome.err
      = [none, none, some "dial tcp 127.0.0.1:3306: connect: connection refused"] ∧
    (∀ r ∈ (runs scenarioFixed [answered false, disconnected true]).tail,
      r.invoked = [] ∧ r.writes = []) ∧
    (∀ r ∈ (runs scenarioFixed [answered false, answered true]).tail, r.err = none) :=
  ⟨by decide, by decide, by decide,
    (Run_idempotent_after_success scenarioFixed [answered false, disconnected true]
      (by decide)).1,
    (Run_idempotent_after_success scenarioFixed [answered false, answered true]
      (by decide)).2.2 (fun c hc => by
        simp only [List.mem_cons, List.mem_singleton, List.not_mem_nil, or_false] at hc
        rcases hc with rfl | rfl <;> rfl)⟩

/-- C6 at the failing input: routine `0` succeeds, routine `1` fails with "disk full" (the
first error of the call) and the write of ordinal `0` that follows is refused; `Run` returns
the error of the write, and the wrapped error of the routine,
"failed to apply update version 1: disk full", is lost. -/
theorem Run_write_error_replaces_routine_error :
    (Run scenarioBothFail).invoked = [(0, none), (1, some "disk full")] ∧
    (Run scenarioBothFail).writes = [0] ∧
    (Run scenarioBothFail).err
      = some "Error 1290: The MySQL server is running with the --read-only option" ∧
    (Run scenarioBothFail).err ≠ some (Wrapf "disk full" 1) := by
  decide

/-- C7, as stated, fails: with no version row and the first routine failing, `Run` hands `-1`
to `setCurrentVersion`, and the store holds a row afterwards. -/
theorem Run_first_failure_writes_counterexample :
    scenarioFirstFails.k.DB.row = none ∧
    (Run scenarioFirstFails).invoked = [(0, some "disk full")] ∧
    (Run scenarioFirstFails).writes = [-1] ∧
    (Run scenarioFirstFails).k.DB.row = some (-1) := by
  decide

/-- C7, amended: if the store holds no version record when `Run` starts and no routine
succeeds during the call (the first pending routine fails), `Run` performs exactly one
write, of the unchanged ordinal `-1`: when the write goes through the store holds a record
of value `-1`, when it is refused the store still holds no record, and either way the
ordinal of the store is `-1` as before. -/
theorem Run_first_failure_writes_unchanged_ordinal (u : Updater σ) (j : Nat) (e : String)
    (hrow : u.k.DB.row = none)
    (hfirst : (Run u).invoked = [(j, some e)]) :
    (Run u).writes = [-1] ∧
    ((u.k.DB.execFault = none ∧ (Run u).k.DB.row = some (-1)) ∨
      (u.k.DB.execFault ≠ none ∧ (Run u).k.DB.row = none)) ∧
    persisted (Run u).k.DB = -1 := by
  have hf := Run_invoked_noFault u (j, some e) (by rw [hfirst]; simp)
  have hread := getCurrentVersion_noFault u.k.DB hf
  have hc : persisted u.k.DB = -1 := by simp [persisted, hrow]
  obtain ⟨k, ⟨hinv, -, -⟩ | ⟨e1, hinv, -, hw⟩⟩ := Run_spec u _ hread
  · have hmem : (j, some e) ∈ (Run u).invoked := by rw [hfirst]; simp
    rw [hinv] at hmem
    obtain ⟨i, -, hp⟩ := List.mem_map.1 hmem
    cases hp
  · have hk : k = 0 := by
      have hl := congrArg List.length hinv
      rw [hfirst] at hl
      simp at hl
      exact hl
    subst hk
    rw [if_pos rfl, hc] at hw
    obtain ⟨hwr, ⟨hx, -, hdb⟩ | ⟨w, hx, -, hdb⟩⟩ := hw
    · refine ⟨hwr, Or.inl ⟨hx, by rw [hdb]⟩, by rw [hdb]; rfl⟩
    · refine ⟨hwr, Or.inr ⟨by rw [hx]; simp, by rw [hdb]; exact hrow⟩, by rw [hdb]; exact hc⟩

/-- Witness of the amended C7: the routine `B` alone, failing, on an empty store. -/
theorem Run_first_failure_writes_unchanged_ordinal_witness :
    (scenarioFirstFails.k.DB.row = none ∧
      (Run scenarioFirstFails).invoked = [(0, some "disk full")]) ∧
    ((Run scenarioFirstFails).writes = [-1] ∧
      ((scenarioFirstFails.k.DB.execFault = none ∧
          (Run scenarioFirstFails).k.DB.row = some (-1)) ∨
        (scenarioFirstFails.k.DB.execFault ≠ none ∧
          (Run scenarioFirstFails).k.DB.row = none)) ∧
      persisted (Run scenarioFirstFails).k.DB = -1) :=
  ⟨⟨rfl, by decide⟩,
    Run_first_failure_writes_unchanged_ordinal scenarioFirstFails 0 "disk full" rfl
      (by decide)⟩

/-- C8: when the persisted ordinal `c` is read successfully and is at least the ordinal of
every registered routine (so in particular when there is no routine), `Run` returns nil,
invokes no routine and performs no write; the database is left as it was. -/
theorem Run_noop_when_all_applied (u : Updater σ) (c : Int)
    (hread : getCurrentVersion u.k.DB = .ok c)
    (hall : ∀ i : Nat, i < u.updates.length → (i : Int) ≤ c) :
    (Run u).err = none ∧ (Run u).invoked = [] ∧ (Run u).writes = [] ∧
    (Run u).k.DB = u.k.DB := by
  obtain ⟨hf, hc⟩ := getCurrentVersion_ok u.k.DB c hread
  subst hc
  apply Run_settled u hf
  rcases Nat.eq_zero_or_pos u.updates.length with h0 | hpos
  · omega
  · have := hall (u.updates.length - 1) (by omega)
    omega

/-- Witness of C8: the routines `[A, B, C]` on a store that holds `2`. -/
theorem Run_noop_when_all_applied_witness :
    (getCurrentVersion scenarioApplied.k.DB = .ok 2 ∧
      ∀ i : Nat, i < scenarioApplied.updates.length → (i : Int) ≤ 2) ∧
    ((Run scenarioApplied).err = none ∧ (Run scenarioApplied).invoked = [] ∧
      (Run scenarioApplied).writes = [] ∧ (Run scenarioApplied).k.DB = scenarioApplied.k.DB) :=
  ⟨⟨rfl, fun i hi => by
      have hi3 : i < 3 := hi
      omega⟩,
    Run_noop_when_all_applied scenarioApplied 2 rfl (fun i hi => by
      have hi3 : i < 3 := hi
      omega)⟩

/-- C9: the persisted ordinal never decreases. For every routine list, store and behaviour of
the routines, the ordinal the store holds after `Run` (no record counting as `-1`) is at
least the one it held before; and when the ordinal is read successfully before the call, it
is read successfully after it, with a value at least as large. -/
theorem Run_persisted_monotone (u : Updater σ) :
    persisted u.k.DB ≤ persisted (Run u).k.DB ∧
    (∀ c, getCurrentVersion u.k.DB = .ok c →
      ∃ c1, getCurrentVersion (Run u).k.DB = .ok c1 ∧ c ≤ c1) := by
  refine ⟨Run_persisted_le u, ?_⟩
  intro c hread
  obtain ⟨hf, hc⟩ := getCurrentVersion_ok u.k.DB c hread
  refine ⟨persisted (Run u).k.DB, ?_, ?_⟩
  · exact getCurrentVersion_noFault _ ((Run_faults u).1.trans hf)
  · rw [hc]; exact Run_persisted_le u

/-- Witness of C9 on the scenario `[A, B, C]`: the store reads `-1` before the call and `0`
after it. -/
theorem Run_persisted_monotone_witness :
    getCurrentVersion scenario.k.DB = .ok (-1) ∧
    getCurrentVersion (Run scenario).k.DB = .ok 0 ∧
    (persisted scenario.k.DB ≤ persisted (Run scenario).k.DB ∧
      (∀ c, getCurrentVersion scenario.k.DB = .ok c →
        ∃ c1, getCurrentVersion (Run scenario).k.DB = .ok c1 ∧ c ≤ c1)) :=
  ⟨rfl, rfl, Run_persisted_monotone scenario⟩

/-- C10: no record equals unapplied. On a store without a version record `Run` invokes the
same routines with the same results, returns the same error, leaves the application in the
same state and hands the same values to `setCurrentVersion` as on the store whose record
holds `-1`; afterwards both stores read the same; and `getCurrentVersion` answers `-1`
without an error when the query finds no rows. -/
theorem Run_no_record_as_minus_one (u : Updater σ) :
    (Run (u.withRow none)).invoked = (Run (u.withRow (some (-1)))).invoked ∧
    (Run (u.withRow none)).err = (Run (u.withRow (some (-1)))).err ∧
    (Run (u.withRow none)).k.State = (Run (u.withRow (some (-1)))).k.State ∧
    (Run (u.withRow none)).writes = (Run (u.withRow (some (-1)))).writes ∧
    getCurrentVersion (Run (u.withRow none)).k.DB
      = getCurrentVersion (Run (u.withRow (some (-1)))).k.DB ∧
    persisted (Run (u.withRow none)).k.DB = persisted (Run (u.withRow (some (-1)))).k.DB ∧
    getCurrentVersion { row := none, getFault := none, execFault := u.k.DB.execFault }
      = .ok (-1) := by
  refine ⟨?_, ?_, ?_, ?_, ?_, ?_, rfl⟩ <;>
    · cases hf : u.k.DB.getFault with
      | some f =>
        have hne : ¬ f.msg = "sql: no rows in result set" := f.other
        simp [Run, Updater.withRow, getCurrentVersion, DB.GetContext, hf, hne, persisted]
      | none =>
        cases hx : u.k.DB.execFault <;>
          simp only [Run, Updater.withRow, getCurrentVersion, DB.GetContext, hf, hx, ErrNoRows,
            if_true, setCurrentVersion, DB.ExecContext, WithStack, persisted] <;>
          split_ifs <;> rfl

theorem setCurrentVersion_error (db : DB) (cur : Int) (w : String)
    (h : (setCurrentVersion db cur).1 = some w) : db.execFault = some w := by
  cases hx : db.execFault with
  | none => simp [setCurrentVersion, DB.ExecContext, hx, WithStack] at h
  | some w1 => simpa [setCurrentVersion, DB.ExecContext, hx, WithStack] using h

/-- C11: persistence failures are propagated. If reading the current ordinal fails, `Run`
returns that error, invokes no routine and writes nothing; if a write handed to
`setCurrentVersion` fails, `Run` returns the error of the write. -/
theorem Run_propagates_persistence_failures (u : Updater σ) :
    (∀ e, getCurrentVersion u.k.DB = .error e →
      (Run u).err = some e ∧ (Run u).invoked = [] ∧ (Run u).writes = []) ∧
    (∀ cur w, cur ∈ (Run u).writes → (setCurrentVersion u.k.DB cur).1 = some w →
      (Run u).err = some w) := by
  constructor
  · intro e he
    cases hf : u.k.DB.getFault with
    | none => rw [getCurrentVersion_noFault _ hf] at he; cases he
    | some f =>
      rw [getCurrentVersion_fault _ f hf] at he
      cases he
      rw [Run_fault u f hf]
      exact ⟨rfl, rfl, rfl⟩
  · intro cur w hcur hw
    have hx := setCurrentVersion_error _ _ _ hw
    cases hf : u.k.DB.getFault with
    | some f => rw [Run_fault u f hf] at hcur; cases hcur
    | none =>
      have hread := getCurrentVersion_noFault u.k.DB hf
      obtain ⟨k, ⟨-, -, hA⟩ | ⟨e, -, -, hwr⟩⟩ := Run_spec u _ hread
      · rcases hA with ⟨-, -, hnone, -⟩ | ⟨-, -, ⟨hx1, -⟩ | ⟨w1, hx1, herr, -⟩⟩
        · rw [hnone] at hcur; cases hcur
        · rw [hx] at hx1; cases hx1
        · rw [hx] at hx1; cases hx1; exact herr
      · rcases hwr with ⟨-, ⟨hx1, -⟩ | ⟨w1, hx1, herr, -⟩⟩
        · rw [hx] at hx1; cases hx1
        · rw [hx] at hx1; cases hx1; exact herr

/-- Witness of C11: the read fails on the database whose connection is gone; the write fails
on the database that refuses writes. -/
theorem Run_propagates_persistence_failures_witness :
    (getCurrentVersion scenarioBroken.k.DB
        = .error "dial tcp 127.0.0.1:3306: connect: connection refused" ∧
      (Run scenarioBroken).err = some "dial tcp 127.0.0.1:3306: connect: connection refused" ∧
      (Run scenarioBroken).invoked = [] ∧ (Run scenarioBroken).writes = []) ∧
    ((2 : Int) ∈ (Run scenarioReadOnly).writes ∧
      (setCurrentVersion scenarioReadOnly.k.DB 2).1
        = some "Error 1290: The MySQL server is running with the --read-only option" ∧
      (Run scenarioReadOnly).err
        = some "Error 1290: The MySQL server is running with the --read-only option") :=
  ⟨⟨rfl, (Run_propagates_persistence_failures scenarioBroken).1 _ rfl⟩,
    ⟨by decide, rfl,
      (Run_propagates_persistence_failures scenarioReadOnly).2 2 _ (by decide) rfl⟩⟩

end app

namespace daemon

theorem takeWhile_append_all {α : Type} (p : α → Bool) (xs ys : List α) :
    (xs ++ ys).takeWhile p = if xs.all p then xs ++ ys.takeWhile p else xs.takeWhile p := by
  induction xs with
  | nil => simp
  | cons x xs ih =>
    cases hx : p x
    · simp [List.takeWhile_cons, hx]
    · simp only [List.cons_append, List.takeWhile_cons, hx, ih, List.all_cons, Bool.true_and,
        if_true]
      split_ifs <;> rfl

theorem trailingErrors_cons (a : RunResult) (l : List RunResult) :
    trailingErrors (a :: l)
      = if l.all RunResult.isError then (if a.isError then l.length + 1 else l.length)
        else trailingErrors l := by
  unfold trailingErrors
  rw [List.reverse_cons, takeWhile_append_all, List.all_reverse]
  split_ifs with h1 h2
  · simp [List.takeWhile_cons, h2]
  · simp [List.takeWhile_cons, h2]
  · rfl

theorem runsOf_append (xs ys : List Action) : runsOf (xs ++ ys) = runsOf xs ++ runsOf ys := by
  induction xs with
  | nil => rfl
  | cons a xs ih => cases a <;> simp [runsOf, ih]

theorem runsOf_Start (script : List Tick) (outer : Int) :
    runsOf (Start script outer).log
      = runsOf (loop script
          { wg := 0, tries := 0, b := newExponentialBackOff.Reset, waited := none }).2.2 := by
  unfold Start
  generalize loop script
    { wg := 0, tries := 0, b := newExponentialBackOff.Reset, waited := none } = r
  rcases r with ⟨e, st, acts⟩
  cases e <;> simp [runsOf, runsOf_append]

theorem loop_cons_done (t : Tick) (rest : List Tick) (st : State) (hd : t.done = true) :
    loop (t :: rest) st
      = if st.wg = 0 then
          (.returned, { st with b := st.b.NextBackOff.2, waited := some st.b.NextBackOff.1 },
            [.wait, .stop])
        else
          (.blocked, { st with b := st.b.NextBackOff.2, waited := some st.b.NextBackOff.1 },
            []) := by
  simp [loop, hd]

theorem loop_cons_panic (t : Tick) (rest : List Tick) (st : State) (v : String)
    (hd : t.done = false) (hr : t.result = .panic v) :
    loop (t :: rest) st
      = (.panicked v,
          { wg := st.wg, tries := st.tries + 1, b := st.b.NextBackOff.2,
            waited := some st.b.NextBackOff.1 },
          [.run (st.tries + 1) st.waited (.panic v)]) := by
  simp [loop, hd, hr]

theorem loop_cons_error (t : Tick) (rest : List Tick) (st : State) (msg : String)
    (hd : t.done = false) (hr : t.result = .error msg) :
    loop (t :: rest) st
      = ((loop rest
            { wg := t.wg, tries := st.tries + 1, b := st.b.NextBackOff.2,
              waited := some st.b.NextBackOff.1 }).1,
          (loop rest
            { wg := t.wg, tries := st.tries + 1, b := st.b.NextBackOff.2,
              waited := some st.b.NextBackOff.1 }).2.1,
          .run (st.tries + 1) st.waited (.error msg)
            :: (loop rest
                { wg := t.wg, tries := st.tries + 1, b := st.b.NextBackOff.2,
                  waited := some st.b.NextBackOff.1 }).2.2) := by
  simp [loop, hd, hr]

theorem loop_cons_ok (t : Tick) (rest : List Tick) (st : State)
    (hd : t.done = false) (hr : t.result = .ok) :
    loop (t :: rest) st
      = ((loop rest
            { wg := t.wg, tries := 0, b := st.b.NextBackOff.2,
              waited := some st.b.NextBackOff.1 }).1,
          (loop rest
            { wg := t.wg, tries := 0, b := st.b.NextBackOff.2,
              waited := some st.b.NextBackOff.1 }).2.1,
          .run (st.tries + 1) st.waited .ok
            :: (loop rest
                { wg := t.wg, tries := 0, b := st.b.NextBackOff.2,
                  waited := some st.b.NextBackOff.1 }).2.2) := by
  simp [loop, hd, hr]

theorem runsOf_loop_done (t : Tick) (rest : List Tick) (st : State) (hd : t.done = true) :
    runsOf (loop (t :: rest) st).2.2 = [] := by
  rw [loop_cons_done t rest st hd]
  split_ifs <;> rfl

theorem loop_waited (script : List Tick) (st : State) (i : Nat)
    (x : Nat × Option Nat × RunResult)
    (hx : (runsOf (loop script st).2.2)[i]? = some x) :
    x.2.1 = if i = 0 then st.waited
      else some (Nat.iterate ExponentialBackOff.incrementCurrentInterval (i - 1)
        st.b).currentInterval := by
  induction script generalizing st i with
  | nil => simp [loop, runsOf] at hx
  | cons t rest ih =>
    have step : ∀ (st1 : State) (r : RunResult),
        st1.b = st.b.incrementCurrentInterval → st1.waited = some st.b.currentInterval →
        (runsOf (.run (st.tries + 1) st.waited r :: (loop rest st1).2.2))[i]? = some x →
        x.2.1 = if i = 0 then st.waited
          else some (Nat.iterate ExponentialBackOff.incrementCurrentInterval (i - 1)
            st.b).currentInterval := by
      intro st1 r hb hw h
      cases i with
      | zero =>
        simp only [runsOf, List.getElem?_cons_zero, Option.some.injEq] at h
        subst h; rfl
      | succ j =>
        simp only [runsOf, List.getElem?_cons_succ] at h
        have := ih st1 j h
        rw [this, hb, hw]
        cases j with
        | zero => rfl
        | succ j1 => simp [Function.iterate_succ_apply]
    cases hd : t.done with
    | true => rw [runsOf_loop_done t rest st hd] at hx; cases hx
    | false =>
      cases hr : t.result with
      | panic v =>
        rw [loop_cons_panic t rest st v hd hr] at hx
        cases i with
        | zero =>
          simp only [runsOf, List.getElem?_cons_zero, Option.some.injEq] at hx
          subst hx; rfl
        | succ j => simp [runsOf] at hx
      | error msg =>
        rw [loop_cons_error t rest st msg hd hr] at hx
        exact step
          { wg := t.wg, tries := st.tries + 1, b := st.b.NextBackOff.2,
            waited := some st.b.NextBackOff.1 } (.error msg) rfl rfl hx
      | ok =>
        rw [loop_cons_ok t rest st hd hr] at hx
        exact step
          { wg := t.wg, tries := 0, b := st.b.NextBackOff.2,
            waited := some st.b.NextBackOff.1 } .ok rfl rfl hx

theorem trailingErrors_all (l : List RunResult) (h : l.all RunResult.isError = true) :
    trailingErrors l = l.length := by
  unfold trailingErrors
  have : l.reverse.takeWhile RunResult.isError = l.reverse := by
    rw [List.takeWhile_eq_self_iff]
    intro x hx
    exact List.all_eq_true.1 h x (List.mem_reverse.1 hx)
  rw [this, List.length_reverse]

theorem loop_tries (script : List Tick) (st : State) (i : Nat)
    (x : Nat × Option Nat × RunResult)
    (hx : (runsOf (loop script st).2.2)[i]? = some x) :
    x.1 = 1 + (if (((runsOf (loop script st).2.2).map (fun y => y.2.2)).take i).all
                  RunResult.isError
                then st.tries + i
                else trailingErrors
                  (((runsOf (loop script st).2.2).map (fun y => y.2.2)).take i)) := by
  induction script generalizing st i with
  | nil => simp [loop, runsOf] at hx
  | cons t rest ih =>
    have step : ∀ (st1 : State) (r : RunResult),
        st1.tries = (if r.isError then st.tries + 1 else 0) →
        (runsOf (.run (st.tries + 1) st.waited r :: (loop rest st1).2.2))[i]? = some x →
        x.1 = 1 + (if (((runsOf (.run (st.tries + 1) st.waited r
                      :: (loop rest st1).2.2)).map (fun y => y.2.2)).take i).all
                      RunResult.isError
                    then st.tries + i
                    else trailingErrors
                      (((runsOf (.run (st.tries + 1) st.waited r
                        :: (loop rest st1).2.2)).map (fun y => y.2.2)).take i)) := by
      intro st1 r ht h
      cases i with
      | zero =>
        simp only [runsOf, List.getElem?_cons_zero, Option.some.injEq] at h
        subst h
        simp
        omega
      | succ j =>
        simp only [runsOf, List.getElem?_cons_succ] at h
        have hj := ih st1 j h
        have hlt : j < (runsOf (loop rest st1).2.2).length := by
          by_contra hge
          rw [List.getElem?_eq_none (by omega)] at h
          cases h
        have hlen : (((runsOf (loop rest st1).2.2).map (fun y => y.2.2)).take j).length = j := by
          rw [List.length_take, List.length_map]; omega
        simp only [runsOf, List.map_cons, List.take_succ_cons, List.all_cons]
        rw [trailingErrors_cons, hj, ht, hlen]
        cases hr : r.isError <;> first | (simp; done) | (simp; split_ifs <;> omega)
    cases hd : t.done with
    | true => rw [runsOf_loop_done t rest st hd] at hx; cases hx
    | false =>
      cases hr : t.result with
      | panic v =>
        rw [loop_cons_panic t rest st v hd hr] at hx ⊢
        cases i with
        | zero =>
          simp only [runsOf, List.getElem?_cons_zero, Option.some.injEq] at hx
          subst hx
          simp
          omega
        | succ j => simp [runsOf] at hx
      | error msg =>
        rw [loop_cons_error t rest st msg hd hr] at hx ⊢
        exact step
          { wg := t.wg, tries := st.tries + 1, b := st.b.NextBackOff.2,
            waited := some st.b.NextBackOff.1 } (.error msg) rfl hx
      | ok =>
        rw [loop_cons_ok t rest st hd hr] at hx ⊢
        exact step
          { wg := t.wg, tries := 0, b := st.b.NextBackOff.2,
            waited := some st.b.NextBackOff.1 } .ok rfl hx

theorem loop_actions (script : List Tick) (st : State) :
    ∀ a ∈ (loop script st).2.2, a = .wait ∨ a = .stop ∨ ∃ n w r, a = .run n w r := by
  induction script generalizing st with
  | nil => simp [loop]
  | cons t rest ih =>
    intro a ha
    cases hd : t.done with
    | true =>
      rw [loop_cons_done t rest st hd] at ha
      split_ifs at ha
      · simp only [List.mem_cons, List.mem_singleton, List.not_mem_nil, or_false] at ha
        rcases ha with rfl | rfl
        · exact Or.inl rfl
        · exact Or.inr (Or.inl rfl)
      · cases ha
    | false =>
      cases hr : t.result with
      | panic v =>
        rw [loop_cons_panic t rest st v hd hr] at ha
        exact Or.inr (Or.inr ⟨_, _, _, List.mem_singleton.1 ha⟩)
      | error msg =>
        rw [loop_cons_error t rest st msg hd hr] at ha
        rcases List.mem_cons.1 ha with rfl | ha
        · exact Or.inr (Or.inr ⟨_, _, _, rfl⟩)
        · exact ih _ a ha
      | ok =>
        rw [loop_cons_ok t rest st hd hr] at ha
        rcases List.mem_cons.1 ha with rfl | ha
        · exact Or.inr (Or.inr ⟨_, _, _, rfl⟩)
        · exact ih _ a ha

theorem loop_append (pre : List Tick) (st : State)
    (hq : ∀ x ∈ pre, x.done = false ∧ ∀ v, x.result ≠ .panic v) :
    ∃ (st1 : State) (acts : List Action),
      (runsOf acts).map (fun y => y.2.2) = pre.map (fun t => t.result) ∧
      (∀ a ∈ acts, ∃ n w r, a = .run n w r) ∧
      ∀ rest, loop (pre ++ rest) st
        = ((loop rest st1).1, (loop rest st1).2.1, acts ++ (loop rest st1).2.2) := by
  induction pre generalizing st with
  | nil => exact ⟨st, [], rfl, by simp, fun rest => rfl⟩
  | cons t pre ih =>
    have hd : t.done = false := (hq t (List.mem_cons_self _ _)).1
    have hp := (hq t (List.mem_cons_self _ _)).2
    have hq1 : ∀ x ∈ pre, x.done = false ∧ ∀ v, x.result ≠ .panic v :=
      fun x hx => hq x (List.mem_cons_of_mem _ hx)
    cases hr : t.result with
    | panic v => exact absurd hr (hp v)
    | error msg =>
      obtain ⟨st1, acts, h1, h2, h3⟩ := ih
        { wg := t.wg, tries := st.tries + 1, b := st.b.NextBackOff.2,
          waited := some st.b.NextBackOff.1 } hq1
      refine ⟨st1, .run (st.tries + 1) st.waited (.error msg) :: acts, ?_, ?_, ?_⟩
      · simp [runsOf, h1, hr]
      · intro a ha
        rcases List.mem_cons.1 ha with rfl | ha
        · exact ⟨_, _, _, rfl⟩
        · exact h2 a ha
      · intro rest
        rw [List.cons_append, loop_cons_error t _ st msg hd hr, h3 rest]
        rfl
    | ok =>
      obtain ⟨st1, acts, h1, h2, h3⟩ := ih
        { wg := t.wg, tries := 0, b := st.b.NextBackOff.2,
          waited := some st.b.NextBackOff.1 } hq1
      refine ⟨st1, .run (st.tries + 1) st.waited .ok :: acts, ?_, ?_, ?_⟩
      · simp [runsOf, h1, hr]
      · intro a ha
        rcases List.mem_cons.1 ha with rfl | ha
        · exact ⟨_, _, _, rfl⟩
        · exact h2 a ha
      · intro rest
        rw [List.cons_append, loop_cons_ok t _ st hd hr, h3 rest]
        rfl

theorem loop_returned (script : List Tick) (st : State)
    (h : (loop script st).1 = .returned) :
    ∃ pre t post, script = pre ++ t :: post ∧ t.done = true ∧
      (∀ x ∈ pre, x.done = false ∧ ∀ v, x.result ≠ .panic v) ∧
      (loop script st).2.1.wg = 0 ∧
      ∃ acts, (loop script st).2.2 = acts ++ [.wait, .stop] ∧
        (∀ a ∈ acts, ∃ n w r, a = .run n w r) := by
  induction script generalizing st with
  | nil => simp [loop] at h
  | cons t rest ih =>
    have hcons : ∀ (st1 : State) (a : Action), (∃ n w r, a = .run n w r) →
        (∀ v, t.result ≠ .panic v) → t.done = false →
        loop (t :: rest) st = ((loop rest st1).1, (loop rest st1).2.1, a :: (loop rest st1).2.2) →
        ∃ pre t1 post, t :: rest = pre ++ t1 :: post ∧ t1.done = true ∧
          (∀ x ∈ pre, x.done = false ∧ ∀ v, x.result ≠ .panic v) ∧
          (loop (t :: rest) st).2.1.wg = 0 ∧
          ∃ acts, (loop (t :: rest) st).2.2 = acts ++ [.wait, .stop] ∧
            (∀ a ∈ acts, ∃ n w r, a = .run n w r) := by
      intro st1 a harun hnp hd heq
      rw [heq] at h ⊢
      obtain ⟨pre, t1, post, hs, ht1, hq, hwg, acts, hacts, hruns⟩ := ih st1 h
      refine ⟨t :: pre, t1, post, by rw [hs]; rfl, ht1, ?_, hwg, a :: acts, ?_, ?_⟩
      · intro x hx
        rcases List.mem_cons.1 hx with rfl | hx
        · exact ⟨hd, hnp⟩
        · exact hq x hx
      · show a :: (loop rest st1).2.2 = a :: acts ++ [.wait, .stop]
        rw [hacts]; rfl
      · intro a1 ha1
        rcases List.mem_cons.1 ha1 with rfl | ha1
        · exact harun
        · exact hruns a1 ha1
    cases hd : t.done with
    | true =>
      rw [loop_cons_done t rest st hd] at h ⊢
      by_cases hw : st.wg = 0
      · rw [if_pos hw]
        exact ⟨[], t, rest, rfl, hd, by simp, hw, [], rfl, by simp⟩
      · rw [if_neg hw] at h; cases h
    | false =>
      cases hr : t.result with
      | panic v => rw [loop_cons_panic t rest st v hd hr] at h; cases h
      | error msg =>
        exact hcons _ _ ⟨_, _, _, rfl⟩ (fun v hv => by rw [hr] at hv; cases hv) hd
          (loop_cons_error t rest st msg hd hr)
      | ok =>
        exact hcons _ _ ⟨_, _, _, rfl⟩ (fun v hv => by rw [hr] at hv; cases hv) hd
          (loop_cons_ok t rest st hd hr)

theorem incrementCurrentInterval_fields (b : ExponentialBackOff) :
    b.incrementCurrentInterval.MultiplierNum = b.MultiplierNum ∧
    b.incrementCurrentInterval.MultiplierDen = b.MultiplierDen ∧
    b.incrementCurrentInterval.MaxInterval = b.MaxInterval ∧
    b.incrementCurrentInterval.currentInterval
      = (if b.currentInterval * b.MultiplierNum ≥ b.MaxInterval * b.MultiplierDen
          then b.MaxInterval
          else b.currentInterval * b.MultiplierNum / b.MultiplierDen) := by
  unfold ExponentialBackOff.incrementCurrentInterval
  split_ifs <;> exact ⟨rfl, rfl, rfl, rfl⟩

theorem intervalAfter_succ (k : Nat) :
    intervalAfter (k + 1)
      = if intervalAfter k * 5 ≥ 30 * Second * 4 then 30 * Second
        else intervalAfter k * 5 / 4 := by
  have hfields : ∀ n, (Nat.iterate ExponentialBackOff.incrementCurrentInterval n
      newExponentialBackOff).MultiplierNum = 5 ∧
      (Nat.iterate ExponentialBackOff.incrementCurrentInterval n
        newExponentialBackOff).MultiplierDen = 4 ∧
      (Nat.iterate ExponentialBackOff.incrementCurrentInterval n
        newExponentialBackOff).MaxInterval = 30 * Second := by
    intro n
    induction n with
    | zero => exact ⟨rfl, rfl, rfl⟩
    | succ n ih =>
      rw [Function.iterate_succ_apply']
      obtain ⟨f1, f2, f3, -⟩ := incrementCurrentInterval_fields
        (Nat.iterate ExponentialBackOff.incrementCurrentInterval n newExponentialBackOff)
      rw [f1, f2, f3]
      exact ih
  obtain ⟨h1, h2, h3⟩ := hfields k
  unfold intervalAfter
  rw [Function.iterate_succ_apply']
  obtain ⟨-, -, -, f4⟩ := incrementCurrentInterval_fields
    (Nat.iterate ExponentialBackOff.incrementCurrentInterval k newExponentialBackOff)
  rw [f4, h1, h2, h3]

theorem intervalAfter_grown (k : Nat) (hk : 0 < k) :
    625 * Millisecond ≤ intervalAfter k ∧ intervalAfter k ≤ 30 * Second := by
  induction k with
  | zero => omega
  | succ k ih =>
    rcases Nat.eq_zero_or_pos k with h0 | hpos
    · subst h0
      decide
    · have := ih hpos
      rw [intervalAfter_succ]
      simp only [Second, Millisecond] at this ⊢
      split_ifs <;> omega

theorem loop_first_run (t : Tick) (post : List Tick) (st : State) (ht : t.done = false) :
    ∃ more, runsOf (loop (t :: post) st).2.2 = (st.tries + 1, st.waited, t.result) :: more := by
  cases hr : t.result with
  | panic v => rw [loop_cons_panic t post st v ht hr]; exact ⟨_, rfl⟩
  | error msg => rw [loop_cons_error t post st msg ht hr]; exact ⟨_, rfl⟩
  | ok => rw [loop_cons_ok t post st ht hr]; exact ⟨_, rfl⟩

/-- C12 at the failing input: the daemon panics at its first invocation. The goroutine started
by `go m.recoverPanic(d, logger)` has called `recover()` outside of any deferred call and of
any panic, got nil and ended; the panic leaves `Start` (only the deferred `m.wg.Done()`
runs), and the daemon is not started again. Called from a deferred function of the panicking
goroutine, `recoverPanic` would have restarted the daemon after 5 seconds. -/
theorem Start_panic_not_recovered :
    (Start [panicTick "boom", okTick] 0).exit = .panicked "boom" ∧
    (Start [panicTick "boom", okTick] 0).log = [.add, .run 1 none (.panic "boom"), .done] ∧
    (Start [panicTick "boom", okTick] 0).spawned = .exited ∧
    recoverPanic (recover (some "boom") true) = .restarts (5 * Second) := by
  decide

/-- C13, as stated, fails: after one error return and one nil return, the delay before the
next invocation is drawn from 625ms, the interval grown by the ticks so far, not from the
initial interval of 500ms. -/
theorem Start_backoff_reset_counterexample :
    (runsOf (Start [errorTick "crashed", okTick, okTick] 0).log)[2]?
      = some (1, some (625 * Millisecond), .ok) ∧
    newExponentialBackOff.InitialInterval = 500 * Millisecond ∧
    625 * Millisecond ≠ 500 * Millisecond := by
  decide

/-- C13, amended: when the run function returns an error `n` times in a row and then nil once,
the next invocation is counted as the first try again, and the delay before it is drawn from
the interval grown `n` times from the initial 500ms (times 1.25 each, at most 30s): the
backoff of the ticker is not reset, so for `n ≥ 1` that interval is longer than the initial
one. -/
theorem Start_backoff_not_reset_by_nil_return (msgs : List String) (t : Tick)
    (post : List Tick) (outer : Int) (ht : t.done = false) :
    (runsOf (Start (msgs.map errorTick ++ okTick :: t :: post) outer).log)[msgs.length + 1]?
      = some (1, some (intervalAfter msgs.length), t.result) ∧
    intervalAfter 0 = 500 * Millisecond ∧
    (0 < msgs.length → 500 * Millisecond < intervalAfter msgs.length) := by
  refine ⟨?_, rfl, ?_⟩
  · have hq : ∀ x ∈ msgs.map errorTick ++ [okTick],
        x.done = false ∧ ∀ v, x.result ≠ .panic v := by
      intro x hx
      rcases List.mem_append.1 hx with hx | hx
      · obtain ⟨m, -, rfl⟩ := List.mem_map.1 hx
        exact ⟨rfl, fun v hv => by cases hv⟩
      · rw [List.mem_singleton] at hx
        subst hx
        exact ⟨rfl, fun v hv => by cases hv⟩
    have hscript : msgs.map errorTick ++ okTick :: t :: post
        = (msgs.map errorTick ++ [okTick]) ++ t :: post := by simp
    obtain ⟨st1, acts, h1, -, h3⟩ := loop_append (msgs.map errorTick ++ [okTick])
      { wg := 0, tries := 0, b := newExponentialBackOff.Reset, waited := none } hq
    obtain ⟨more, hmore⟩ := loop_first_run t post st1 ht
    have hruns : runsOf (loop (msgs.map errorTick ++ okTick :: t :: post)
        { wg := 0, tries := 0, b := newExponentialBackOff.Reset, waited := none }).2.2
        = runsOf acts ++ (st1.tries + 1, st1.waited, t.result) :: more := by
      rw [hscript, h3 (t :: post)]
      show runsOf (acts ++ (loop (t :: post) st1).2.2) = _
      rw [runsOf_append, hmore]
    have hlen : (runsOf acts).length = msgs.length + 1 := by
      have := congrArg List.length h1
      simpa using this
    have hx : (runsOf (loop (msgs.map errorTick ++ okTick :: t :: post)
        { wg := 0, tries := 0, b := newExponentialBackOff.Reset, waited := none }).2.2)[
          msgs.length + 1]? = some (st1.tries + 1, st1.waited, t.result) := by
      rw [hruns, List.getElem?_append_right (by omega), hlen]
      simp
    have hw := loop_waited _ _ _ _ hx
    have htr := loop_tries _ _ _ _ hx
    have htake : ((runsOf (loop (msgs.map errorTick ++ okTick :: t :: post)
        { wg := 0, tries := 0, b := newExponentialBackOff.Reset, waited := none }).2.2).map
          (fun y => y.2.2)).take (msgs.length + 1)
        = msgs.map (fun m => RunResult.error m) ++ [RunResult.ok] := by
      rw [hruns, List.map_append, h1, List.take_left' (by simp)]
      simp [errorTick, okTick, Function.comp_def]
    rw [htake] at htr
    have hall : (msgs.map (fun m => RunResult.error m) ++ [RunResult.ok]).all
        RunResult.isError = false := by
      simp [RunResult.isError]
    have htrail : trailingErrors (msgs.map (fun m => RunResult.error m) ++ [RunResult.ok])
        = 0 := by
      simp [trailingErrors, RunResult.isError]
    rw [hall, htrail] at htr
    rw [runsOf_Start, hx]
    have hw1 : st1.waited = some (intervalAfter msgs.length) := by
      simpa using hw
    have htr1 : st1.tries + 1 = 1 := by simpa using htr
    rw [hw1, htr1]
  · intro hpos
    have := (intervalAfter_grown msgs.length hpos).1
    simp only [Millisecond] at this ⊢
    omega

/-- Witness of the amended C13: three error returns, a nil return, and the next invocation. -/
theorem Start_backoff_not_reset_by_nil_return_witness :
    okTick.done = false ∧
    intervalAfter 3 = 976562500 ∧
    ((runsOf (Start (["a", "b", "c"].map errorTick ++ okTick :: okTick :: [doneTick])
        0).log)[["a", "b", "c"].length + 1]?
        = some (1, some (intervalAfter ["a", "b", "c"].length), okTick.result) ∧
      intervalAfter 0 = 500 * Millisecond ∧
      (0 < ["a", "b", "c"].length →
        500 * Millisecond < intervalAfter ["a", "b", "c"].length)) :=
  ⟨rfl, by decide,
    Start_backoff_not_reset_by_nil_return ["a", "b", "c"] okTick [doneTick] 0 rfl⟩

theorem Start_exit (script : List Tick) (outer : Int) :
    (Start script outer).exit
      = (loop script
          { wg := 0, tries := 0, b := newExponentialBackOff.Reset, waited := none }).1 := by
  unfold Start
  generalize loop script
    { wg := 0, tries := 0, b := newExponentialBackOff.Reset, waited := none } = r
  rcases r with ⟨e, st, acts⟩
  cases e <;> rfl

/-- C14: `Start` returns only when the context is found cancelled at a tick. If `Start` has
returned, the script has a tick at which the context was cancelled, and it was not cancelled
at the ticks before. As long as the context is not cancelled, whatever the run function
returns (nil or an error), `Start` does not return: it is in the loop, and every tick has
invoked the run function. And once a tick has found the context cancelled, `Start` returns or
waits in `wg.Wait()`, and the run function is not invoked at any later tick. -/
theorem Start_returns_only_on_cancellation (script : List Tick) (outer : Int) :
    ((Start script outer).exit = .returned →
      ∃ pre t post, script = pre ++ t :: post ∧ t.done = true ∧
        (∀ x ∈ pre, x.done = false) ∧
        (runsOf (Start script outer).log).length = pre.length) ∧
    ((∀ x ∈ script, x.done = false ∧ ∀ v, x.result ≠ .panic v) →
      (Start script outer).exit = .waiting ∧
      (runsOf (Start script outer).log).map (fun y => y.2.2)
        = script.map (fun t => t.result)) ∧
    (∀ pre t post, script = pre ++ t :: post →
      (∀ x ∈ pre, x.done = false ∧ ∀ v, x.result ≠ .panic v) → t.done = true →
      ((Start script outer).exit = .returned ∨ (Start script outer).exit = .blocked) ∧
      runsOf (Start script outer).log = runsOf (Start pre outer).log ∧
      (runsOf (Start script outer).log).length = pre.length) := by
  refine ⟨?_, ?_, ?_⟩
  · intro h
    rw [Start_exit] at h
    obtain ⟨pre, t, post, hs, ht, hq, -, acts, hacts, hruns⟩ := loop_returned _ _ h
    refine ⟨pre, t, post, hs, ht, fun x hx => (hq x hx).1, ?_⟩
    obtain ⟨st1, acts1, h1, -, h3⟩ := loop_append pre
      { wg := 0, tries := 0, b := newExponentialBackOff.Reset, waited := none } hq
    rw [runsOf_Start, hs, h3 (t :: post)]
    show (runsOf (acts1 ++ (loop (t :: post) st1).2.2)).length = pre.length
    rw [runsOf_append, runsOf_loop_done t post st1 ht, List.append_nil]
    have := congrArg List.length h1
    simpa using this
  · intro hq
    obtain ⟨st1, acts, h1, -, h3⟩ := loop_append script
      { wg := 0, tries := 0, b := newExponentialBackOff.Reset, waited := none } hq
    have h := h3 []
    rw [List.append_nil] at h
    constructor
    · rw [Start_exit, h]; rfl
    · rw [runsOf_Start, h]
      show (runsOf (acts ++ [])).map _ = _
      rw [List.append_nil, h1]
  · intro pre t post hs hq ht
    obtain ⟨st1, acts, h1, -, h3⟩ := loop_append pre
      { wg := 0, tries := 0, b := newExponentialBackOff.Reset, waited := none } hq
    have hpre := h3 []
    rw [List.append_nil] at hpre
    have hfull := h3 (t :: post)
    rw [← hs] at hfull
    have hlen : (runsOf acts).length = pre.length := by
      have := congrArg List.length h1
      simpa using this
    have hrunsfull : runsOf (Start script outer).log = runsOf acts := by
      rw [runsOf_Start, hfull]
      show runsOf (acts ++ (loop (t :: post) st1).2.2) = _
      rw [runsOf_append, runsOf_loop_done t post st1 ht, List.append_nil]
    have hrunspre : runsOf (Start pre outer).log = runsOf acts := by
      rw [runsOf_Start, hpre]
      show runsOf (acts ++ []) = _
      rw [List.append_nil]
    refine ⟨?_, by rw [hrunsfull, hrunspre], by rw [hrunsfull, hlen]⟩
    rw [Start_exit, hfull]
    show (loop (t :: post) st1).1 = .returned ∨ (loop (t :: post) st1).1 = .blocked
    rw [loop_cons_done t post st1 ht]
    split_ifs
    · exact Or.inl rfl
    · exact Or.inr rfl

/-- Witness of C14: an error return, a nil return, then the context is cancelled; the tick
after the cancellation is not served. -/
theorem Start_returns_only_on_cancellation_witness :
    (Start [errorTick "crashed", okTick, doneTick, okTick] 0).exit = .returned ∧
    runsOf (Start [errorTick "crashed", okTick, doneTick, okTick] 0).log
      = [(1, none, .error "crashed"), (2, some (500 * Millisecond), .ok)] ∧
    (Start [errorTick "crashed", okTick] 0).exit = .waiting ∧
    (((Start [errorTick "crashed", okTick, doneTick, okTick] 0).exit = .returned →
      ∃ pre t post, [errorTick "crashed", okTick, doneTick, okTick] = pre ++ t :: post ∧
        t.done = true ∧ (∀ x ∈ pre, x.done = false) ∧
        (runsOf (Start [errorTick "crashed", okTick, doneTick, okTick] 0).log).length
          = pre.length)) :=
  ⟨by decide, by decide, by decide,
    (Start_returns_only_on_cancellation [errorTick "crashed", okTick, doneTick, okTick] 0).1⟩

/-- C15: the number of the try of every invocation of the run function is 1 plus the number
of consecutive error returns immediately before it (the counter is incremented at every
invocation, an error return keeps it and a nil return sets it back to zero). -/
theorem Start_attempt_counter (script : List Tick) (outer : Int) (i : Nat)
    (x : Nat × Option Nat × RunResult)
    (hx : (runsOf (Start script outer).log)[i]? = some x) :
    x.1 = 1 + trailingErrors
      (((runsOf (Start script outer).log).map (fun y => y.2.2)).take i) := by
  rw [runsOf_Start] at hx ⊢
  have h := loop_tries _ _ _ _ hx
  rw [h]
  have hlt : i < (runsOf (loop script
      { wg := 0, tries := 0, b := newExponentialBackOff.Reset, waited := none }).2.2).length := by
    by_contra hge
    rw [List.getElem?_eq_none (by omega)] at hx
    cases hx
  split_ifs with hall
  · rw [trailingErrors_all _ hall, List.length_take, List.length_map]
    show 1 + (0 + i) = _
    omega
  · rfl

/-- Witness of C15: two error returns, then the third try; after its nil return the next
invocation is try 1 again. -/
theorem Start_attempt_counter_witness :
    (runsOf (Start [errorTick "a", errorTick "b", okTick, errorTick "c"] 0).log).map
        (fun y => y.1) = [1, 2, 3, 1] ∧
    (runsOf (Start [errorTick "a", errorTick "b", okTick, errorTick "c"] 0).log)[2]?
      = some (3, some (625 * Millisecond), .ok) ∧
    ((3, some (625 * Millisecond), RunResult.ok) : Nat × Option Nat × RunResult).1
      = 1 + trailingErrors
        (((runsOf (Start [errorTick "a", errorTick "b", okTick, errorTick "c"] 0).log).map
          (fun y => y.2.2)).take 2) :=
  ⟨by decide, by decide,
    Start_attempt_counter [errorTick "a", errorTick "b", okTick, errorTick "c"] 0 2
      (3, some (625 * Millisecond), .ok) (by decide)⟩

/-- C16: `Start` increments the wait group of the manager once, before anything else, and
does not increment it again. When `Start` has returned, the counter is the one before the
call, its deferred `m.wg.Done()` is the last action and the only decrement, `wg.Wait()` has
come before it and the internal wait group has drained (its counter is zero). While `Start`
has not returned (it waits for a tick or in `wg.Wait()`), the counter is one above and there
has been no decrement. -/
theorem Start_outer_wait_group (script : List Tick) (outer : Int) :
    (∃ acts, (Start script outer).log = .add :: acts ∧ Action.add ∉ acts) ∧
    ((Start script outer).exit = .returned →
      (Start script outer).outer = outer ∧ (Start script outer).st.wg = 0 ∧
      ∃ acts, (Start script outer).log = .add :: acts ++ [.wait, .stop, .done] ∧
        ∀ a ∈ acts, ∃ n w r, a = .run n w r) ∧
    (((Start script outer).exit = .waiting ∨ (Start script outer).exit = .blocked) →
      (Start script outer).outer = outer + 1 ∧ Action.done ∉ (Start script outer).log) := by
  have hacts := loop_actions script
    { wg := 0, tries := 0, b := newExponentialBackOff.Reset, waited := none }
  have hret := loop_returned script
    { wg := 0, tries := 0, b := newExponentialBackOff.Reset, waited := none }
  unfold Start
  generalize loop script
    { wg := 0, tries := 0, b := newExponentialBackOff.Reset, waited := none } = r at hacts hret
  rcases r with ⟨e, st, acts⟩
  have hnoadd : Action.add ∉ acts := by
    intro h
    rcases hacts _ h with h1 | h1 | ⟨n, w, r, h1⟩ <;> cases h1
  have hnodone : Action.done ∉ acts := by
    intro h
    rcases hacts _ h with h1 | h1 | ⟨n, w, r, h1⟩ <;> cases h1
  cases e with
  | returned =>
    obtain ⟨pre, t, post, -, -, -, hwg, acts1, hacts1, hruns⟩ := hret rfl
    refine ⟨⟨acts ++ [Action.done], rfl, by simp [hnoadd]⟩, ?_, ?_⟩
    · intro _
      refine ⟨by show outer + 1 - 1 = outer; omega, hwg, acts1, ?_, hruns⟩
      show Action.add :: acts ++ [Action.done] = _
      have : acts = acts1 ++ [.wait, .stop] := hacts1
      rw [this]
      simp
    · intro h
      rcases h with h | h <;> cases h
  | panicked v =>
    refine ⟨⟨acts ++ [Action.done], rfl, by simp [hnoadd]⟩, ?_, ?_⟩
    · intro h; cases h
    · intro h
      rcases h with h | h <;> cases h
  | waiting =>
    refine ⟨⟨acts, rfl, hnoadd⟩, ?_, ?_⟩
    · intro h; cases h
    · intro _
      exact ⟨rfl, by simp [hnodone]⟩
  | blocked =>
    refine ⟨⟨acts, rfl, hnoadd⟩, ?_, ?_⟩
    · intro h; cases h
    · intro _
      exact ⟨rfl, by simp [hnodone]⟩

/-- Witness of C16: two invocations, then the context is cancelled: the counter `7` of the
wait group of the manager is `7` again. -/
theorem Start_outer_wait_group_witness :
    (Start [errorTick "crashed", okTick, doneTick] 7).exit = .returned ∧
    (Start [errorTick "crashed", okTick, doneTick] 7).log
      = [.add, .run 1 none (.error "crashed"), .run 2 (some (500 * Millisecond)) .ok,
          .wait, .stop, .done] ∧
    ((Start [errorTick "crashed", okTick, doneTick] 7).outer = 7 ∧
      (Start [errorTick "crashed", okTick, doneTick] 7).st.wg = 0 ∧
      ∃ acts, (Start [errorTick "crashed", okTick, doneTick] 7).log
          = .add :: acts ++ [.wait, .stop, .done] ∧
        ∀ a ∈ acts, ∃ n w r, a = .run n w r) :=
  ⟨by decide, by decide,
    (Start_outer_wait_group [errorTick "crashed", okTick, doneTick] 7).2.1 (by decide)⟩

end daemon

namespace strings

theorem Index_some (sep : List Char) (s : List Char) (m : Nat) (h : Index sep s = some m) :
    s = s.take m ++ sep ++ s.drop (m + sep.length) := by
  induction s generalizing m with
  | nil =>
    simp only [Index] at h
    split_ifs at h with hp
    cases h
    have hsep : sep = [] := by
      rw [List.isPrefixOf_iff_prefix] at hp
      exact List.prefix_nil.1 hp
    simp [hsep]
  | cons c cs ih =>
    simp only [Index] at h
    split_ifs at h with hp
    · cases h
      rw [List.isPrefixOf_iff_prefix] at hp
      obtain ⟨t, ht⟩ := hp
      rw [← ht]
      simp
    · cases hi : Index sep cs with
      | none => rw [hi] at h; cases h
      | some m1 =>
        rw [hi] at h
        simp only [Option.map_some', Option.some.injEq] at h
        subst h
        have := ih m1 hi
        have hshift : m1 + 1 + sep.length = (m1 + sep.length) + 1 := by omega
        rw [List.take_succ_cons, hshift, List.drop_succ_cons, List.cons_append,
          List.cons_append, ← this]

theorem genSplit_ne_nil (sep : List Char) (n : Nat) (s : List Char) : genSplit sep n s ≠ [] := by
  cases n with
  | zero => simp [genSplit]
  | succ n =>
    simp only [genSplit]
    split <;> simp

theorem genSplit_single (sep : List Char) (n : Nat) (s b : List Char)
    (h : genSplit sep n s = [b]) : b = s := by
  cases n with
  | zero => simpa [genSplit] using h.symm
  | succ n =>
    simp only [genSplit] at h
    split at h
    · simpa using h.symm
    · simp only [List.cons.injEq] at h
      exact absurd h.2 (genSplit_ne_nil _ _ _)

theorem genSplit_pair (sep : List Char) (n : Nat) (s a b : List Char)
    (h : genSplit sep n s = [a, b]) : s = a ++ sep ++ b := by
  cases n with
  | zero => simp [genSplit] at h
  | succ n =>
    simp only [genSplit] at h
    split at h
    · simp at h
    · rename_i m hm
      simp only [List.cons.injEq] at h
      obtain ⟨ha, hb⟩ := h
      have hb1 := genSplit_single _ _ _ _ hb
      have := Index_some sep s m hm
      rw [ha, ← hb1] at this
      exact this

theorem Split_pair (p sep code level : String) (h : Split p sep = [code, level]) :
    p = code ++ sep ++ level := by
  unfold Split at h
  have hg : genSplit sep.data p.data.length p.data = [code.data, level.data] := by
    have := congrArg (List.map String.data) h
    simpa [List.map_map, Function.comp_def] using this
  have := genSplit_pair _ _ _ _ _ hg
  apply String.ext
  rw [this]
  simp [String.data_append]

end strings

namespace strings

theorem Index_none_iff (sep s : List Char) : Index sep s = none ↔ ¬ sep <:+: s := by
  induction s with
  | nil =>
    simp only [Index, List.infix_nil]
    by_cases h : sep = []
    · subst h
      simp
    · have hp : ¬ sep.isPrefixOf [] = true := by
        rw [List.isPrefixOf_iff_prefix, List.prefix_nil]
        exact h
      simp [hp, h]
  | cons c cs ih =>
    rw [List.infix_cons_iff]
    simp only [Index]
    by_cases hp : sep.isPrefixOf (c :: cs) = true
    · rw [if_pos hp]
      rw [List.isPrefixOf_iff_prefix] at hp
      simp [hp]
    · rw [if_neg hp]
      rw [List.isPrefixOf_iff_prefix] at hp
      rw [Option.map_eq_none', ih]
      simp [hp]

theorem Index_first (sep s : List Char) (m : Nat) (h : Index sep s = some m)
    (a b : List Char) (hs : s = a ++ sep ++ b) : m ≤ a.length := by
  induction s generalizing m a with
  | nil =>
    simp only [Index] at h
    split_ifs at h
    cases h
    omega
  | cons c cs ih =>
    simp only [Index] at h
    split_ifs at h with hp
    · cases h
      omega
    · cases hi : Index sep cs with
      | none => rw [hi] at h; cases h
      | some m1 =>
        rw [hi] at h
        simp only [Option.map_some', Option.some.injEq] at h
        subst h
        cases a with
        | nil =>
          exfalso
          apply hp
          rw [List.isPrefixOf_iff_prefix, hs]
          exact ⟨b, by simp⟩
        | cons a0 a1 =>
          simp only [List.cons_append, List.cons.injEq] at hs
          have := ih m1 hi a1 hs.2
          simp only [List.length_cons]
          omega

theorem Index_of_first (sep a b : List Char)
    (hmin : ∀ a1 b1, a ++ sep ++ b = a1 ++ sep ++ b1 → a.length ≤ a1.length) :
    Index sep (a ++ sep ++ b) = some a.length := by
  cases hi : Index sep (a ++ sep ++ b) with
  | none =>
    exfalso
    exact (Index_none_iff sep _).1 hi ⟨a, b, rfl⟩
  | some m =>
    have h1 := Index_first sep _ m hi a b rfl
    have h2 := Index_some sep _ m hi
    have h3 := hmin _ _ h2
    have h4 : (List.take m (a ++ sep ++ b)).length ≤ m := by
      rw [List.length_take]
      omega
    have : m = a.length := by omega
    rw [this]

theorem genSplit_pair_iff (sep : List Char) (n : Nat) (s a b : List Char) (hsep : sep ≠ [])
    (hn : s.length ≤ n) :
    genSplit sep n s = [a, b] ↔
      s = a ++ sep ++ b ∧
      (∀ a1 b1, s = a1 ++ sep ++ b1 → a.length ≤ a1.length) ∧ ¬ sep <:+: b := by
  have hpos : 0 < sep.length := List.length_pos.2 hsep
  constructor
  · intro h
    cases n with
    | zero => simp [genSplit] at h
    | succ n =>
      simp only [genSplit] at h
      split at h
      · simp at h
      · rename_i m hm
        simp only [List.cons.injEq] at h
        obtain ⟨ha, hb⟩ := h
        have hs := Index_some sep s m hm
        have hb1 := genSplit_single _ _ _ _ hb
        have hlen : (List.take m s).length = m := by
          have := congrArg List.length hs
          simp only [List.length_append, List.length_take, List.length_drop] at this
          rw [List.length_take]
          omega
        refine ⟨by rw [← ha, hb1]; exact hs, ?_, ?_⟩
        · intro a1 b1 hs1
          rw [← ha, hlen]
          exact Index_first sep s m hm a1 b1 hs1
        · rw [← Index_none_iff]
          cases n with
          | zero =>
            have hl := congrArg List.length hs
            simp only [List.length_append] at hl
            have hb0 : b = [] := by
              rw [hb1]
              apply List.eq_nil_of_length_eq_zero
              rw [List.length_drop]
              omega
            rw [hb0]
            rw [Index_none_iff, List.infix_nil]
            exact hsep
          | succ n1 =>
            rw [hb1]
            simp only [genSplit] at hb
            split at hb
            · assumption
            · simp only [List.cons.injEq] at hb
              exact absurd hb.2 (genSplit_ne_nil _ _ _)
  · rintro ⟨hs, hmin, hno⟩
    subst hs
    have hi := Index_of_first sep a b hmin
    have hl : (a ++ sep ++ b).length = a.length + sep.length + b.length := by
      simp only [List.length_append]
    cases n with
    | zero => omega
    | succ n =>
      simp only [genSplit, hi]
      have ht : List.take a.length (a ++ sep ++ b) = a := by
        rw [List.append_assoc, List.take_left']
        rfl
      have hd : List.drop (a.length + sep.length) (a ++ sep ++ b) = b := by
        have : a.length + sep.length = (a ++ sep).length := by simp
        rw [this, List.drop_left']
        rfl
      rw [ht, hd]
      have hb : genSplit sep n b = [b] := by
        cases n with
        | zero => rfl
        | succ n1 =>
          simp only [genSplit, (Index_none_iff sep b).2 hno]
      rw [hb]

theorem Split_pair_iff (p sep code level : String) (hsep : sep.data ≠ []) :
    Split p sep = [code, level] ↔
      p = code ++ sep ++ level ∧
      (∀ a b : List Char, p.data = a ++ sep.data ++ b → code.data.length ≤ a.length) ∧
      ¬ sep.data <:+: level.data := by
  have hg : Split p sep = [code, level] ↔
      genSplit sep.data p.data.length p.data = [code.data, level.data] := by
    unfold Split
    constructor
    · intro h
      have := congrArg (List.map String.data) h
      simpa [List.map_map, Function.comp_def] using this
    · intro h
      rw [h]
      rfl
  have hp : p = code ++ sep ++ level ↔ p.data = code.data ++ sep.data ++ level.data := by
    constructor
    · intro h
      rw [h]
      simp [String.data_append]
    · intro h
      apply String.ext
      rw [h]
      simp [String.data_append]
  rw [hg, genSplit_pair_iff sep.data _ p.data code.data level.data hsep (Nat.le_refl _), hp]

end strings

namespace validation

/-- C17 at the failing inputs: `ValidateIP` is true for "+1.1.1.1" and for "-0.0.0.0", whose
groups are not groups of decimal digits: `strconv.Atoi` reads a leading sign. On the inputs
of `TestValidateIP` the embedding answers as the test expects. -/
theorem ValidateIP_accepts_signs :
    ValidateIP "+1.1.1.1" = true ∧ ValidateIP "-0.0.0.0" = true ∧
    ValidateIP "192.168.1.1" = true ∧ ValidateIP "255.255.255.255" = true ∧
    ValidateIP "300.300.300.300" = false ∧ ValidateIP "0.0.0.0" = true ∧
    ValidateIP "127.0" = false ∧ ValidateIP "127.0.0.0.1" = false := by
  decide

end validation

namespace gqldirectives

theorem checkPermissions_cons (can : Int → String → String → Bool) (u : entity.User)
    (p : String) (rest : List String) :
    checkPermissions can u (p :: rest)
      = match strings.Split p "::" with
        | [code, level] =>
          if can u.ID code level then checkPermissions can u rest
          else some ("auth check: " ++ ErrMissingPermission ++ ": " ++ p)
        | _ =>
          some ("auth check: invalid permission code, format \"permission.code::level\" expected: "
            ++ p) := rfl

theorem checkPermissions_none (can : Int → String → String → Bool) (u : entity.User)
    (permissions : List String) :
    checkPermissions can u permissions = none ↔
      ∀ p ∈ permissions, ∃ code level, strings.Split p "::" = [code, level] ∧
        can u.ID code level = true := by
  induction permissions with
  | nil => simp [checkPermissions]
  | cons p rest ih =>
    rw [List.forall_mem_cons, ← ih, checkPermissions_cons]
    split
    · rename_i code level hsplit
      by_cases hcan : can u.ID code level = true
      · rw [if_pos hcan]
        constructor
        · intro h
          exact ⟨⟨code, level, hsplit, hcan⟩, h⟩
        · intro h
          exact h.2
      · rw [if_neg hcan]
        constructor
        · intro h; cases h
        · rintro ⟨⟨code1, level1, h1, h2⟩, -⟩
          rw [hsplit] at h1
          simp only [List.cons.injEq, and_true] at h1
          rw [h1.1, h1.2] at hcan
          exact absurd h2 hcan
    · rename_i hsplit
      constructor
      · intro h; cases h
      · rintro ⟨⟨code, level, h1, -⟩, -⟩
        exact absurd h1 (hsplit code level)

/-- C18: the directive calls `next` exactly when the context carries a user and that user is a
superuser or every listed permission has the form `code::level` (it is `code`, then `::`,
then `level`, where this `::` is the first one in the string and `level` contains no `::`)
with `Can(user, code, level)` true; what it returns then is what `next` returned; in every
other case it returns an error of its own and `next` is not called. -/
theorem Restricted_calls_next_iff {ρ : Type} (can : Int → String → String → Bool)
    (ctx : Option entity.User) (next : Option entity.User → Except String ρ)
    (permissions : List String) :
    ((∃ res, Restricted can ctx next permissions = .called res) ↔
      ∃ u, ctx = some u ∧
        (u.IsSuperuser = true ∨
          ∀ p ∈ permissions, ∃ code level,
            p = code ++ "::" ++ level ∧
            (∀ a b : List Char, p.data = a ++ [':', ':'] ++ b → code.data.length ≤ a.length) ∧
            ¬ [':', ':'] <:+: level.data ∧
            can u.ID code level = true)) ∧
    (∀ res, Restricted can ctx next permissions = .called res → res = next ctx) ∧
    ((¬ ∃ res, Restricted can ctx next permissions = .called res) →
      ∃ err, Restricted can ctx next permissions = .refused err) := by
  have hform : ∀ u : entity.User,
      (∀ p ∈ permissions, ∃ code level,
        p = code ++ "::" ++ level ∧
        (∀ a b : List Char, p.data = a ++ [':', ':'] ++ b → code.data.length ≤ a.length) ∧
        ¬ [':', ':'] <:+: level.data ∧
        can u.ID code level = true) ↔
      checkPermissions can u permissions = none := by
    intro u
    rw [checkPermissions_none]
    constructor
    · intro h p hp
      obtain ⟨code, level, h1, h2, h3, h4⟩ := h p hp
      exact ⟨code, level,
        (strings.Split_pair_iff p "::" code level (by decide)).2 ⟨h1, h2, h3⟩, h4⟩
    · intro h p hp
      obtain ⟨code, level, h1, h4⟩ := h p hp
      obtain ⟨h1a, h2, h3⟩ := (strings.Split_pair_iff p "::" code level (by decide)).1 h1
      exact ⟨code, level, h1a, h2, h3, h4⟩
  cases ctx with
  | none =>
    refine ⟨⟨?_, ?_⟩, ?_, ?_⟩
    · rintro ⟨res, h⟩
      simp [Restricted, session.UserFromContext] at h
    · rintro ⟨u, hu, -⟩
      cases hu
    · intro res h
      simp [Restricted, session.UserFromContext] at h
    · intro _
      exact ⟨_, rfl⟩
  | some u =>
    by_cases hs : u.IsSuperuser = true
    · have hR : Restricted can (some u) next permissions = .called (next (some u)) := by
        simp [Restricted, session.UserFromContext, hs]
      refine ⟨⟨fun _ => ⟨u, rfl, Or.inl hs⟩, fun _ => ⟨_, hR⟩⟩, ?_, ?_⟩
      · intro res h
        rw [hR] at h
        cases h
        rfl
      · intro h
        exact absurd ⟨_, hR⟩ h
    · cases hc : checkPermissions can u permissions with
      | none =>
        have hR : Restricted can (some u) next permissions = .called (next (some u)) := by
          simp [Restricted, session.UserFromContext, hs, hc]
        refine ⟨⟨fun _ => ⟨u, rfl, Or.inr ((hform u).2 hc)⟩, fun _ => ⟨_, hR⟩⟩, ?_, ?_⟩
        · intro res h
          rw [hR] at h
          cases h
          rfl
        · intro h
          exact absurd ⟨_, hR⟩ h
      | some err =>
        have hR : Restricted can (some u) next permissions = .refused err := by
          simp [Restricted, session.UserFromContext, hs, hc]
        refine ⟨⟨?_, ?_⟩, ?_, ?_⟩
        · rintro ⟨res, h⟩
          rw [hR] at h
          cases h
        · rintro ⟨u1, hu1, h⟩
          cases hu1
          rcases h with h | h
          · exact absurd h hs
          · rw [(hform u).1 h] at hc
            cases hc
        · intro res h
          rw [hR] at h
          cases h
        · intro _
          exact ⟨err, hR⟩

/-- Witness of C18: for a user who is not a superuser and may read quotes, the directive calls
`next` for `quote::read`, which has the form `code::level` with the code `quote` and the
level `read`; it refuses `quote` (no `::`), `quote::read::all` (a second `::`) and
`quote::write` (`Can` is false), and it refuses a context without a user. -/
theorem Restricted_calls_next_iff_witness :
    (∃ res, Restricted exampleCan (some reader) exampleNext ["quote::read"] = .called res) ∧
    Restricted exampleCan (some reader) exampleNext ["quote::read"]
      = .called (.ok "resolved") ∧
    Restricted exampleCan (some reader) exampleNext ["quote"]
      = .refused ("auth check: invalid permission code, format "
          ++ "\"permission.code::level\" expected: quote") ∧
    Restricted exampleCan (some reader) exampleNext ["quote::read::all"]
      = .refused ("auth check: invalid permission code, format "
          ++ "\"permission.code::level\" expected: quote::read::all") ∧
    Restricted exampleCan (some reader) exampleNext ["quote::read", "quote::write"]
      = .refused "auth check: MISSING_PERMISSION: quote::write" ∧
    Restricted exampleCan none exampleNext ["quote::read"]
      = .refused "auth check: MISSING_AUTH: invalid auth user received from context" :=
  ⟨(Restricted_calls_next_iff exampleCan (some reader) exampleNext ["quote::read"]).1.2
      ⟨reader, rfl, Or.inr (fun p hp => by
        rw [List.mem_singleton] at hp
        subst hp
        obtain ⟨h1, h2, h3⟩ :=
          (strings.Split_pair_iff "quote::read" "::" "quote" "read" (by decide)).1 (by decide)
        exact ⟨"quote", "read", h1, h2, h3, rfl⟩)⟩,
    rfl, rfl, rfl, rfl, rfl⟩

end gqldirectives

namespace gqlresolvers

/-- C19 at the failing input: mallory, who is not a superuser, sends an update for account 1,
which is a superuser, with the superuser flag of the input not set. The guard of `UpdateUser`
looks at the flag of the input, not at the account: the update is handed to the user
service, no error is returned, and account 1 has a new password and is no superuser any
more. -/
theorem UpdateUser_edits_superuser_account :
    mallory.IsSuperuser = false ∧
    exampleStore.users.find? (fun u => u.ID = 1) = some admin ∧
    admin.IsSuperuser = true ∧
    (UpdateUser exampleBcrypt exampleSyncRoles exampleStore (some mallory) takeover).err
      = none ∧
    (UpdateUser exampleBcrypt exampleSyncRoles exampleStore (some mallory) takeover).updates
      = [{ ID := 1, Name := "admin", Password := "hunter22", IsSuperuser := false,
           CreatedAt := none, UpdatedAt := none }] ∧
    (UpdateUser exampleBcrypt exampleSyncRoles exampleStore (some mallory)
        takeover).store.users.find? (fun u => u.ID = 1)
      = some { ID := 1, Name := "admin", Password := "bcrypt(hunter22)", IsSuperuser := false,
               CreatedAt := some 100, UpdatedAt := some 300 } := by
  decide

end gqlresolvers

namespace role

/-- C20: for every id list that contains 1, `Delete` returns the error
"cannot delete admin role" and makes no call to the database or to the auth manager; for the
empty id list it returns nil and makes no call either. -/
theorem Delete_rejects_admin_role (env : Env) (ids : List Int) :
    (1 ∈ ids → Delete env ids = (([], some "cannot delete admin role"), [])) ∧
    Delete env [] = (([], none), []) := by
  constructor
  · intro h
    have hlen : ¬ ids.length < 1 := by
      cases ids with
      | nil => cases h
      | cons a l => simp
    have hany : ids.any (fun id => id = 1) = true := by
      rw [List.any_eq_true]
      exact ⟨1, h, by simp⟩
    unfold Delete
    rw [if_neg hlen, if_pos hany]
  · rfl

/-- Witness of C20: the list `[2, 1, 3]` contains the admin role. -/
theorem Delete_rejects_admin_role_witness :
    (1 : Int) ∈ [2, 1, 3] ∧
    (Delete exampleEnv [2]).2
      = [.getByID [2], .begin, .exec "roles" [2], .exec "role_user" [2], .authDeleteRole 2,
          .commit] ∧
    Delete exampleEnv [2, 1, 3] = (([], some "cannot delete admin role"), []) :=
  ⟨by decide, by decide, (Delete_rejects_admin_role exampleEnv [2, 1, 3]).1 (by decide)⟩

end role

namespace validation

theorem appendError_ne_nil (errors : List (String × List Error)) (key : String) (vErr : Error) :
    appendError errors key vErr ≠ [] := by
  cases errors with
  | nil => simp [appendError]
  | cons a l =>
    obtain ⟨k, errs⟩ := a
    unfold appendError
    split_ifs <;> simp

theorem Failed_AddData (e : ErrorBag) (key message : String) (data : List (String × String)) :
    (e.AddData key message data).Failed = true := by
  have h := appendError_ne_nil e.errors key
    { Key := key, Message := "validation." ++ message, Translated := "", Data := data }
  simp only [ErrorBag.Failed, ErrorBag.AddData, decide_eq_true_eq]
  exact List.length_pos.mpr h

theorem Failed_Add (e : ErrorBag) (key message : String) : (e.Add key message).Failed = true :=
  Failed_AddData e key message []

theorem Failed_NewErrorBag (subject : String) : (NewErrorBag subject).Failed = false := rfl

theorem find_appendError (errors : List (String × List Error)) (key k : String) (vErr : Error) :
    (appendError errors k vErr).find? (fun entry => entry.1 = key)
      = if k = key then
          some (k, (match errors.find? (fun entry => entry.1 = k) with
            | some entry => entry.2
            | none => []) ++ [vErr])
        else errors.find? (fun entry => entry.1 = key) := by
  induction errors with
  | nil =>
    by_cases h : k = key <;> simp [appendError, h]
  | cons a l ih =>
    obtain ⟨k1, errs⟩ := a
    by_cases h1 : k1 = k
    · subst h1
      by_cases h : k1 = key <;> simp [appendError, h]
    · by_cases h : k = key
      · subst h
        simp [appendError, h1, ih]
      · by_cases h2 : k1 = key
        · subst h2
          simp [appendError, h1, h]
        · simp [appendError, h1, h, h2, ih]

theorem Get_AddData (e : ErrorBag) (k message key : String) (data : List (String × String)) :
    (e.AddData k message data).Get key
      = if k = key then
          e.Get key ++
            [{ Key := k, Message := "validation." ++ message, Translated := "", Data := data }]
        else e.Get key := by
  unfold ErrorBag.Get ErrorBag.AddData
  simp only [find_appendError]
  by_cases h : k = key
  · subst h
    simp
  · simp [h]

theorem Get_Add (e : ErrorBag) (k message key : String) :
    (e.Add k message).Get key
      = if k = key then
          e.Get key ++
            [{ Key := k, Message := "validation." ++ message, Translated := "", Data := [] }]
        else e.Get key :=
  Get_AddData e k message key []

theorem Get_NewErrorBag (subject key : String) : (NewErrorBag subject).Get key = [] := rfl

theorem errors_of_not_Failed (e : ErrorBag) (h : e.Failed = false) : e.errors = [] := by
  cases he : e.errors with
  | nil => rfl
  | cons a l => simp [ErrorBag.Failed, he] at h

theorem iff_of_Failed {b : ErrorBag} {P : Prop} (hb : b.Failed = true) (hP : ¬ P) :
    b.Failed = false ↔ P := by
  rw [hb]
  exact ⟨fun h => (by cases h), fun h => absurd h hP⟩

theorem iff_of_not_Failed {b : ErrorBag} {P : Prop} (hb : b.Failed = false) (hP : P) :
    b.Failed = false ↔ P :=
  ⟨fun _ => hP, fun _ => hb⟩

end validation

namespace user

theorem utf8ByteSize_empty : ("" : String).utf8ByteSize = 0 := by decide

/-- C22: `ValidateCreateRequest input` passes (`Failed()` is false) if and only if the name is
not empty, the password has at least 4 bytes and the repeated password equals the password;
when it passes, the map of errors of the bag is empty. -/
theorem ValidateCreateRequest_passes_iff (input : gqlmodels.UserInput) :
    ((ValidateCreateRequest input).Failed = false ↔
      input.Name ≠ "" ∧ 4 ≤ input.Password.utf8ByteSize ∧
        input.PasswordRepeat = input.Password) ∧
    ((ValidateCreateRequest input).Failed = false → (ValidateCreateRequest input).errors = []) := by
  refine ⟨?_, validation.errors_of_not_Failed _⟩
  unfold ValidateCreateRequest
  by_cases hn : input.Name = ""
  · simp only [hn, if_true]
    split_ifs <;> simp [validation.Failed_Add, validation.Failed_AddData]
  · by_cases hp : input.Password = ""
    · simp only [hp, if_true]
      split_ifs <;>
        simp [validation.Failed_Add, validation.Failed_AddData, utf8ByteSize_empty]
    · by_cases hs : input.Password.utf8ByteSize < 4
      · simp only [hs, if_true]
        split_ifs <;> simp [validation.Failed_Add, validation.Failed_AddData] <;> omega
      · by_cases hr : input.PasswordRepeat = ""
        · have hne : input.Password ≠ input.PasswordRepeat := by
            rw [hr]
            exact hp
          simp only [hr, if_true]
          rw [if_pos (by rw [← hr]; exact hne)]
          simp only [validation.Failed_Add]
          constructor
          · intro h
            cases h
          · intro h
            exact absurd h.2.2.symm hp
        · by_cases he : input.Password = input.PasswordRepeat
          · simp only [hn, hp, hs, hr, if_false, ne_eq, he, not_true_eq_false]
            simp only [← he]
            rw [if_neg hs]
            simp [validation.Failed_NewErrorBag]
            omega
          · simp only [hn, hp, hs, hr, if_false, ne_eq, he, not_false_eq_true, if_true,
              validation.Failed_Add]
            constructor
            · intro h
              cases h
            · intro h
              exact absurd h.2.2.symm he

/-- Witness of C22: the valid request of the test (`user`, `password`, `password`) passes
with an empty bag. -/
theorem ValidateCreateRequest_passes_iff_witness :
    (ValidateCreateRequest
      { ID := none, Name := "user", Password := "password", PasswordRepeat := "password",
        IsSuperuser := false, Roles := none }).Failed = false ∧
    (ValidateCreateRequest
      { ID := none, Name := "user", Password := "password", PasswordRepeat := "password",
        IsSuperuser := false, Roles := none }).errors = [] :=
  ⟨(ValidateCreateRequest_passes_iff _).1.2 ⟨by decide, by decide, rfl⟩,
   (ValidateCreateRequest_passes_iff _).2
     ((ValidateCreateRequest_passes_iff _).1.2 ⟨by decide, by decide, rfl⟩)⟩

end user
namespace user

/-- C23: `ValidateUpdateRequest input` passes if and only if the id is set and at least 1,
the name is not empty, and the password is empty or has at least 4 bytes and equals the
repeated password; for a password of at least 4 bytes that differs from the repeated
password the bag holds no error under `password` and at least one under
`password_repeat`. -/
theorem ValidateUpdateRequest_passes_iff (input : gqlmodels.UserInput) :
    ((ValidateUpdateRequest input).Failed = false ↔
      (∃ id, input.ID = some id ∧ 1 ≤ id) ∧ input.Name ≠ "" ∧
        (input.Password = "" ∨
          (4 ≤ input.Password.utf8ByteSize ∧ input.Password = input.PasswordRepeat))) ∧
    (input.Password ≠ "" → 4 ≤ input.Password.utf8ByteSize →
      input.Password ≠ input.PasswordRepeat →
      (ValidateUpdateRequest input).Get "password" = [] ∧
      (ValidateUpdateRequest input).Get "password_repeat" ≠ []) := by
  constructor
  · unfold ValidateUpdateRequest
    dsimp only
    cases hI : input.ID with
    | none =>
      apply validation.iff_of_Failed
      · dsimp only
        split_ifs <;> simp [validation.Failed_Add, validation.Failed_AddData]
      · rintro ⟨⟨id, h, _⟩, _⟩
        cases h
    | some id =>
      dsimp only
      by_cases h1 : id < 1
      · rw [if_pos h1]
        apply validation.iff_of_Failed
        · split_ifs <;> simp [validation.Failed_Add, validation.Failed_AddData]
        · rintro ⟨⟨id1, h, h2⟩, _⟩
          cases h
          omega
      · rw [if_neg h1]
        by_cases hn : input.Name = ""
        · rw [if_pos hn]
          apply validation.iff_of_Failed
          · split_ifs <;> simp [validation.Failed_Add, validation.Failed_AddData]
          · rintro ⟨_, h, _⟩
            exact h hn
        · rw [if_neg hn]
          by_cases hp : input.Password = ""
          · rw [if_neg (not_not.mpr hp)]
            exact validation.iff_of_not_Failed rfl ⟨⟨id, rfl, by omega⟩, hn, Or.inl hp⟩
          · rw [if_pos hp]
            by_cases hs : input.Password.utf8ByteSize < 4
            · rw [if_pos hs]
              apply validation.iff_of_Failed
              · split_ifs <;> simp [validation.Failed_Add, validation.Failed_AddData]
              · rintro ⟨_, _, h | h⟩
                · exact hp h
                · omega
            · rw [if_neg hs]
              by_cases hr : input.PasswordRepeat = ""
              · rw [if_pos hr]
                apply validation.iff_of_Failed
                · split_ifs <;> simp [validation.Failed_Add, validation.Failed_AddData]
                · rintro ⟨_, _, h | h⟩
                  · exact hp h
                  · exact hp (h.2.trans hr)
              · rw [if_neg hr]
                by_cases he : input.Password = input.PasswordRepeat
                · rw [if_neg (not_not.mpr he)]
                  exact validation.iff_of_not_Failed rfl
                    ⟨⟨id, rfl, by omega⟩, hn, Or.inr ⟨by omega, he⟩⟩
                · rw [if_pos he]
                  apply validation.iff_of_Failed (validation.Failed_Add _ _ _)
                  rintro ⟨_, _, h | h⟩
                  · exact hp h
                  · exact he h.2
  · intro hp hs he
    have hs1 : ¬ input.Password.utf8ByteSize < 4 := by omega
    unfold ValidateUpdateRequest
    simp only [hp, hs1, he, ne_eq, not_false_eq_true, if_true, if_false]
    simp only [validation.Get_Add, validation.Get_AddData]
    have h1 : ∀ b : validation.ErrorBag, b.Get "password" = [] →
        (if input.Name = "" then b.Add "name" "required" else b).Get "password" = [] := by
      intro b hb
      split_ifs
      · rw [validation.Get_Add, if_neg (by decide)]
        exact hb
      · exact hb
    have h2 : ∀ b : validation.ErrorBag, b.Get "password" = [] →
        (if input.PasswordRepeat = "" then b.Add "password_repeat" "required" else b).Get
          "password" = [] := by
      intro b hb
      split_ifs
      · rw [validation.Get_Add, if_neg (by decide)]
        exact hb
      · exact hb
    have h0 : (match input.ID with
        | none => (validation.NewErrorBag "user").Add "id" "required"
        | some id =>
          if id < 1 then (validation.NewErrorBag "user").Add "id" "required"
          else validation.NewErrorBag "user").Get "password" = [] := by
      cases input.ID with
      | none => rfl
      | some id =>
        by_cases h : id < 1
        · simp only [h, if_true]
          rfl
        · simp only [h, if_false]
          rfl
    refine ⟨?_, ?_⟩
    · rw [if_neg (by decide)]
      exact h2 _ (h1 _ h0)
    · simp

/-- Witness of C23: the request of the test with password `test` and repeated password
`tset`. -/
theorem ValidateUpdateRequest_passes_iff_witness :
    (ValidateUpdateRequest
      { ID := some 1, Name := "", Password := "test", PasswordRepeat := "tset",
        IsSuperuser := false, Roles := none }).Get "password" = [] ∧
    (ValidateUpdateRequest
      { ID := some 1, Name := "", Password := "test", PasswordRepeat := "tset",
        IsSuperuser := false, Roles := none }).Get "password_repeat" ≠ [] :=
  (ValidateUpdateRequest_passes_iff _).2 (by decide) (by decide) (by decide)

end user

namespace db

/-- C29: on a connection on which `Begin` and `Rollback` succeed, `WithTx` with a closure
that returns the error "boom" rolls back and returns nil, where `RollbackError` returns the
error of the closure; `Commit` is called exactly when `Begin` succeeded and the closure
returned nil. -/
theorem WithTx_drops_closure_error :
    Connection.WithTx { beginErr := none, commitErr := none, rollbackErr := none }
        (some "boom") = (none, [.Begin, .fn, .Rollback]) ∧
    RollbackError none (some "boom") = some "boom" ∧
    (∀ (c : Connection) (fn : Option String),
      TxOp.Commit ∈ (c.WithTx fn).2 ↔ c.beginErr = none ∧ fn = none) := by
  refine ⟨rfl, rfl, ?_⟩
  intro c fn
  unfold Connection.WithTx
  cases c.beginErr <;> cases fn <;> simp

end db
namespace gomap

theorem assign_mem {α : Type} (m : List (String × α)) (key : String) (v : α) :
    (key, v) ∈ assign m key v := by
  induction m with
  | nil => simp [assign]
  | cons a l ih =>
    obtain ⟨k, w⟩ := a
    unfold assign
    by_cases h : k = key
    · rw [if_pos h, h]
      exact List.mem_cons_self _ _
    · rw [if_neg h]
      exact List.mem_cons_of_mem _ ih

theorem mem_assign_of_mem {α : Type} (m : List (String × α)) (key : String) (v : α)
    (k : String) (w : α) (h : (k, w) ∈ m) :
    (k, w) ∈ assign m key v ∨ (k = key ∧ index m key = some w) := by
  induction m with
  | nil => cases h
  | cons a l ih =>
    obtain ⟨k1, w1⟩ := a
    unfold assign index
    by_cases h1 : k1 = key
    · rw [if_pos h1, if_pos h1]
      rcases List.mem_cons.mp h with h2 | h2
      · right
        cases h2
        exact ⟨h1, rfl⟩
      · left
        exact List.mem_cons_of_mem _ h2
    · rw [if_neg h1, if_neg h1]
      rcases List.mem_cons.mp h with h2 | h2
      · left
        rw [h2]
        exact List.mem_cons_self _ _
      · rcases ih h2 with h3 | h3
        · left
          exact List.mem_cons_of_mem _ h3
        · right
          exact h3

theorem mem_of_index {α : Type} (m : List (String × α)) (key : String) (w : α)
    (h : index m key = some w) : (key, w) ∈ m := by
  induction m with
  | nil => cases h
  | cons a l ih =>
    obtain ⟨k1, w1⟩ := a
    unfold index at h
    by_cases h1 : k1 = key
    · rw [if_pos h1] at h
      cases h
      rw [h1]
      exact List.mem_cons_self _ _
    · rw [if_neg h1] at h
      exact List.mem_cons_of_mem _ (ih h)

end gomap

namespace role

theorem mem_addRolePermissions (id : Int) (perms : permissionsMap) (call : AuthCall) :
    call ∈ addRolePermissions id perms ↔
      ∃ code levels level b, (code, levels) ∈ perms ∧ (level, b) ∈ levels ∧
        call = .AddRolePermission id code level := by
  induction perms with
  | nil => simp [addRolePermissions]
  | cons a l ih =>
    obtain ⟨c, ls⟩ := a
    unfold addRolePermissions
    rw [List.mem_append, ih]
    constructor
    · rintro (h | ⟨code, levels, level, b, h1, h2, h3⟩)
      · obtain ⟨x, hx, rfl⟩ := List.mem_map.mp h
        exact ⟨c, ls, x.1, x.2, List.mem_cons_self _ _, hx, rfl⟩
      · exact ⟨code, levels, level, b, List.mem_cons_of_mem _ h1, h2, h3⟩
    · rintro ⟨code, levels, level, b, h1, h2, h3⟩
      rcases List.mem_cons.mp h1 with h4 | h4
      · left
        cases h4
        rw [h3]
        exact List.mem_map.mpr ⟨(level, b), h2, rfl⟩
      · right
        exact ⟨code, levels, level, b, h4, h2, h3⟩

theorem setLevel_self (id : Int) (perms : permissionsMap) (code level : String) :
    AuthCall.AddRolePermission id code level ∈ addRolePermissions id (setLevel perms code level) := by
  rw [mem_addRolePermissions]
  exact ⟨code, _, level, true, gomap.assign_mem _ _ _, gomap.assign_mem _ _ _, rfl⟩

theorem setLevel_mono (id : Int) (perms : permissionsMap) (code level : String)
    (call : AuthCall) (h : call ∈ addRolePermissions id perms) :
    call ∈ addRolePermissions id (setLevel perms code level) := by
  rw [mem_addRolePermissions] at h ⊢
  obtain ⟨c, levels, l, b, h1, h2, h3⟩ := h
  rcases gomap.mem_assign_of_mem perms code
      (gomap.assign ((gomap.index perms code).getD []) level true) c levels h1 with h4 | ⟨h4, h5⟩
  · exact ⟨c, levels, l, b, h4, h2, h3⟩
  · have hs : setLevel perms code level
        = gomap.assign perms code (gomap.assign levels level true) := by
      unfold setLevel
      rw [h5, Option.getD_some]
    rw [hs]
    rcases gomap.mem_assign_of_mem levels level true l b h2 with h6 | ⟨h6, _⟩
    · exact ⟨code, _, l, b, gomap.assign_mem _ _ _, h6, by rw [h3, h4]⟩
    · exact ⟨code, _, level, true, gomap.assign_mem _ _ _, gomap.assign_mem _ _ _,
        by rw [h3, h4, h6]⟩

theorem foldl_setLevel_mono (id : Int) (code : String) (levels : List String)
    (perms : permissionsMap) (call : AuthCall) (h : call ∈ addRolePermissions id perms) :
    call ∈ addRolePermissions id
      (levels.foldl (fun perms level => setLevel perms code level) perms) := by
  induction levels generalizing perms with
  | nil => exact h
  | cons l ls ih => exact ih _ (setLevel_mono id perms code l call h)

theorem foldl_setLevel_self (id : Int) (code : String) (levels : List String)
    (perms : permissionsMap) (level : String) (h : level ∈ levels) :
    AuthCall.AddRolePermission id code level ∈ addRolePermissions id
      (levels.foldl (fun perms level => setLevel perms code level) perms) := by
  induction levels generalizing perms with
  | nil => cases h
  | cons l ls ih =>
    rcases List.mem_cons.mp h with h1 | h1
    · rw [h1]
      exact foldl_setLevel_mono id code ls _ _ (setLevel_self id perms code l)
    · exact ih _ h1

theorem ensureLevelPermissions_mono (id : Int) (perms : permissionsMap)
    (permission : entity.Permission) (call : AuthCall)
    (h : call ∈ addRolePermissions id perms) :
    call ∈ addRolePermissions id (ensureLevelPermissions perms permission) :=
  foldl_setLevel_mono id permission.Code _ perms call h

theorem assign_empty_mono (id : Int) (perms : permissionsMap) (code : String)
    (call : AuthCall) (hi : gomap.index perms code = none)
    (h : call ∈ addRolePermissions id perms) :
    call ∈ addRolePermissions id (gomap.assign perms code []) := by
  rw [mem_addRolePermissions] at h ⊢
  obtain ⟨c, levels, l, b, h1, h2, h3⟩ := h
  rcases gomap.mem_assign_of_mem perms code [] c levels h1 with h4 | ⟨_, h5⟩
  · exact ⟨c, levels, l, b, h4, h2, h3⟩
  · rw [hi] at h5
    cases h5

theorem collect_mono (id : Int) (perms : permissionsMap) (permission : entity.Permission)
    (call : AuthCall) (h : call ∈ addRolePermissions id perms) :
    call ∈ addRolePermissions id (collect perms permission) := by
  unfold collect
  split_ifs
  · exact h
  · apply ensureLevelPermissions_mono
    cases hi : gomap.index perms permission.Code with
    | none => exact assign_empty_mono id perms _ call hi h
    | some _ => exact h

theorem foldl_collect_mono (id : Int) (permissions : List entity.Permission)
    (perms : permissionsMap) (call : AuthCall) (h : call ∈ addRolePermissions id perms) :
    call ∈ addRolePermissions id (permissions.foldl collect perms) := by
  induction permissions generalizing perms with
  | nil => exact h
  | cons p ps ih => exact ih _ (collect_mono id perms p call h)

/-- The levels that `ensureLevelPermissions` sets for a level. -/
theorem collect_self (id : Int) (perms : permissionsMap) (p : entity.Permission) :
    (p.Level = entity.PermissionLevelRead ∨ p.Level = entity.PermissionLevelWrite ∨
        p.Level = entity.PermissionLevelManage →
      AuthCall.AddRolePermission id p.Code entity.PermissionLevelRead
        ∈ addRolePermissions id (collect perms p)) ∧
    (p.Level = entity.PermissionLevelWrite ∨ p.Level = entity.PermissionLevelManage →
      AuthCall.AddRolePermission id p.Code entity.PermissionLevelWrite
        ∈ addRolePermissions id (collect perms p)) ∧
    (p.Level = entity.PermissionLevelManage →
      AuthCall.AddRolePermission id p.Code entity.PermissionLevelManage
        ∈ addRolePermissions id (collect perms p)) := by
  refine ⟨?_, ?_, ?_⟩
  · intro h
    have hn : p.Level ≠ entity.PermissionLevelNone := by
      rcases h with h | h | h <;> rw [h] <;> decide
    unfold collect ensureLevelPermissions
    rw [if_neg hn]
    apply foldl_setLevel_self
    rcases h with h | h | h <;> rw [h] <;> decide
  · intro h
    have hn : p.Level ≠ entity.PermissionLevelNone := by
      rcases h with h | h <;> rw [h] <;> decide
    unfold collect ensureLevelPermissions
    rw [if_neg hn]
    apply foldl_setLevel_self
    rcases h with h | h <;> rw [h] <;> decide
  · intro h
    have hn : p.Level ≠ entity.PermissionLevelNone := by
      rw [h]
      decide
    unfold collect ensureLevelPermissions
    rw [if_neg hn]
    apply foldl_setLevel_self
    rw [h]
    decide

theorem foldl_collect_self (id : Int) (permissions : List entity.Permission)
    (perms : permissionsMap) (p : entity.Permission) (hp : p ∈ permissions)
    (level : String)
    (h : ∀ perms, AuthCall.AddRolePermission id p.Code level
      ∈ addRolePermissions id (collect perms p)) :
    AuthCall.AddRolePermission id p.Code level
      ∈ addRolePermissions id (permissions.foldl collect perms) := by
  induction permissions generalizing perms with
  | nil => cases hp
  | cons q qs ih =>
    rcases List.mem_cons.mp hp with h1 | h1
    · rw [← h1]
      exact foldl_collect_mono id qs _ _ (h perms)
    · exact ih _ h1

theorem foldl_collect_filter (permissions : List entity.Permission) (perms : permissionsMap) :
    permissions.foldl collect perms
      = (permissions.filter (fun p => p.Level ≠ entity.PermissionLevelNone)).foldl collect
          perms := by
  induction permissions generalizing perms with
  | nil => rfl
  | cons p ps ih =>
    by_cases h : p.Level = entity.PermissionLevelNone
    · have hc : collect perms p = perms := by
        unfold collect
        rw [if_pos h]
      simp only [List.foldl_cons, hc, ih perms, List.filter_cons, h, ne_eq, not_true_eq_false,
        decide_False, Bool.false_eq_true, if_false]
    · simp only [List.foldl_cons, ih (collect perms p), List.filter_cons, h, ne_eq,
        not_false_eq_true, decide_True, if_true]

/-- C21: `SyncPermissions` returns the role and nil; for every permission of the input with
level read, write or manage it calls `AddRolePermission` for the role with the code of the
permission and with that level and every lower one (read for read; read and write for write;
read, write and manage for manage); permissions with level none can be left out of the input
without changing anything, and an input with only such permissions adds nothing after
`DeleteRole`. -/
theorem SyncPermissions_grants_lower_levels (u : entity.Role)
    (permissions : List entity.Permission) :
    (SyncPermissions u permissions).1 = (u, none) ∧
    (∀ p ∈ permissions,
      (p.Level = entity.PermissionLevelRead ∨ p.Level = entity.PermissionLevelWrite ∨
          p.Level = entity.PermissionLevelManage →
        AuthCall.AddRolePermission u.ID p.Code entity.PermissionLevelRead
          ∈ (SyncPermissions u permissions).2) ∧
      (p.Level = entity.PermissionLevelWrite ∨ p.Level = entity.PermissionLevelManage →
        AuthCall.AddRolePermission u.ID p.Code entity.PermissionLevelWrite
          ∈ (SyncPermissions u permissions).2) ∧
      (p.Level = entity.PermissionLevelManage →
        AuthCall.AddRolePermission u.ID p.Code entity.PermissionLevelManage
          ∈ (SyncPermissions u permissions).2)) ∧
    SyncPermissions u permissions
      = SyncPermissions u
          (permissions.filter (fun p => p.Level ≠ entity.PermissionLevelNone)) ∧
    ((∀ p ∈ permissions, p.Level = entity.PermissionLevelNone) →
      (SyncPermissions u permissions).2 = [.DeleteRole u.ID]) := by
  refine ⟨rfl, ?_, ?_, ?_⟩
  · intro p hp
    refine ⟨?_, ?_, ?_⟩
    · intro h
      exact List.mem_cons_of_mem _
        (foldl_collect_self u.ID permissions [] p hp _ (fun perms => (collect_self u.ID perms p).1 h))
    · intro h
      exact List.mem_cons_of_mem _
        (foldl_collect_self u.ID permissions [] p hp _
          (fun perms => (collect_self u.ID perms p).2.1 h))
    · intro h
      exact List.mem_cons_of_mem _
        (foldl_collect_self u.ID permissions [] p hp _
          (fun perms => (collect_self u.ID perms p).2.2 h))
  · unfold SyncPermissions
    rw [foldl_collect_filter]
  · intro h
    unfold SyncPermissions
    rw [foldl_collect_filter]
    have hf : permissions.filter (fun p => p.Level ≠ entity.PermissionLevelNone) = [] := by
      rw [List.filter_eq_nil_iff]
      intro p hp
      simp [h p hp]
    rw [hf]
    rfl

/-- Witness of C21: write on `quote`, manage on `test` and none on `user` for role 2. -/
theorem SyncPermissions_grants_lower_levels_witness :
    (SyncPermissions { ID := 2, Name := "editor" }
      [{ ID := 0, Code := "quote", Level := "write" },
       { ID := 0, Code := "user", Level := "none" },
       { ID := 0, Code := "test", Level := "manage" }]).2
      = [.DeleteRole 2, .AddRolePermission 2 "quote" "read",
          .AddRolePermission 2 "quote" "write", .AddRolePermission 2 "test" "read",
          .AddRolePermission 2 "test" "write", .AddRolePermission 2 "test" "manage"] ∧
    AuthCall.AddRolePermission 2 "test" entity.PermissionLevelManage
      ∈ (SyncPermissions { ID := 2, Name := "editor" }
          [{ ID := 0, Code := "quote", Level := "write" },
           { ID := 0, Code := "user", Level := "none" },
           { ID := 0, Code := "test", Level := "manage" }]).2 :=
  ⟨by decide,
   ((SyncPermissions_grants_lower_levels { ID := 2, Name := "editor" }
      [{ ID := 0, Code := "quote", Level := "write" },
       { ID := 0, Code := "user", Level := "none" },
       { ID := 0, Code := "test", Level := "manage" }]).2.1
      { ID := 0, Code := "test", Level := "manage" } (by decide)).2.2 rfl⟩

/-- C27: for a permission whose level is `edit` (a level of the seed data), `SyncPermissions`
calls `AddRolePermission` with read, write and manage, none of which was requested; the same
holds for every level other than none, read and write. -/
theorem SyncPermissions_grants_unrequested_levels :
    (SyncPermissions { ID := 2, Name := "editor" }
      [{ ID := 0, Code := "test", Level := "edit" }]).2
      = [.DeleteRole 2, .AddRolePermission 2 "test" "read",
          .AddRolePermission 2 "test" "write", .AddRolePermission 2 "test" "manage"] ∧
    (∀ (u : entity.Role) (code level : String),
      level = entity.PermissionLevelNone ∨ level = entity.PermissionLevelRead ∨
        level = entity.PermissionLevelWrite ∨
        (SyncPermissions u [{ ID := 0, Code := code, Level := level }]).2
          = [.DeleteRole u.ID, .AddRolePermission u.ID code "read",
              .AddRolePermission u.ID code "write", .AddRolePermission u.ID code "manage"]) := by
  refine ⟨by decide, ?_⟩
  intro u code level
  by_cases h0 : level = entity.PermissionLevelNone
  · exact Or.inl h0
  by_cases h1 : level = entity.PermissionLevelRead
  · exact Or.inr (Or.inl h1)
  by_cases h2 : level = entity.PermissionLevelWrite
  · exact Or.inr (Or.inr (Or.inl h2))
  refine Or.inr (Or.inr (Or.inr ?_))
  have h0a : ¬ level = "none" := h0
  have h1a : ¬ level = "read" := h1
  have h2a : ¬ level = "write" := h2
  simp [SyncPermissions, collect, ensureLevelPermissions, h0a, h1a, h2a, gomap.index,
    gomap.assign, setLevel, addRolePermissions, entity.PermissionLevelRead,
    entity.PermissionLevelWrite, entity.PermissionLevelManage, entity.PermissionLevelNone]

end role

namespace gqlresolvers

/-- C28: `UpdateRole` with permissions and without users (`Users` nil) calls `SyncUsers`
with no user id and leaves no user attached to the role; with users and without permissions
it does not call `SyncUsers` and leaves the attached users as they were (nor does any input
without permissions lead to a call of `SyncUsers`). `CreateRole` on the same inputs calls
`SyncUsers` exactly for the input that has users. -/
theorem UpdateRole_syncs_users_on_permissions :
    ((UpdateRole exampleRoles permissionsOnly).err = none ∧
      (UpdateRole exampleRoles permissionsOnly).calls
        = [.Update { ID := 2, Name := "editor" },
            .SyncPermissions { ID := 2, Name := "editor" }
              [{ ID := 0, Code := "quote", Level := "read" }],
            .SyncUsers { ID := 2, Name := "editor" } []] ∧
      (UpdateRole exampleRoles permissionsOnly).store.roleUser = [(5, 1)]) ∧
    ((UpdateRole exampleRoles usersOnly).err = none ∧
      (UpdateRole exampleRoles usersOnly).calls = [.Update { ID := 2, Name := "editor" }] ∧
      (UpdateRole exampleRoles usersOnly).store.roleUser = [(5, 2), (6, 2), (5, 1)]) ∧
    (∀ (s : role.Store) (id : Option Int) (name : String) (users : Option (List Int))
        (u : entity.Role) (userIDs : List Int),
      RoleCall.SyncUsers u userIDs
        ∉ (UpdateRole s { ID := id, Name := name, Permissions := none, Users := users }).calls) ∧
    ((CreateRole exampleRoles permissionsOnly).calls
        = [.Create { ID := 2, Name := "editor" },
            .SyncPermissions { ID := 3, Name := "editor" }
              [{ ID := 0, Code := "quote", Level := "read" }]] ∧
      (CreateRole exampleRoles usersOnly).calls
        = [.Create { ID := 2, Name := "editor" },
            .SyncUsers { ID := 3, Name := "editor" } [7]]) := by
  refine ⟨by decide, by decide, ?_, by decide⟩
  intro s id name users u userIDs
  unfold UpdateRole
  by_cases hF : (role.ValidateUpdateRequest
      { ID := id, Name := name, Permissions := none, Users := users }).Failed = true
  · rw [if_pos hF]
    simp
  · rw [if_neg hF]
    dsimp only [syncPermissions]
    cases (s.Update (toRoleEntity
      { ID := id, Name := name, Permissions := none, Users := users })).1.2 <;> simp

end gqlresolvers

namespace i18n

/-- C25: the message is `{a}` and the variables are `a`, whose value is `{b}`, and `b`, whose
value is `x`: when the `range` visits `a` first `GetVar` returns `x`, when it visits `b` first
`GetVar` returns `{b}`. -/
theorem GetVar_depends_on_order :
    nestedLocale.Get 2 "msg" = some "\x7ba\x7d" ∧
    nestedLocale.GetVar 2 "msg" [("a", "\x7bb\x7d"), ("b", "x")] = some "x" ∧
    nestedLocale.GetVar 2 "msg" [("b", "x"), ("a", "\x7bb\x7d")] = some "\x7bb\x7d" := by
  decide

end i18n

namespace log

theorem Flush_closed (b : Writer) (h : b.closed = true) :
    b.Flush.file = b.file ∧ b.Flush.closed = true := by
  unfold Writer.Flush
  split_ifs <;> simp_all

theorem direct_closed (b : Writer) (p : List UInt8) (h : b.closed = true) :
    (b.direct p).file = b.file ∧ (b.direct p).closed = true := by
  unfold Writer.direct
  simp [h]

theorem Write_closed (b : Writer) (p : List UInt8) (h : b.closed = true) :
    (b.Write p).file = b.file ∧ (b.Write p).closed = true := by
  unfold Writer.Write
  dsimp only
  have hf := Flush_closed { b with buf := b.buf ++ p.take b.Available } h
  have hd := direct_closed ({ b with buf := b.buf ++ p.take b.Available }).Flush
    (p.drop b.Available) hf.2
  by_cases h1 : p.length > b.Available ∧ b.err = false
  · rw [if_pos h1]
    by_cases h2 : b.buf.length = 0
    · rw [if_pos h2]
      exact direct_closed b p h
    · rw [if_neg h2]
      split_ifs
      · exact ⟨hd.1.trans hf.1, hd.2⟩
      · exact hf
      · exact hf
  · rw [if_neg h1]
    split_ifs
    · exact ⟨rfl, h⟩
    · exact ⟨rfl, h⟩

theorem run_closed (events : List Event) (w : MaxLatencyWriter) (h : w.dst.closed = true) :
    (run w events).dst.file = w.dst.file := by
  induction events generalizing w with
  | nil => rfl
  | cons e es ih =>
    cases e with
    | Write p =>
      have hw := Write_closed w.dst p h
      have hf := Flush_closed (w.dst.Write p) hw.2
      have h1 : (w.Write p).dst.file = w.dst.file ∧ (w.Write p).dst.closed = true := by
        unfold MaxLatencyWriter.Write
        dsimp only
        split_ifs
        · exact ⟨hf.1.trans hw.1, hf.2⟩
        · exact hw
        · exact hw
      unfold run
      rw [ih _ h1.2, h1.1]
    | timer =>
      have hf := Flush_closed w.dst h
      have h1 : w.delayedFlush.dst.file = w.dst.file ∧ w.delayedFlush.dst.closed = true := by
        unfold MaxLatencyWriter.delayedFlush
        dsimp only
        split_ifs
        · exact ⟨rfl, h⟩
        · exact hf
      unfold run
      split_ifs
      · rw [ih _ h1.2, h1.1]
      · exact ih _ h
    | cleanup =>
      unfold run
      rw [ih _ rfl]
      rfl

/-- C26: the cleanup function moves no byte from the buffer to the file, whatever the state
of the writer, and nothing that happens afterwards does. After `Write("hello")` and the
cleanup (the timer has not fired) the file is empty and the five bytes are still in the
buffer; had the timer fired before the cleanup, they would be in the file. -/
theorem cleanup_does_not_flush :
    (∀ w : MaxLatencyWriter,
      (cleanup w).dst.file = w.dst.file ∧ (cleanup w).dst.buf = w.dst.buf) ∧
    (∀ (w : MaxLatencyWriter) (events : List Event),
      (run (cleanup w) events).dst.file = w.dst.file) ∧
    (run (GetMaxLatencyWriter []) [.Write [104, 101, 108, 108, 111], .cleanup]).dst.file = [] ∧
    (run (GetMaxLatencyWriter []) [.Write [104, 101, 108, 108, 111], .cleanup]).dst.buf
      = [104, 101, 108, 108, 111] ∧
    (run (GetMaxLatencyWriter []) [.Write [104, 101, 108, 108, 111], .timer, .cleanup]).dst.file
      = [104, 101, 108, 108, 111] := by
  refine ⟨fun w => ⟨rfl, rfl⟩, ?_, by decide, by decide, by decide⟩
  intro w events
  exact run_closed events (cleanup w) rfl

end log
namespace i18n

theorem Get_succ (l : Locale) (fuel : Nat) (key : String) :
    l.Get (fuel + 1) key =
      match walk (.map l.Data) (strings.Split key ".") with
      | none => some key
      | some obj =>
        if strings.HasPrefix (Sprintf obj) ReferencePrefix then
          l.Get fuel (strings.Replace (Sprintf obj) ReferencePrefix "" 1)
        else some (Sprintf obj) := by
  rw [Locale.Get]

theorem Get_of_rank (l : Locale) (rank : String → Nat)
    (h : ∀ key obj, walk (.map l.Data) (strings.Split key ".") = some obj →
      strings.HasPrefix (Sprintf obj) ReferencePrefix = true →
      rank (strings.Replace (Sprintf obj) ReferencePrefix "" 1) < rank key) :
    ∀ (n : Nat) (key : String), rank key ≤ n →
      ∃ s, ∀ fuel, rank key < fuel → l.Get fuel key = some s := by
  intro n
  induction n with
  | zero =>
    intro key hk
    cases hw : walk (.map l.Data) (strings.Split key ".") with
    | none =>
      refine ⟨key, fun fuel hf => ?_⟩
      obtain ⟨f, rfl⟩ : ∃ f, fuel = f + 1 := ⟨fuel - 1, by omega⟩
      rw [Get_succ, hw]
    | some obj =>
      by_cases hp : strings.HasPrefix (Sprintf obj) ReferencePrefix = true
      · have := h key obj hw hp
        omega
      · refine ⟨Sprintf obj, fun fuel hf => ?_⟩
        obtain ⟨f, rfl⟩ : ∃ f, fuel = f + 1 := ⟨fuel - 1, by omega⟩
        rw [Get_succ, hw]
        simp only [hp]
        rfl
  | succ n ih =>
    intro key hk
    cases hw : walk (.map l.Data) (strings.Split key ".") with
    | none =>
      refine ⟨key, fun fuel hf => ?_⟩
      obtain ⟨f, rfl⟩ : ∃ f, fuel = f + 1 := ⟨fuel - 1, by omega⟩
      rw [Get_succ, hw]
    | some obj =>
      by_cases hp : strings.HasPrefix (Sprintf obj) ReferencePrefix = true
      · have hlt := h key obj hw hp
        obtain ⟨s, hs⟩ := ih (strings.Replace (Sprintf obj) ReferencePrefix "" 1) (by omega)
        refine ⟨s, fun fuel hf => ?_⟩
        obtain ⟨f, rfl⟩ : ∃ f, fuel = f + 1 := ⟨fuel - 1, by omega⟩
        rw [Get_succ, hw]
        simp only [hp, if_true]
        exact hs f (by omega)
      · refine ⟨Sprintf obj, fun fuel hf => ?_⟩
        obtain ⟨f, rfl⟩ : ∃ f, fuel = f + 1 := ⟨fuel - 1, by omega⟩
        rw [Get_succ, hw]
        simp only [hp]
        rfl

end i18n
namespace i18n

theorem HasPrefix_map (entries : List (String × Value)) :
    strings.HasPrefix (Sprintf (.map entries)) ReferencePrefix = false := by
  rw [Sprintf]
  simp [strings.HasPrefix, ReferencePrefix, String.data_append]
  rfl

theorem walk_str (s : String) (arr : List String) (obj : Value)
    (h : walk (.str s) arr = some obj) : arr = [] ∧ obj = .str s := by
  cases arr with
  | nil =>
    simp only [walk, Option.some.injEq] at h
    exact ⟨rfl, h.symm⟩
  | cons k rest => simp [walk, getProperty] at h

theorem walk_map_cons (entries : List (String × Value)) (k : String) (rest : List String)
    (obj : Value) (h : walk (.map entries) (k :: rest) = some obj) :
    ∃ v, gomap.index entries k = some v ∧ walk v rest = some obj := by
  simp only [walk, getProperty] at h
  cases hi : gomap.index entries k with
  | none => simp [hi] at h
  | some v =>
    refine ⟨v, rfl, ?_⟩
    rw [hi] at h
    cases v <;> simp_all

end i18n
namespace i18n

theorem walk_leaves (entries : List (String × Value))
    (hl : ∀ k v, gomap.index entries k = some v →
      ∃ s, v = .str s ∧ strings.HasPrefix s ReferencePrefix = false)
    (arr : List String) (obj : Value) (h : walk (.map entries) arr = some obj) :
    strings.HasPrefix (Sprintf obj) ReferencePrefix = false := by
  cases arr with
  | nil =>
    simp only [walk, Option.some.injEq] at h
    rw [← h]
    exact HasPrefix_map entries
  | cons k rest =>
    obtain ⟨v, hv, hw⟩ := walk_map_cons entries k rest obj h
    obtain ⟨s, rfl, hs⟩ := hl k v hv
    rw [(walk_str s rest obj hw).2]
    exact hs

end i18n
namespace gomap

theorem index_assign {α : Type} (m : List (String × α)) (k : String) (v : α) (key : String) :
    index (assign m k v) key = if k = key then some v else index m key := by
  induction m with
  | nil => simp [assign, index]
  | cons a l ih =>
    obtain ⟨k1, w⟩ := a
    unfold assign
    by_cases h1 : k1 = k
    · rw [if_pos h1]
      subst h1
      by_cases h : k1 = key <;> simp [index, h]
    · rw [if_neg h1]
      by_cases h2 : k1 = key
      · subst h2
        have h3 : ¬ k = k1 := fun e => h1 e.symm
        simp [index, h3]
      · simp [index, h2, ih]

theorem index_append {α : Type} (a b : List (String × α)) (key : String) :
    index (a ++ b) key = (index a key <|> index b key) := by
  induction a with
  | nil => simp [index]
  | cons x l ih =>
    obtain ⟨k1, w⟩ := x
    by_cases h : k1 = key <;> simp [index, h, ih]

theorem index_foldl_assign {α : Type} (data m : List (String × α)) (key : String) :
    index (data.foldl (fun merged kv => assign merged kv.1 kv.2) m) key
      = (index data.reverse key <|> index m key) := by
  induction data generalizing m with
  | nil => simp [index]
  | cons kv rest ih =>
    rw [List.foldl_cons, ih, index_assign, List.reverse_cons, index_append]
    obtain ⟨k, v⟩ := kv
    cases index rest.reverse key with
    | some w => simp
    | none =>
      by_cases h : k = key <;> simp [index, h]

end gomap

namespace validation

theorem index_mergeData (translatedField : String) (data : List (String × String))
    (k : String) :
    gomap.index (mergeData translatedField data) k
      = (gomap.index data.reverse k <|> if k = "field" then some translatedField else none) := by
  unfold mergeData
  rw [gomap.index_foldl_assign]
  by_cases h : k = "field"
  · subst h
    simp [gomap.index]
  · have h1 : ¬ "field" = k := fun e => h e.symm
    simp [gomap.index, h, h1]

theorem Get_map (e : ErrorBag) (f : String → Error → Error) (key : String) :
    ({ errors := e.errors.map fun entry => (entry.1, entry.2.map (f entry.1)),
       subject := e.subject } : ErrorBag).Get key
      = (e.Get key).map (f key) := by
  unfold ErrorBag.Get
  generalize e.errors = errors
  induction errors with
  | nil => rfl
  | cons a l ih =>
    obtain ⟨k, errs⟩ := a
    by_cases h : k = key
    · subst h
      simp
    · simp only [List.map_cons, List.find?_cons, h, decide_False]
      exact ih

theorem mem_of_mem_Get (e : ErrorBag) (key : String) (err : Error) (h : err ∈ e.Get key) :
    ∃ entry ∈ e.errors, entry.1 = key ∧ err ∈ entry.2 := by
  unfold ErrorBag.Get at h
  cases hf : e.errors.find? (fun entry => entry.1 = key) with
  | none =>
    rw [hf] at h
    cases h
  | some entry =>
    rw [hf] at h
    have h1 := List.find?_some hf
    exact ⟨entry, List.mem_of_find?_eq_some hf, by simpa using h1, h⟩

theorem exists_bound (entries : List (String × List Error)) (g : String → Error → Nat) :
    ∃ N, ∀ entry ∈ entries, ∀ err ∈ entry.2, g entry.1 err < N := by
  have inner : ∀ (key : String) (errs : List Error), ∃ N, ∀ err ∈ errs, g key err < N := by
    intro key errs
    induction errs with
    | nil => exact ⟨0, fun err h => by cases h⟩
    | cons a l ih =>
      obtain ⟨N, hN⟩ := ih
      refine ⟨max N (g key a + 1), fun err h => ?_⟩
      rcases List.mem_cons.1 h with rfl | h1
      · omega
      · have := hN err h1
        omega
  induction entries with
  | nil => exact ⟨0, fun entry h => by cases h⟩
  | cons a l ih =>
    obtain ⟨N, hN⟩ := ih
    obtain ⟨M, hM⟩ := inner a.1 a.2
    refine ⟨max N M, fun entry h err herr => ?_⟩
    rcases List.mem_cons.1 h with rfl | h1
    · have := hM err herr
      omega
    · have := hN entry h1 err herr
      omega

theorem translate_of_rank (subject : String) (locale : i18n.Locale) (rank : String → Nat)
    (h : ∀ key obj, i18n.walk (.map locale.Data) (strings.Split key ".") = some obj →
      strings.HasPrefix (i18n.Sprintf obj) i18n.ReferencePrefix = true →
      rank (strings.Replace (i18n.Sprintf obj) i18n.ReferencePrefix "" 1) < rank key)
    (N : Nat) (key : String) (err : Error)
    (hk : rank (subject ++ ".fields." ++ key) < N) (hm : rank err.Message < N) :
    ∃ field translated, ∀ fuel, N ≤ fuel →
      locale.Get fuel (subject ++ ".fields." ++ key) = some field ∧
      locale.GetVar fuel err.Message (mergeData field err.Data) = some translated ∧
      translate subject locale fuel key err
        = some { err with Translated := translated, Data := mergeData field err.Data } := by
  obtain ⟨field, hfield⟩ :=
    i18n.Get_of_rank locale rank h _ (subject ++ ".fields." ++ key) (Nat.le_refl _)
  obtain ⟨out, hout⟩ := i18n.Get_of_rank locale rank h _ err.Message (Nat.le_refl _)
  refine ⟨field, (mergeData field err.Data).foldl
    (fun out kv => strings.ReplaceAll out ("\x7b" ++ kv.1 ++ "\x7d") kv.2) out, ?_⟩
  intro fuel hfuel
  have h1 := hfield fuel (by omega)
  have h2 : locale.GetVar fuel err.Message (mergeData field err.Data)
      = some ((mergeData field err.Data).foldl
          (fun out kv => strings.ReplaceAll out ("\x7b" ++ kv.1 ++ "\x7d") kv.2) out) := by
    unfold i18n.Locale.GetVar
    rw [hout fuel (by omega)]
    rfl
  refine ⟨h1, h2, ?_⟩
  unfold translate
  rw [h1]
  dsimp only
  rw [h2]

theorem translateAll_map (subject : String) (locale : i18n.Locale) (fuel : Nat) (key : String)
    (f : Error → Error) (errs : List Error)
    (h : ∀ err ∈ errs, translate subject locale fuel key err = some (f err)) :
    translateAll subject locale fuel key errs = some (errs.map f) := by
  induction errs with
  | nil => rfl
  | cons a l ih =>
    unfold translateAll
    rw [h a (List.mem_cons_self _ _), ih (fun err he => h err (List.mem_cons_of_mem _ he))]
    rfl

theorem translateEntries_map (subject : String) (locale : i18n.Locale) (fuel : Nat)
    (f : String → Error → Error) (entries : List (String × List Error))
    (h : ∀ entry ∈ entries, ∀ err ∈ entry.2,
      translate subject locale fuel entry.1 err = some (f entry.1 err)) :
    translateEntries subject locale fuel entries
      = some (entries.map fun entry => (entry.1, entry.2.map (f entry.1))) := by
  induction entries with
  | nil => rfl
  | cons a l ih =>
    unfold translateEntries
    rw [translateAll_map subject locale fuel a.1 (f a.1) a.2 (h a (List.mem_cons_self _ _)),
      ih (fun entry he => h entry (List.mem_cons_of_mem _ he))]
    rfl

theorem Get_cyclicLocale (fuel : Nat) : cyclicLocale.Get fuel "user.fields.name" = none := by
  induction fuel with
  | zero => rfl
  | succ f ih =>
    have step : cyclicLocale.Get (f + 1) "user.fields.name"
        = cyclicLocale.Get f "user.fields.name" := by
      rw [i18n.Get_succ]
      rfl
    rw [step, ih]

theorem testLocale_no_references (arr : List String) (obj : i18n.Value)
    (hw : i18n.walk (.map testLocale.Data) arr = some obj) :
    strings.HasPrefix (i18n.Sprintf obj) i18n.ReferencePrefix = false := by
  cases arr with
  | nil =>
    simp only [i18n.walk, Option.some.injEq] at hw
    rw [← hw]
    exact i18n.HasPrefix_map _
  | cons k rest =>
    obtain ⟨v, hv, hw1⟩ := i18n.walk_map_cons _ k rest obj hw
    simp only [testLocale, gomap.index] at hv
    split_ifs at hv with h1 h2
    · cases hv
      exact i18n.walk_leaves _ (by
        intro k v hk
        simp only [gomap.index] at hk
        split_ifs at hk
        · cases hk
          exact ⟨_, rfl, by decide⟩
        · cases hk
          exact ⟨_, rfl, by decide⟩) rest obj hw1
    · cases hv
      cases rest with
      | nil =>
        simp only [i18n.walk, Option.some.injEq] at hw1
        rw [← hw1]
        exact i18n.HasPrefix_map _
      | cons k2 rest2 =>
        obtain ⟨v2, hv2, hw2⟩ := i18n.walk_map_cons _ k2 rest2 obj hw1
        simp only [gomap.index] at hv2
        split_ifs at hv2 with h3
        cases hv2
        exact i18n.walk_leaves _ (by
          intro k v hk
          simp only [gomap.index] at hk
          split_ifs at hk
          · cases hk
            exact ⟨_, rfl, by decide⟩
          · cases hk
            exact ⟨_, rfl, by decide⟩) rest2 obj hw2

/-- C24, as stated, fails. On the locale in which the name of the field `name` of `user`
refers to itself, `TranslatedErrors` of a bag with an error under `name` does not return:
its call of `Get` recurses without end. And for an error whose data has an entry `field` of
its own, the translation uses that entry and not `Get(subject + ".fields." + key)`: in the
locale of the test the error under `username` with the data `field = OWN` is translated to
"OWN wird benötigt", where the name of the field is "Benutzername". -/
theorem TranslatedErrors_counterexample :
    (¬ ∃ (fuel : Nat) (t : List (String × List Error)),
      cyclicBag.TranslatedErrors cyclicLocale fuel = some t) ∧
    ownFieldBag.TranslatedErrors testLocale 1
      = some [("username",
          [{ Key := "username", Message := "validation.required",
             Translated := "OWN wird benötigt", Data := [("field", "OWN")] }])] ∧
    testLocale.Get 1 "subject.fields.username" = some "Benutzername" ∧
    testLocale.GetVar 1 "validation.required" [("field", "Benutzername")]
      = some "Benutzername wird benötigt" := by
  refine ⟨?_, by decide, by decide, by decide⟩
  rintro ⟨fuel, t, h⟩
  have hk : "user" ++ ".fields." ++ "name" = "user.fields.name" := by decide
  have hb : cyclicBag.TranslatedErrors cyclicLocale fuel = none := by
    simp only [ErrorBag.TranslatedErrors, cyclicBag, NewErrorBag, ErrorBag.Add,
      ErrorBag.AddData, appendError, translateEntries, translateAll, translate, hk,
      Get_cyclicLocale]
  rw [hb] at h
  cases h

/-- C24, amended: on a locale whose references descend along a rank of the keys (so that every
call of `Get` returns), `TranslatedErrors` returns, for every depth of recursion from some
bound on, one and the same map. It has the keys of the bag; under every key it holds as many
errors as the bag, and the error at each position keeps `Key` and `Message`, its `Translated`
is `GetVar(Message, D)` and its `Data` is `D`, where `D` holds the data of the error and,
under `field`, the text `Get(subject + ".fields." + key)` unless the data of the error has an
entry `field` of its own, which then takes precedence. -/
theorem TranslatedErrors_translates_each_error (e : ErrorBag) (locale : i18n.Locale)
    (rank : String → Nat)
    (h : ∀ key obj, i18n.walk (.map locale.Data) (strings.Split key ".") = some obj →
      strings.HasPrefix (i18n.Sprintf obj) i18n.ReferencePrefix = true →
      rank (strings.Replace (i18n.Sprintf obj) i18n.ReferencePrefix "" 1) < rank key) :
    ∃ (bound : Nat) (t : List (String × List Error)),
      (∀ fuel, bound ≤ fuel → e.TranslatedErrors locale fuel = some t) ∧
      t.map Prod.fst = e.errors.map Prod.fst ∧
      ∀ key : String,
        (({ errors := t, subject := e.subject } : ErrorBag).Get key).length
          = (e.Get key).length ∧
        ∀ (i : Nat) (err : Error), (e.Get key)[i]? = some err →
          ∃ (terr : Error) (field : String),
            (({ errors := t, subject := e.subject } : ErrorBag).Get key)[i]? = some terr ∧
            terr.Key = err.Key ∧ terr.Message = err.Message ∧
            (∀ fuel, bound ≤ fuel →
              locale.Get fuel (e.subject ++ ".fields." ++ key) = some field ∧
              locale.GetVar fuel err.Message (mergeData field err.Data)
                = some terr.Translated) ∧
            terr.Data = mergeData field err.Data ∧
            ∀ k, gomap.index terr.Data k
              = (gomap.index err.Data.reverse k <|>
                  if k = "field" then some field else none) := by
  obtain ⟨N, hN⟩ := exists_bound e.errors
    (fun key err => max (rank (e.subject ++ ".fields." ++ key)) (rank err.Message))
  have hrank : ∀ entry ∈ e.errors, ∀ err ∈ entry.2,
      ∃ field translated, ∀ fuel, N ≤ fuel →
        locale.Get fuel (e.subject ++ ".fields." ++ entry.1) = some field ∧
        locale.GetVar fuel err.Message (mergeData field err.Data) = some translated ∧
        translate e.subject locale fuel entry.1 err
          = some { err with Translated := translated, Data := mergeData field err.Data } := by
    intro entry he err herr
    have := hN entry he err herr
    exact translate_of_rank e.subject locale rank h N entry.1 err (by omega) (by omega)
  refine ⟨N, e.errors.map fun entry =>
    (entry.1, entry.2.map fun err => (translate e.subject locale N entry.1 err).getD err),
    ?_, ?_, ?_⟩
  · intro fuel hfuel
    unfold ErrorBag.TranslatedErrors
    apply translateEntries_map e.subject locale fuel
      (fun key err => (translate e.subject locale N key err).getD err)
    intro entry he err herr
    obtain ⟨field, translated, hall⟩ := hrank entry he err herr
    rw [(hall fuel hfuel).2.2, (hall N (Nat.le_refl _)).2.2]
    rfl
  · rw [List.map_map]
    rfl
  · intro key
    rw [Get_map e (fun key err => (translate e.subject locale N key err).getD err) key]
    refine ⟨List.length_map _ _, ?_⟩
    intro i err hi
    obtain ⟨entry, he, hkey, herr⟩ := mem_of_mem_Get e key err (List.getElem?_mem hi)
    subst hkey
    obtain ⟨field, translated, hall⟩ := hrank entry he err herr
    refine ⟨{ err with Translated := translated, Data := mergeData field err.Data }, field,
      ?_, rfl, rfl, ?_, rfl, ?_⟩
    · rw [List.getElem?_map, hi, Option.map_some', (hall N (Nat.le_refl _)).2.2]
      rfl
    · intro fuel hfuel
      exact ⟨(hall fuel hfuel).1, (hall fuel hfuel).2.1⟩
    · exact fun k => index_mergeData _ _ k

/-- Witness of the amended C24: the bag and the locale of the test, which holds no
reference; the error under `password` is translated to `Passwort 4` with the data `field`
and `size`. -/
theorem TranslatedErrors_translates_each_error_witness :
    testBag.TranslatedErrors testLocale 1
      = some [("username",
          [{ Key := "username", Message := "validation.required",
             Translated := "Benutzername wird benötigt",
             Data := [("field", "Benutzername")] }]),
         ("password",
          [{ Key := "password", Message := "validation.min_length",
             Translated := "Passwort 4",
             Data := [("field", "Passwort"), ("size", "4")] }])] ∧
    ∃ (bound : Nat) (t : List (String × List Error)),
      (∀ fuel, bound ≤ fuel → testBag.TranslatedErrors testLocale fuel = some t) ∧
      t.map Prod.fst = testBag.errors.map Prod.fst :=
  ⟨by decide, by
    obtain ⟨bound, t, h1, h2, _⟩ :=
      TranslatedErrors_translates_each_error testBag testLocale (fun _ => 0)
        (fun key obj hw hp => by
          rw [testLocale_no_references _ obj hw] at hp
          cases hp)
    exact ⟨bound, t, h1, h2⟩⟩

end validation
